import Mathlib

/-! # Allocation-site tracer of the time-travel debugger (TTAllocTracing.cpp)

A shallow embedding of `AllocTracing::AllocTracer` and the classes it uses.
Pointers (`Js::FunctionBody*`, `Js::RecyclableObject*`, `ThreadContext*`) are
natural numbers (their addresses); everything the tracer asks of the runtime
is a field of `Host`.  `JsUtil::List` is a Lean list whose last element is the
most recently added one.  `size_t` counters are natural numbers: a counter
is only ever incremented once per allocation or per live object and is taken
not to wrap; the two totals of an emission, which add up the counters of all
roots, are reduced modulo 2^64.  Where the source computes in 32 bits (the
line and column casts, the product in the dictionary key of
`ExtendPathTreeForAllocation`) or casts a pointer to `int64`, the reduction
modulo 2^32 or 2^64 is written out.  A `char16` string is the list of its
UTF-16 code units, each below 65536.
-/

namespace AllocTracing

/-! ## The runtime seen from the tracer -/

/-- The type `char16`: one UTF-16 code unit. -/
abbrev char16 : Type := Fin 65536

/-- The function `wcslen` on a `const char16*`.  A string is given by the code
units of its buffer; the units after the last one of the list are null, so the
length is the number of units before the first null. -/
def wcslen (s : List char16) : Nat :=
  (s.takeWhile (fun c => c != 0)).length

/-- The runtime services the tracer calls, indexed by the address of the
function body or object they are called on. -/
structure Host where
  /-- The value of `_WIN32`: selects the path separator of `IsInternalLocation`. -/
  win32 : Bool
  /-- The value of `sizeof(Js::FunctionBody)`, the stride of pointer arithmetic on `cbody`. -/
  sizeofFunctionBody : Nat
  /-- The result of `Function->GetSourceContextInfo()`: `none` is a null info,
  `some none` an info whose `url` is null. -/
  GetSourceContextInfo : Nat → Option (Option (List char16))
  /-- The value of `Function->GetUtf8SourceInfo()->GetSourceContextInfo()->url`. -/
  GetUtf8SourceUrl : Nat → Option (List char16)
  /-- The call `Function->GetEnclosingStatementIndexFromByteCode(BytecodeIndex)`. -/
  GetEnclosingStatementIndexFromByteCode : Nat → Nat → Int
  /-- The call `Function->GetStatementStartOffset(cIndex)`. -/
  GetStatementStartOffset : Nat → Int → Nat
  /-- The call `Function->GetLineCharOffsetFromStartChar(startOffset, &sline, &scolumn)`:
  the values left in `sline` (a `ULONG`) and `scolumn` (a `LONG`). -/
  GetLineCharOffsetFromStartChar : Nat → Nat → Nat × Int
  /-- The call `recycler->IsAllocTrackable(obj)`. -/
  IsAllocTrackable : Nat → Bool
  /-- The call `obj->GetScriptContext()->GetThreadContext()`. -/
  GetThreadContext : Nat → Nat
  /-- The call `key->GetTypeId()`. -/
  GetTypeId : Nat → Nat
  /-- The test `Js::StaticType::Is(tid)`. -/
  StaticTypeIs : Nat → Bool
  /-- The constant `Js::TypeIds_String`. -/
  TypeIds_String : Nat
  /-- The call `Js::JavascriptString::FromVar(key)->GetLength()`. -/
  GetLength : Nat → Nat
  /-- The call `key->GetPropertyCount()`. -/
  GetPropertyCount : Nat → Nat
  /-- The value of `sizeof(Js::Var)`, which is `ALLOC_TRACING_DYNAMIC_ENTRY_SIZE`. -/
  sizeofVar : Nat
  /-- The call `Function->GetDisplayName()`. -/
  GetDisplayName : Nat → List char16
  /-- The text `utf8::DecodeUnitsIntoAndNullTerminate` leaves in the buffer for
  the source of `Function->GetUtf8SourceInfo()`. -/
  DecodedSource : Nat → List char16
  /-- Whether `pfOpenResourceStream` returns a non-null handle for the
  resource `allocTracing_<snapId>.json`. -/
  OpenResourceStream : Int → Bool

/-- The ways a debug build stops: a failed `AssertMsg`, or an index outside a list. -/
inductive TraceError where
  /-- The assertion `AssertMsg(this->m_callStack.Count() != 0, "Underflow")`. -/
  | Underflow
  /-- The assertion `AssertMsg(tentry->IsTerminalStatsEntry, "Something went wrong in the tree expansion")`. -/
  | TreeExpansion
  /-- The call `callStack.Item(position)` or `currentPaths->Item(key)` with nothing there. -/
  | MissingItem
  /-- The assertion `AssertMsg(root->IsInterestingSite, "Check this before trying to write!!!")`. -/
  | NotInteresting
  /-- The read `GetSourceContextInfo()->url` through a null source context info. -/
  | NullSourceContextInfo
  /-- The assertion `TTDAssert(traceHandle != nullptr, ...)`. -/
  | StreamNotOpened
  deriving DecidableEq, Repr

/-! ## Data model -/

/-- The struct `AllocTracer::AllocCallStackEntry`. -/
structure AllocCallStackEntry where
  Function : Nat
  BytecodeIndex : Nat
  deriving DecidableEq, Repr

/-- The class `SourceLocation` of TTAllocTracing.cpp: function, line, column. -/
structure SourceLocation where
  m_function : Nat
  m_line : Nat
  m_column : Nat
  deriving DecidableEq, Repr

/-- The class `AllocSiteStats`: the allocation counter and the weak live set,
the latter as the list of the addresses it holds. -/
structure AllocSiteStats where
  m_threadContext : Nat
  m_allocationCount : Nat
  m_allocationLiveSet : List Nat
  deriving DecidableEq, Repr

/-- The struct `AllocTracer::AllocPathEntry`.  The flag `IsTerminalStatsEntry`
and the union it discriminates are the two constructors; a dictionary of
caller paths is the list of its (key, entry) pairs. -/
inductive AllocPathEntry where
  | terminal (Location : SourceLocation) (LiveCount LiveSizeEstimate : Nat)
      (IsInterestingSite : Bool) (TerminalStats : AllocSiteStats)
  | node (Location : SourceLocation) (LiveCount LiveSizeEstimate : Nat)
      (IsInterestingSite : Bool) (CallerPaths : List (Int × AllocPathEntry))

/-- The type `CallerPathList` as TTAllocTracing.cpp uses it: a dictionary from
`int64` keys to path entries. -/
abbrev CallerPathList := List (Int × AllocPathEntry)

/-- The field `IsTerminalStatsEntry`. -/
def AllocPathEntry.IsTerminalStatsEntry : AllocPathEntry → Bool
  | .terminal _ _ _ _ _ => true
  | .node _ _ _ _ _ => false

/-- The field `Location`. -/
def AllocPathEntry.Location : AllocPathEntry → SourceLocation
  | .terminal loc _ _ _ _ => loc
  | .node loc _ _ _ _ => loc

/-- The field `LiveCount`. -/
def AllocPathEntry.LiveCount : AllocPathEntry → Nat
  | .terminal _ c _ _ _ => c
  | .node _ c _ _ _ => c

/-- The field `LiveSizeEstimate`. -/
def AllocPathEntry.LiveSizeEstimate : AllocPathEntry → Nat
  | .terminal _ _ s _ _ => s
  | .node _ _ s _ _ => s

/-- The field `IsInterestingSite`. -/
def AllocPathEntry.IsInterestingSite : AllocPathEntry → Bool
  | .terminal _ _ _ b _ => b
  | .node _ _ _ b _ => b

/-- The field `TerminalStats`, present when the entry is terminal. -/
def AllocPathEntry.TerminalStats : AllocPathEntry → Option AllocSiteStats
  | .terminal _ _ _ _ stats => some stats
  | .node _ _ _ _ _ => none

/-- The class `AllocTracer`: the shadow call stack, the scratch list
`m_prunedCallStack` and the roots of the path tree. -/
structure AllocTracer where
  m_callStack : List AllocCallStackEntry
  m_prunedCallStack : List AllocCallStackEntry
  m_allocPathRoots : CallerPathList

/-! ## The dictionary behind `CallerPathList` -/

/-- Modelled from the spec: the dictionary class behind `m_allocPathRoots` and
`CallerPaths` is not among the sources; the spec fixes an insertion-ordered map
keyed by the frame key.  `ContainsKey` tells whether a key has an entry. -/
def ContainsKey (d : CallerPathList) (key : Int) : Bool :=
  d.any (fun kv => kv.1 == key)

/-- Modelled from the spec: `Item(key)` of the same dictionary, the entry
stored under the key. -/
def Item (d : CallerPathList) (key : Int) : Option AllocPathEntry :=
  match d with
  | [] => none
  | kv :: rest => if kv.1 == key then some kv.2 else Item rest key

/-- Modelled from the spec: `Add(key, value)` of the same dictionary; a new
entry goes after the existing ones. -/
def Add (d : CallerPathList) (key : Int) (value : AllocPathEntry) : CallerPathList :=
  d ++ [(key, value)]

/-- The effect on the dictionary of writing through the pointer `Item(key)`
returned: the entry under the key is replaced, every other entry stays. -/
def StoreItem (d : CallerPathList) (key : Int) (value : AllocPathEntry) : CallerPathList :=
  match d with
  | [] => []
  | kv :: rest =>
    if kv.1 == key then (kv.1, value) :: rest else kv :: StoreItem rest key value

/-! ## Source locations and site statistics -/

/-- The method `AllocTracer::IsInternalLocation`.  The code units 92, 47 and 58
are the backslash, `/` and `:`; `url[i]` is the unit at index `i` of the
buffer, null from the end of the list on. -/
def IsInternalLocation (host : Host) (callEntry : AllocCallStackEntry) : Bool :=
  match host.GetSourceContextInfo callEntry.Function with
  | none => true
  | some none => true
  | some (some url) =>
    if host.win32 then
      decide (wcslen url ≤ 1) || (url.getD 0 0 != 92 && url.getD 1 0 != 58)
    else
      decide (wcslen url ≤ 1) || (url.getD 0 0 != 47 && url.getD 1 0 != 58)

/-- The method `AllocTracer::ExtractLineColumn`: the pair (`*line`, `*column`),
each a `uint32` cast of what the runtime reports. -/
def ExtractLineColumn (host : Host) (sentry : AllocCallStackEntry) : Nat × Nat :=
  match host.GetUtf8SourceUrl sentry.Function with
  | none => (0, 0)
  | some _ =>
    let cIndex := host.GetEnclosingStatementIndexFromByteCode sentry.Function sentry.BytecodeIndex
    let startOffset := host.GetStatementStartOffset sentry.Function cIndex
    let pos := host.GetLineCharOffsetFromStartChar sentry.Function startOffset
    (pos.1 % 4294967296, (pos.2 % 4294967296).toNat)

/-- The constructor `AllocSiteStats::AllocSiteStats`: no allocation, an empty live set. -/
def AllocSiteStats.new (allocationContext : Nat) : AllocSiteStats :=
  { m_threadContext := allocationContext, m_allocationCount := 0, m_allocationLiveSet := [] }

/-- Modelled from the spec: `AllocPinSet::Add(obj, true)`; the weak dictionary
class is not among the sources, and the spec makes a duplicate insertion
idempotent. -/
def AllocPinSet.Add (live : List Nat) (obj : Nat) : List Nat :=
  if obj ∈ live then live else live ++ [obj]

/-- The method `AllocSiteStats::AddAllocation`. -/
def AllocSiteStats.AddAllocation (stats : AllocSiteStats) (obj : Nat) : AllocSiteStats :=
  { stats with
    m_allocationCount := stats.m_allocationCount + 1
    m_allocationLiveSet := AllocPinSet.Add stats.m_allocationLiveSet obj }

/-- The method `AllocTracer::CreateTerminalAllocPathEntry`, with the location
`InitAllocStackEntrySourceLocation` gives the entry. -/
def CreateTerminalAllocPathEntry (host : Host) (entry : AllocCallStackEntry)
    (threadContext : Nat) : AllocPathEntry :=
  let lc := ExtractLineColumn host entry
  .terminal { m_function := entry.Function, m_line := lc.1, m_column := lc.2 } 0 0 false
    (AllocSiteStats.new threadContext)

/-- The method `AllocTracer::CreateNodeAllocPathEntry`. -/
def CreateNodeAllocPathEntry (host : Host) (entry : AllocCallStackEntry) : AllocPathEntry :=
  let lc := ExtractLineColumn host entry
  .node { m_function := entry.Function, m_line := lc.1, m_column := lc.2 } 0 0 false []

/-- The cast `(int64)` of a 64-bit pointer value. -/
def toInt64 (p : Nat) : Int :=
  if p % 18446744073709551616 < 9223372036854775808 then
    ((p % 18446744073709551616 : Nat) : Int)
  else
    ((p % 18446744073709551616 : Nat) : Int) - 18446744073709551616

/-- The key `(int64)(cbody + column * 1000000 + line)` of
`ExtendPathTreeForAllocation`: `column * 1000000` is a `uint32` product, and
both offsets are added to the pointer `cbody` in units of
`sizeof(Js::FunctionBody)`. -/
def FrameKey (host : Host) (cbody line column : Nat) : Int :=
  toInt64 (cbody + host.sizeofFunctionBody * (column * 1000000 % 4294967296)
    + host.sizeofFunctionBody * line)

/-- The method `AllocTracer::ExtendPathTreeForAllocation` of TTAllocTracing.cpp:
the dictionary after the call and the key of the entry returned. -/
def ExtendPathTreeForAllocation (host : Host) (callStack : List AllocCallStackEntry)
    (position : Nat) (currentPaths : CallerPathList) (threadContext : Nat) :
    Except TraceError (CallerPathList × Int) :=
  match callStack.get? position with
  | none => .error .MissingItem
  | some currStack =>
    let cbody := currStack.Function
    let lc := ExtractLineColumn host currStack
    let key := FrameKey host cbody lc.1 lc.2
    if ContainsKey currentPaths key then
      .ok (currentPaths, key)
    else
      let tentry := CreateTerminalAllocPathEntry host currStack threadContext
      .ok (Add currentPaths key tentry, key)

/-! ## The tracer -/

/-- The constructor `AllocTracer::AllocTracer`. -/
def AllocTracer.new : AllocTracer :=
  { m_callStack := [], m_prunedCallStack := [], m_allocPathRoots := [] }

/-- The method `AllocTracer::PushCallStackEntry`. -/
def PushCallStackEntry (t : AllocTracer) (body : Nat) : AllocTracer :=
  { t with m_callStack := t.m_callStack ++ [{ Function := body, BytecodeIndex := 0 }] }

/-- The method `AllocTracer::PopCallStackEntry`. -/
def PopCallStackEntry (t : AllocTracer) : Except TraceError AllocTracer :=
  if t.m_callStack.length = 0 then .error .Underflow
  else .ok { t with m_callStack := t.m_callStack.dropLast }

/-- The assignment `list.Last().BytecodeIndex = index`. -/
def setLastBytecodeIndex (index : Nat) : List AllocCallStackEntry → List AllocCallStackEntry
  | [] => []
  | [e] => [{ e with BytecodeIndex := index }]
  | e :: e2 :: rest => e :: setLastBytecodeIndex index (e2 :: rest)

/-- The method `AllocTracer::UpdateBytecodeIndex`. -/
def UpdateBytecodeIndex (t : AllocTracer) (index : Nat) : Except TraceError AllocTracer :=
  if t.m_callStack.length = 0 then .error .Underflow
  else .ok { t with m_callStack := setLastBytecodeIndex index t.m_callStack }

/-- The loop of `AllocTracer::AddAllocation`,
`for (int32 i = Count() - 1; i >= 0; --i)`: `n` is `i + 1`, the result is
`m_prunedCallStack` when the loop is left. -/
def pruneLoop (host : Host) (callStack : List AllocCallStackEntry) :
    Nat → List AllocCallStackEntry → List AllocCallStackEntry
  | 0, pruned => pruned
  | i + 1, pruned =>
    match callStack.get? i with
    | none => pruned
    | some ase =>
      if !IsInternalLocation host ase then pruned ++ [ase]
      else pruneLoop host callStack i pruned

/-- The write `tentry->TerminalStats->AddAllocation(obj)` on a terminal entry. -/
def AllocPathEntry.addAllocation (obj : Nat) : AllocPathEntry → AllocPathEntry
  | .terminal loc c s b stats => .terminal loc c s b (stats.AddAllocation obj)
  | .node loc c s b paths => .node loc c s b paths

/-- The method `AllocTracer::AddAllocation` of TTAllocTracing.cpp. -/
def AddAllocation (host : Host) (t : AllocTracer) (obj : Nat) : Except TraceError AllocTracer :=
  let pruned := pruneLoop host t.m_callStack t.m_callStack.length t.m_prunedCallStack
  if pruned.length = 0 then
    .ok { t with m_prunedCallStack := pruned }
  else
    match ExtendPathTreeForAllocation host pruned (pruned.length - 1) t.m_allocPathRoots
        (host.GetThreadContext obj) with
    | .error e => .error e
    | .ok (roots, key) =>
      match Item roots key with
      | none => .error .MissingItem
      | some tentry =>
        if !tentry.IsTerminalStatsEntry then .error .TreeExpansion
        else
          .ok { m_callStack := t.m_callStack
                m_prunedCallStack := []
                m_allocPathRoots := StoreItem roots key (tentry.addAllocation obj) }

/-! ## Estimating and flagging -/

/-- The size `osize` that `AllocSiteStats::EstimateMemoryUseInfo` computes for
one live object: `ALLOC_TRACING_STATIC_SIZE_DEFAULT` is 8,
`ALLOC_TRACING_DYNAMIC_SIZE_DEFAULT` is 32, `sizeof(char16)` is 2. -/
def objectSize (host : Host) (key : Nat) : Nat :=
  let tid := host.GetTypeId key
  if host.StaticTypeIs tid then
    if tid = host.TypeIds_String then 8 + host.GetLength key * 2 else 8
  else
    32 + host.GetPropertyCount key * host.sizeofVar

/-- The method `AllocSiteStats::EstimateMemoryUseInfo`: the values of the two
reference arguments after the call, from their values before it. -/
def AllocSiteStats.EstimateMemoryUseInfo (host : Host) (stats : AllocSiteStats)
    (liveCount liveSize : Nat) : Nat × Nat :=
  stats.m_allocationLiveSet.foldl
    (fun acc key => (acc.1 + 1, acc.2 + objectSize host key)) (liveCount, liveSize)

mutual
/-- The method `AllocTracer::EstimateMemoryUseInfo`: the entry after the call. -/
def EstimateMemoryUseInfo (host : Host) : AllocPathEntry → AllocPathEntry
  | .terminal loc c s b stats =>
    let r := stats.EstimateMemoryUseInfo host c s
    .terminal loc r.1 r.2 b stats
  | .node loc c s b paths =>
    let r := EstimateMemoryUseInfo.eachValue host paths c s
    .node loc r.2.1 r.2.2 b r.1
/-- The `EachValue` loop of `AllocTracer::EstimateMemoryUseInfo` over the
caller paths: the paths after the loop and the `LiveCount` and
`LiveSizeEstimate` of `root`, from their values before it. -/
def EstimateMemoryUseInfo.eachValue (host : Host) :
    List (Int × AllocPathEntry) → Nat → Nat → List (Int × AllocPathEntry) × Nat × Nat
  | [], c, s => ([], c, s)
  | (k, cpe) :: rest, c, s =>
    let cpe1 := EstimateMemoryUseInfo host cpe
    let r := EstimateMemoryUseInfo.eachValue host rest
      (c + cpe1.LiveCount) (s + cpe1.LiveSizeEstimate)
    ((k, cpe1) :: r.1, r.2.1, r.2.2)
end

mutual
/-- The method `AllocTracer::FlagInterestingSites`: the entry after the call. -/
def FlagInterestingSites (countThreshold estimatedSizeThreshold : Nat) :
    AllocPathEntry → AllocPathEntry
  | .terminal loc c s _ stats =>
    .terminal loc c s (decide (c ≥ countThreshold) || decide (s ≥ estimatedSizeThreshold)) stats
  | .node loc c s b paths =>
    let r := FlagInterestingSites.eachValue countThreshold estimatedSizeThreshold paths b
    .node loc c s r.2 r.1
/-- The `EachValue` loop of `AllocTracer::FlagInterestingSites`: the paths
after the loop and `root->IsInterestingSite`, from its value before it. -/
def FlagInterestingSites.eachValue (countThreshold estimatedSizeThreshold : Nat) :
    List (Int × AllocPathEntry) → Bool → List (Int × AllocPathEntry) × Bool
  | [], b => ([], b)
  | (k, cpe) :: rest, b =>
    let cpe1 := FlagInterestingSites countThreshold estimatedSizeThreshold cpe
    let r := FlagInterestingSites.eachValue countThreshold estimatedSizeThreshold rest
      (b || cpe1.IsInterestingSite)
    ((k, cpe1) :: r.1, r.2)
end

/-- The loop behind `bitLength`: halve until nothing is left, at most `fuel` times. -/
def bitLength.go : Nat → Nat → Nat
  | 0, _ => 0
  | fuel + 1, n => if n = 0 then 0 else bitLength.go fuel (n / 2) + 1

/-- The number of significant bits of a natural number (0 for 0). -/
def bitLength (n : Nat) : Nat := bitLength.go n n

/-- Conversion of a natural number to `double`, as the natural number the
`double` equals: at most 53 significant bits are kept, rounding to nearest,
ties to even. -/
def roundToDouble (n : Nat) : Nat :=
  let bits := bitLength n
  if bits ≤ 53 then n
  else
    let shift := bits - 53
    let q := n / 2 ^ shift
    let r := n % 2 ^ shift
    let half := 2 ^ (shift - 1)
    if r > half ∨ (r = half ∧ q % 2 = 1) then (q + 1) * 2 ^ shift else q * 2 ^ shift

/-- The expression `(size_t)(total * c)` for a `size_t` total and the `double`
constant `c = significand / 2^exponent`: the total is converted to `double`,
the product is rounded to a `double` and the cast truncates. -/
def doubleProductToSize (significand exponent total : Nat) : Nat :=
  roundToDouble (roundToDouble total * significand) / 2 ^ exponent

/-- The expression `(size_t)(total * 0.01)` for a `size_t` total: the `double`
nearest to 0.01 is 5764607523034235 / 2^59, the value of both
`ALLOC_TRACING_INTERESTING_LOCATION_COUNT_THRESHOLD` and
`ALLOC_TRACING_INTERESTING_LOCATION_SIZE_THRESHOLD`. -/
def interestingThreshold (total : Nat) : Nat :=
  doubleProductToSize 5764607523034235 59 total

/-! ## Writing the trace -/

/-- The members of `NSTokens::Key` the trace uses. -/
inductive Key where
  | allocations | fileToSourceMap | fileId | filename | source | src | function
  | line | column | allocInfo | count | estimatedSize | objectIds | subPaths
  deriving DecidableEq, Repr

/-- The enumeration `NSTokens::Separator`. -/
inductive Separator where
  | NoSeparator | CommaSeparator | BigSpaceSeparator | CommaAndBigSpaceSeparator
  deriving DecidableEq, Repr

/-- Modelled from the spec: `TextFormatWriter` is not among the sources; the
spec states its contract (write a primitive, start or end a record or sequence
with an optional key, write a separator, adjust the indent), and the trace
written is the list of the calls made on it.  A separator argument left out in
the source is `NoSeparator`. -/
inductive WriterCall where
  | setQuotedKey (quoted : Bool)
  | WriteRecordStart (sep : Separator)
  | WriteRecordStartWithKey (key : Key) (sep : Separator)
  | WriteRecordEnd
  | WriteSequenceStartWithKey (key : Key) (sep : Separator)
  | WriteSequenceEnd
  | WriteSeperator (sep : Separator)
  | AdjustIndent (delta : Int)
  | WriteInt64 (key : Key) (value : Int) (sep : Separator)
  | WriteUInt32 (key : Key) (value : Nat) (sep : Separator)
  | writeRawCharsWithKey (key : Key) (chars : List char16) (sep : Separator)
  | WriteNakedAddrAsInt64 (addr : Nat)
  | FlushAndClose
  deriving DecidableEq, Repr

/-- The struct `FileSourceEntry`: the copied file name and the decoded source. -/
structure FileSourceEntry where
  filename : List char16
  source : List char16
  deriving DecidableEq, Repr

/-- The test `memcmp(ptr->filename, filename, wcslen(filename) * 2) == 0`: the
first `wcslen(filename)` code units of the stored, null-terminated name against
those of `filename`. -/
def sameFilenameBytes (stored filename : List char16) : Bool :=
  (stored ++ [0]).take (wcslen filename) == filename.take (wcslen filename)

/-- The search loop of `SourceLocation::addSourceItem`: the id `i + 1` of the
first entry the `memcmp` test accepts, `i` being the index of the entry. -/
def addSourceItem.search (filename : List char16) : List FileSourceEntry → Nat → Option Nat
  | [], _ => none
  | entry :: rest, i =>
    if sameFilenameBytes entry.filename filename then some (i + 1)
    else addSourceItem.search filename rest (i + 1)

/-- The method `SourceLocation::addSourceItem` on the static list
`m_file_to_source_list`: the list after the call and the id returned.  The
name stored is the copy `wcscpy_s` makes, the units before the first null; the
source text stored is the one decoded from `utf8SourceInfo`. -/
def addSourceItem (files : List FileSourceEntry) (filename : Option (List char16))
    (source : List char16) : List FileSourceEntry × Nat :=
  match filename with
  | none => (files, 0)
  | some name =>
    match addSourceItem.search name files 0 with
    | some id => (files, id)
    | none =>
      (files ++ [{ filename := name.take (wcslen name), source := source }], files.length + 1)

/-- The method `SourceLocation::clearSourceItems`. -/
def clearSourceItems (_files : List FileSourceEntry) : List FileSourceEntry := []

/-- The loop of `SourceLocation::JSONWriteFileToSourceList`, `i` being the
index of the entry written. -/
def JSONWriteFileToSourceList.loop : List FileSourceEntry → Nat → List WriterCall
  | [], _ => []
  | entry :: rest, i =>
    [ .WriteRecordStart (if i = 0 then .NoSeparator else .CommaAndBigSpaceSeparator),
      .WriteUInt32 .fileId (i + 1) .NoSeparator,
      .writeRawCharsWithKey .filename entry.filename .CommaSeparator,
      .writeRawCharsWithKey .source entry.source .CommaSeparator,
      .WriteRecordEnd ] ++ JSONWriteFileToSourceList.loop rest (i + 1)

/-- The method `SourceLocation::JSONWriteFileToSourceList`. -/
def JSONWriteFileToSourceList (files : List FileSourceEntry) (sep : Separator) :
    List WriterCall :=
  [.WriteSequenceStartWithKey .fileToSourceMap sep, .AdjustIndent 1]
    ++ JSONWriteFileToSourceList.loop files 0
    ++ [.AdjustIndent (-1), .WriteSequenceEnd]

/-- The method `SourceLocation::JSONWriteLocationDataTrimed`: the calls made on
the writer and the static file list after them. -/
def JSONWriteLocationDataTrimed (host : Host) (loc : SourceLocation)
    (files : List FileSourceEntry) : Except TraceError (List WriterCall × List FileSourceEntry) :=
  match host.GetSourceContextInfo loc.m_function with
  | none => .error .NullSourceContextInfo
  | some url =>
    let r := addSourceItem files url (host.DecodedSource loc.m_function)
    .ok ([ .WriteRecordStartWithKey .src .BigSpaceSeparator,
           .writeRawCharsWithKey .function (host.GetDisplayName loc.m_function) .NoSeparator,
           .WriteInt64 .line (((loc.m_line + 1) % 4294967296 : Nat) : Int) .CommaSeparator,
           .WriteInt64 .column ((loc.m_column : Nat) : Int) .CommaSeparator,
           .WriteUInt32 .fileId r.2 .CommaSeparator,
           .WriteRecordEnd ], r.1)

/-- The `Map` loop of `AllocSiteStats::JSONWriteSiteDataTrimed`;
`TTD_CONVERT_VAR_TO_PTR_ID` leaves the address as it is. -/
def JSONWriteSiteDataTrimed.loop : List Nat → Bool → List WriterCall
  | [], _ => []
  | key :: rest, first =>
    (if !first then [WriterCall.WriteSeperator .CommaSeparator] else [])
      ++ [.WriteNakedAddrAsInt64 key] ++ JSONWriteSiteDataTrimed.loop rest false

/-- The method `AllocSiteStats::JSONWriteSiteDataTrimed`. -/
def AllocSiteStats.JSONWriteSiteDataTrimed (stats : AllocSiteStats) : List WriterCall :=
  [.WriteSequenceStartWithKey .objectIds .CommaAndBigSpaceSeparator]
    ++ JSONWriteSiteDataTrimed.loop stats.m_allocationLiveSet true
    ++ [.WriteSequenceEnd]

/-- The calls `JSONWriteDataPathEntryTrimed` makes between the location and the
site data or sub-paths: the `allocInfo` record. -/
def writeAllocInfo (liveCount liveSizeEstimate : Nat) : List WriterCall :=
  [ .WriteSeperator .CommaAndBigSpaceSeparator,
    .AdjustIndent 1,
    .WriteRecordStartWithKey .allocInfo .NoSeparator,
    .WriteInt64 .count (toInt64 liveCount) .NoSeparator,
    .WriteInt64 .estimatedSize (toInt64 liveSizeEstimate) .CommaSeparator,
    .WriteRecordEnd,
    .AdjustIndent (-1) ]

mutual
/-- The method `AllocTracer::JSONWriteDataPathEntryTrimed`: the calls made on
the writer and the static file list after them. -/
def JSONWriteDataPathEntryTrimed (host : Host) :
    AllocPathEntry → List FileSourceEntry →
      Except TraceError (List WriterCall × List FileSourceEntry)
  | .terminal loc c s b stats, files =>
    if !b then .error .NotInteresting
    else if c = 0 then .ok ([], files)
    else
      match JSONWriteLocationDataTrimed host loc files with
      | .error e => .error e
      | .ok (w, files1) =>
        .ok ([.WriteRecordStart .NoSeparator] ++ w ++ writeAllocInfo c s
          ++ stats.JSONWriteSiteDataTrimed
          ++ [.WriteSeperator .BigSpaceSeparator, .WriteRecordEnd], files1)
  | .node loc c s b paths, files =>
    if !b then .error .NotInteresting
    else if c = 0 then .ok ([], files)
    else
      match JSONWriteLocationDataTrimed host loc files with
      | .error e => .error e
      | .ok (w, files1) =>
        match JSONWriteDataPathEntryTrimed.eachValue host paths true files1 with
        | .error e => .error e
        | .ok (w2, files2) =>
          .ok ([.WriteRecordStart .NoSeparator] ++ w ++ writeAllocInfo c s
            ++ [.WriteSequenceStartWithKey .subPaths .CommaAndBigSpaceSeparator, .AdjustIndent 1]
            ++ w2
            ++ [.WriteSeperator .BigSpaceSeparator, .AdjustIndent (-1), .WriteSequenceEnd]
            ++ [.WriteSeperator .BigSpaceSeparator, .WriteRecordEnd], files2)
/-- The `EachValue` loop of `JSONWriteDataPathEntryTrimed` over the caller
paths, from the value of `first` before it. -/
def JSONWriteDataPathEntryTrimed.eachValue (host : Host) :
    List (Int × AllocPathEntry) → Bool → List FileSourceEntry →
      Except TraceError (List WriterCall × List FileSourceEntry)
  | [], _, files => .ok ([], files)
  | (_, cpe) :: rest, first, files =>
    if cpe.IsInterestingSite then
      match JSONWriteDataPathEntryTrimed host cpe files with
      | .error e => .error e
      | .ok (w, files1) =>
        match JSONWriteDataPathEntryTrimed.eachValue host rest false files1 with
        | .error e => .error e
        | .ok (w2, files2) =>
          .ok ((if !first then [WriterCall.WriteSeperator .CommaSeparator] else [])
            ++ [.WriteSeperator .BigSpaceSeparator] ++ w ++ w2, files2)
    else JSONWriteDataPathEntryTrimed.eachValue host rest first files
end

/-- The first `EachValue` loop of `EmitTrimedAllocTrace`: every root is
estimated and `totalLive` and `totalSizeEstimate` are accumulated; the two are
`size_t` locals, so each sum is reduced modulo 2^64. -/
def EmitTrimedAllocTrace.estimateRoots (host : Host) :
    CallerPathList → Nat → Nat → CallerPathList × Nat × Nat
  | [], totalLive, totalSizeEstimate => ([], totalLive, totalSizeEstimate)
  | (k, cpe) :: rest, totalLive, totalSizeEstimate =>
    let cpe1 := EstimateMemoryUseInfo host cpe
    let r := EmitTrimedAllocTrace.estimateRoots host rest
      ((totalLive + cpe1.LiveCount) % 18446744073709551616)
      ((totalSizeEstimate + cpe1.LiveSizeEstimate) % 18446744073709551616)
    ((k, cpe1) :: r.1, r.2.1, r.2.2)

/-- The second `EachValue` loop of `EmitTrimedAllocTrace`: every root is flagged. -/
def EmitTrimedAllocTrace.flagRoots (countThreshold estimatedSizeThreshold : Nat)
    (roots : CallerPathList) : CallerPathList :=
  roots.map (fun kv => (kv.1, FlagInterestingSites countThreshold estimatedSizeThreshold kv.2))

/-- The third `EachValue` loop of `EmitTrimedAllocTrace`: the roots that are
interesting and have a positive `LiveCount` are written. -/
def EmitTrimedAllocTrace.writeRoots (host : Host) :
    CallerPathList → Bool → List FileSourceEntry →
      Except TraceError (List WriterCall × List FileSourceEntry)
  | [], _, files => .ok ([], files)
  | (_, cpe) :: rest, first, files =>
    if cpe.IsInterestingSite && decide (cpe.LiveCount > 0) then
      match JSONWriteDataPathEntryTrimed host cpe files with
      | .error e => .error e
      | .ok (w, files1) =>
        match EmitTrimedAllocTrace.writeRoots host rest false files1 with
        | .error e => .error e
        | .ok (w2, files2) =>
          .ok ((if !first then [WriterCall.WriteSeperator .CommaSeparator] else [])
            ++ [.WriteSeperator .BigSpaceSeparator] ++ w ++ w2, files2)
    else EmitTrimedAllocTrace.writeRoots host rest first files

/-- What one call of `EmitTrimedAllocTrace` leaves behind: the tracer (the
entries are written through their pointers although the method is `const`),
the static file list, the calls made on the writer, and the two thresholds. -/
structure EmitResult where
  tracer : AllocTracer
  files : List FileSourceEntry
  written : List WriterCall
  countThreshold : Nat
  estimatedSizeThreshold : Nat

/-- The method `AllocTracer::EmitTrimedAllocTrace`. -/
def EmitTrimedAllocTrace (host : Host) (t : AllocTracer) (files : List FileSourceEntry)
    (snapId : Int) : Except TraceError EmitResult :=
  if !host.OpenResourceStream snapId then .error .StreamNotOpened
  else
    let est := EmitTrimedAllocTrace.estimateRoots host t.m_allocPathRoots 0 0
    let countThreshold := interestingThreshold est.2.1
    let estimatedSizeThreshold := interestingThreshold est.2.2
    let roots := EmitTrimedAllocTrace.flagRoots countThreshold estimatedSizeThreshold est.1
    match EmitTrimedAllocTrace.writeRoots host roots true files with
    | .error e => .error e
    | .ok (w, files1) =>
      .ok { tracer := { t with m_allocPathRoots := roots }
            files := clearSourceItems files1
            written :=
              [ .setQuotedKey true, .WriteRecordStart .NoSeparator, .AdjustIndent 1,
                .WriteSequenceStartWithKey .allocations .BigSpaceSeparator, .AdjustIndent 1 ]
              ++ w
              ++ [.WriteSeperator .BigSpaceSeparator, .AdjustIndent (-1), .WriteSequenceEnd]
              ++ JSONWriteFileToSourceList files1 .CommaAndBigSpaceSeparator
              ++ [.AdjustIndent (-1), .WriteRecordEnd, .FlushAndClose]
            countThreshold := countThreshold
            estimatedSizeThreshold := estimatedSizeThreshold }

/-! ## Derived quantities the properties speak about -/

mutual
/-- The sum of `m_allocationCount` over the terminal entries below an entry. -/
def AllocPathEntry.allocCountSum : AllocPathEntry → Nat
  | .terminal _ _ _ _ stats => stats.m_allocationCount
  | .node _ _ _ _ paths => allocCountSumList paths
/-- The sum of `m_allocationCount` over the terminal entries of a dictionary. -/
def allocCountSumList : List (Int × AllocPathEntry) → Nat
  | [] => 0
  | (_, e) :: rest => e.allocCountSum + allocCountSumList rest
end

/-! ## The host driving the tracer -/

/-- The four calls the interpreter makes on a tracer while it runs. -/
inductive TracerOp where
  | push (body : Nat)
  | pop
  | update_offset (index : Nat)
  | record (obj : Nat)
  deriving DecidableEq, Repr

/-- One call on the tracer. -/
def applyOp (host : Host) (t : AllocTracer) : TracerOp → Except TraceError AllocTracer
  | .push body => .ok (PushCallStackEntry t body)
  | .pop => PopCallStackEntry t
  | .update_offset index => UpdateBytecodeIndex t index
  | .record obj => AddAllocation host t obj

/-- A sequence of calls on the tracer, stopping at the first failed assertion. -/
def runOps (host : Host) (t : AllocTracer) : List TracerOp → Except TraceError AllocTracer
  | [] => .ok t
  | op :: rest =>
    match applyOp host t op with
    | .error e => .error e
    | .ok t1 => runOps host t1 rest

/-- A tracer state some sequence of calls leads to from a new tracer. -/
def Reachable (host : Host) (t : AllocTracer) : Prop :=
  ∃ ops : List TracerOp, runOps host AllocTracer.new ops = .ok t

/-- The frame `AddAllocation` keeps: the last one on the stack that is not internal. -/
def topUserFrame (host : Host) (callStack : List AllocCallStackEntry) :
    Option AllocCallStackEntry :=
  callStack.reverse.find? (fun e => !IsInternalLocation host e)

/-- The roots after an allocation of `obj` is attributed to the site
(`function`, `line`, `column`): the entry under the key of the site counts one
more allocation and holds `obj`; when the key has no entry yet, a terminal
entry for the site with this one allocation is added after the others. -/
def attributeTo (host : Host) (roots : CallerPathList) (function line column : Nat)
    (threadContext obj : Nat) : CallerPathList :=
  match Item roots (FrameKey host function line column) with
  | some tentry =>
    StoreItem roots (FrameKey host function line column) (tentry.addAllocation obj)
  | none =>
    roots ++ [(FrameKey host function line column,
      .terminal { m_function := function, m_line := line, m_column := column } 0 0 false
        { m_threadContext := threadContext, m_allocationCount := 1,
          m_allocationLiveSet := [obj] })]

/-- The tracer invariant between calls: the scratch list is empty and every
root is a terminal entry. -/
def WellFormed (t : AllocTracer) : Prop :=
  t.m_prunedCallStack = [] ∧ ∀ kv ∈ t.m_allocPathRoots, kv.2.IsTerminalStatsEntry = true

/-! ## A concrete runtime for the worked examples -/

/-- A runtime for the worked examples.  Function bodies at even addresses are
user code of the file `/a.js`, those at odd addresses have a null url; a
function body takes 512 bytes.  The bytecode offsets `10 k .. 10 k + 9` belong
to statement `k`, which starts at character `k`, on line `k / 4`, column
`k % 4`.  Objects at even addresses are trackable, the others are not. -/
def exampleHost : Host :=
  { win32 := false
    sizeofFunctionBody := 512
    GetSourceContextInfo := fun f =>
      if f % 2 = 0 then some (some [47, 97, 46, 106, 115]) else some none
    GetUtf8SourceUrl := fun f =>
      if f % 2 = 0 then some [47, 97, 46, 106, 115] else none
    GetEnclosingStatementIndexFromByteCode := fun _ index => ((index / 10 : Nat) : Int)
    GetStatementStartOffset := fun _ cIndex => cIndex.toNat
    GetLineCharOffsetFromStartChar := fun _ startOffset =>
      (startOffset / 4, ((startOffset % 4 : Nat) : Int))
    IsAllocTrackable := fun obj => obj % 2 == 0
    GetThreadContext := fun _ => 1
    GetTypeId := fun _ => 0
    StaticTypeIs := fun _ => true
    TypeIds_String := 1
    GetLength := fun _ => 0
    GetPropertyCount := fun _ => 0
    sizeofVar := 8
    GetDisplayName := fun _ => [102]
    DecodedSource := fun _ => []
    OpenResourceStream := fun _ => true }

/-- The tracer after `push 1; push 4096; push 3`: a user frame between two
internal ones. -/
def stackWithUserFrame : AllocTracer :=
  { m_callStack :=
      [ { Function := 1, BytecodeIndex := 0 }, { Function := 4096, BytecodeIndex := 0 },
        { Function := 3, BytecodeIndex := 0 } ]
    m_prunedCallStack := []
    m_allocPathRoots := [] }

/-- The tracer after `push 4096; update_offset 40; record 2; pop`: one leaf,
for the site of function 4096 at line 1, column 0, stored under key
`4096 + 512 * 1 = 4608`. -/
def siteLine1Recorded : AllocTracer :=
  { m_callStack := []
    m_prunedCallStack := []
    m_allocPathRoots :=
      [(4608, .terminal { m_function := 4096, m_line := 1, m_column := 0 } 0 0 false
          { m_threadContext := 1, m_allocationCount := 1, m_allocationLiveSet := [2] })] }

/-- Whether a record call made on this shadow stack has a user frame to be
attributed to. -/
def hasUserFrame (host : Host) (callStack : List AllocCallStackEntry) : Bool :=
  callStack.any (fun e => !IsInternalLocation host e)

/-- The number of record calls of a sequence that the specification counts as
accepted: those made with a user frame on the stack and a trackable object. -/
def acceptedRecordCalls (host : Host) : AllocTracer → List TracerOp → Nat
  | _, [] => 0
  | t, op :: rest =>
    (match op with
      | .record obj =>
        if hasUserFrame host t.m_callStack && host.IsAllocTrackable obj then 1 else 0
      | _ => 0)
    + (match applyOp host t op with
      | .ok t1 => acceptedRecordCalls host t1 rest
      | .error _ => 0)

/-- The number of record calls of a sequence made with a user frame on the
stack, trackable object or not. -/
def attributedRecordCalls (host : Host) : AllocTracer → List TracerOp → Nat
  | _, [] => 0
  | t, op :: rest =>
    (match op with
      | .record _ => if hasUserFrame host t.m_callStack then 1 else 0
      | _ => 0)
    + (match applyOp host t op with
      | .ok t1 => attributedRecordCalls host t1 rest
      | .error _ => 0)

/-- The number of push calls of a sequence. -/
def countPush : List TracerOp → Nat
  | [] => 0
  | .push _ :: rest => countPush rest + 1
  | _ :: rest => countPush rest

/-- The number of pop calls of a sequence. -/
def countPop : List TracerOp → Nat
  | [] => 0
  | .pop :: rest => countPop rest + 1
  | _ :: rest => countPop rest

/-- A legal sequence, for a stack of the given depth: pop and update_offset are
never applied to an empty stack. -/
def legalFrom : Nat → List TracerOp → Bool
  | _, [] => true
  | depth, .push _ :: rest => legalFrom (depth + 1) rest
  | depth, .pop :: rest => depth != 0 && legalFrom (depth - 1) rest
  | depth, .update_offset _ :: rest => depth != 0 && legalFrom depth rest
  | depth, .record _ :: rest => legalFrom depth rest

/-! ## The exception frame popper -/

/-- The class `AllocSiteExceptionFramePopper`: the pointer `m_tracer`, `none`
when it is null. -/
structure AllocSiteExceptionFramePopper where
  m_tracer : Option Nat
  deriving DecidableEq, Repr

/-- The constructor `AllocSiteExceptionFramePopper()`. -/
def AllocSiteExceptionFramePopper.new : AllocSiteExceptionFramePopper :=
  { m_tracer := none }

mutual
/-- Modelled from the spec: a collection of the recycler as the weak live sets
see it (`AllocPinSet` is not among the sources): the entries of reclaimed
objects disappear, `alive` telling which objects survive. -/
def collectEntry (alive : Nat → Bool) : AllocPathEntry → AllocPathEntry
  | .terminal loc c s b stats =>
    .terminal loc c s b
      { stats with m_allocationLiveSet := stats.m_allocationLiveSet.filter alive }
  | .node loc c s b paths => .node loc c s b (collectList alive paths)
/-- The same collection on every entry of a dictionary. -/
def collectList (alive : Nat → Bool) : List (Int × AllocPathEntry) → List (Int × AllocPathEntry)
  | [] => []
  | (k, e) :: rest => (k, collectEntry alive e) :: collectList alive rest
end

/-- What happens to a tracer during a session: a call of the interpreter, a
collection, or an emission of the trace. -/
inductive SessionEvent where
  | call (op : TracerOp)
  | collect (alive : Nat → Bool)
  | emit (snapId : Int)

/-- A tracer with the static file list and the traces written so far, oldest first. -/
structure Session where
  tracer : AllocTracer
  files : List FileSourceEntry
  outputs : List (List WriterCall)

/-- The session of a new tracer: an empty file list, nothing written. -/
def Session.start : Session :=
  { tracer := AllocTracer.new, files := [], outputs := [] }

/-- One event of a session. -/
def stepSession (host : Host) (s : Session) : SessionEvent → Except TraceError Session
  | .call op =>
    match applyOp host s.tracer op with
    | .error e => .error e
    | .ok t => .ok { s with tracer := t }
  | .collect alive =>
    .ok { s with
          tracer := { s.tracer with
            m_allocPathRoots := collectList alive s.tracer.m_allocPathRoots } }
  | .emit snapId =>
    match EmitTrimedAllocTrace host s.tracer s.files snapId with
    | .error e => .error e
    | .ok r => .ok { tracer := r.tracer, files := r.files, outputs := s.outputs ++ [r.written] }

/-- A sequence of events, stopping at the first failed assertion. -/
def runSession (host : Host) (s : Session) : List SessionEvent → Except TraceError Session
  | [] => .ok s
  | ev :: rest =>
    match stepSession host s ev with
    | .error e => .error e
    | .ok s1 => runSession host s1 rest

/-- A tracer state some session of a new tracer leads to. -/
def SessionReachable (host : Host) (t : AllocTracer) : Prop :=
  ∃ (events : List SessionEvent) (s : Session),
    runSession host Session.start events = .ok s ∧ s.tracer = t

/-- The roots a session keeps: every root is a terminal entry whose location
lies in a function that is not internal. -/
def UserLeaves (host : Host) (roots : CallerPathList) : Prop :=
  ∀ kv ∈ roots, kv.2.IsTerminalStatsEntry = true ∧
    IsInternalLocation host { Function := kv.2.Location.m_function, BytecodeIndex := 0 } = false

/-! ## Quantities of the estimate, flag and write passes -/

/-- The sum of `LiveCount` over the roots. -/
def liveCountSum (roots : CallerPathList) : Nat :=
  (roots.map (fun kv => kv.2.LiveCount)).sum

/-- The sum of `LiveSizeEstimate` over the roots. -/
def liveSizeSum (roots : CallerPathList) : Nat :=
  (roots.map (fun kv => kv.2.LiveSizeEstimate)).sum

/-- The sum of the estimated sizes of a list of objects. -/
def objectSizeSum (host : Host) (keys : List Nat) : Nat :=
  (keys.map (objectSize host)).sum

mutual
/-- Whether an entry or some entry below it is flagged interesting. -/
def AllocPathEntry.anyInteresting : AllocPathEntry → Bool
  | .terminal _ _ _ b _ => b
  | .node _ _ _ b paths => b || anyInterestingList paths
/-- Whether some entry of a dictionary, or some entry below one, is flagged interesting. -/
def anyInterestingList : List (Int × AllocPathEntry) → Bool
  | [] => false
  | (_, e) :: rest => e.anyInteresting || anyInterestingList rest
end

mutual
/-- The flags of a subtree as the specification wants them for the two
thresholds: a terminal entry is flagged exactly when its live count or its
live size reaches its threshold, and an entry with caller paths is flagged
whenever an entry below it is. -/
def AllocPathEntry.flagsAsSpecified (countThreshold estimatedSizeThreshold : Nat) :
    AllocPathEntry → Bool
  | .terminal _ c s b _ =>
    b == (decide (c ≥ countThreshold) || decide (s ≥ estimatedSizeThreshold))
  | .node _ _ _ b paths =>
    (!anyInterestingList paths || b) &&
      flagsAsSpecifiedList countThreshold estimatedSizeThreshold paths
/-- The same for every entry of a dictionary. -/
def flagsAsSpecifiedList (countThreshold estimatedSizeThreshold : Nat) :
    List (Int × AllocPathEntry) → Bool
  | [] => true
  | (_, e) :: rest =>
    e.flagsAsSpecified countThreshold estimatedSizeThreshold &&
      flagsAsSpecifiedList countThreshold estimatedSizeThreshold rest
end

mutual
/-- An entry with every flag of its subtree cleared: all that a flag pass may not change. -/
def AllocPathEntry.clearFlags : AllocPathEntry → AllocPathEntry
  | .terminal loc c s _ stats => .terminal loc c s false stats
  | .node loc c s _ paths => .node loc c s false (clearFlagsList paths)
/-- The same for every entry of a dictionary. -/
def clearFlagsList : List (Int × AllocPathEntry) → List (Int × AllocPathEntry)
  | [] => []
  | (k, e) :: rest => (k, e.clearFlags) :: clearFlagsList rest
end

/-- The number of `WriteRecordStart` calls in a trace: the records opened
without a key, which are the allocation records. -/
def countRecordStart : List WriterCall → Nat
  | [] => 0
  | .WriteRecordStart _ :: rest => countRecordStart rest + 1
  | _ :: rest => countRecordStart rest

/-- The three conditions of the specification for a root to be emitted: it is
flagged interesting, its live count is positive and its location is not internal. -/
def rootIsEmitted (host : Host) (e : AllocPathEntry) : Bool :=
  e.IsInterestingSite && decide (e.LiveCount > 0) &&
    !IsInternalLocation host { Function := e.Location.m_function, BytecodeIndex := 0 }

/-- The leaf of function 4096 at line 0, column 0 as one emission leaves it
after `push 4096; record 2`: its live set holds object 2, counted once. -/
def leafAfterOneEmission : AllocPathEntry :=
  .terminal { m_function := 4096, m_line := 0, m_column := 0 } 1 8 true
    { m_threadContext := 1, m_allocationCount := 1, m_allocationLiveSet := [2] }

/-- An entry with one caller path, both as an earlier estimate pass leaves
them: the path holds one live object of size 8. -/
def nodeAfterOneEstimate : AllocPathEntry :=
  .node { m_function := 4096, m_line := 0, m_column := 0 } 1 8 false
    [(8192, .terminal { m_function := 8192, m_line := 0, m_column := 0 } 1 8 false
        { m_threadContext := 1, m_allocationCount := 1, m_allocationLiveSet := [2] })]

/-- The roots after the estimate loop of `EmitTrimedAllocTrace`. -/
def estimatedRoots (host : Host) (roots : CallerPathList) : CallerPathList :=
  roots.map (fun kv => (kv.1, EstimateMemoryUseInfo host kv.2))

/-- The tracer reached in the example runtime by `push 4096; record 2`
followed by `n` emissions: every emission has added the one live object of
size 8 to the live count and the live size of the leaf; `b` is the flag the
last emission left. -/
def emittedLeafTracer (n : Nat) (b : Bool) : AllocTracer :=
  { m_callStack := [{ Function := 4096, BytecodeIndex := 0 }]
    m_prunedCallStack := []
    m_allocPathRoots :=
      [(4096, .terminal { m_function := 4096, m_line := 0, m_column := 0 } n (8 * n) b
          { m_threadContext := 1, m_allocationCount := 1, m_allocationLiveSet := [2] })] }

/-- The tracer reached by `push 4096; record 2` in the example runtime. -/
def oneLeafTracer : AllocTracer :=
  { m_callStack := [{ Function := 4096, BytecodeIndex := 0 }]
    m_prunedCallStack := []
    m_allocPathRoots :=
      [(4096, .terminal { m_function := 4096, m_line := 0, m_column := 0 } 0 0 false
          { m_threadContext := 1, m_allocationCount := 1, m_allocationLiveSet := [2] })] }

/-- Scenario S2, site A: a new leaf of function 4096 with 50 live objects, at
the addresses 2, 4, ..., 100. -/
def scenarioLeafA : AllocPathEntry :=
  .terminal { m_function := 4096, m_line := 0, m_column := 0 } 0 0 false
    { m_threadContext := 1, m_allocationCount := 50,
      m_allocationLiveSet := (List.range 50).map (fun i => 2 * i + 2) }

/-- Scenario S2, site B: a new leaf of function 8192 with 1 live object. -/
def scenarioLeafB : AllocPathEntry :=
  .terminal { m_function := 8192, m_line := 0, m_column := 0 } 0 0 false
    { m_threadContext := 1, m_allocationCount := 1, m_allocationLiveSet := [200] }

/-- The values written under the key `count` in a trace, in order. -/
def writtenCounts : List WriterCall → List Int
  | [] => []
  | .WriteInt64 .count value _ :: rest => value :: writtenCounts rest
  | _ :: rest => writtenCounts rest

/-- The values written under the key `estimatedSize` in a trace, in order. -/
def writtenSizes : List WriterCall → List Int
  | [] => []
  | .WriteInt64 .estimatedSize value _ :: rest => value :: writtenSizes rest
  | _ :: rest => writtenSizes rest

/-! ## Location equality, memory warnings and derived quantities of the later properties -/

/-- The method `SourceLocation::SameAsOtherLocation` of TTAllocTracing.cpp: the
lines and columns are compared, then the urls of the two functions with
`wcscmp`; `none` when a url it would read is missing. -/
def SourceLocation.SameAsOtherLocation (host : Host) (loc : SourceLocation)
    (function line column : Nat) : Option Bool :=
  if (loc.m_line != line) || (loc.m_column != column) then some false
  else
    match host.GetSourceContextInfo loc.m_function, host.GetSourceContextInfo function with
    | some (some url1), some (some url2) => some (url1 == url2)
    | _, _ => none

/-- The runtime services `AllocSiteStats::ComputeMemoryInfo` of AllocTracing.cpp
calls.  A `MemoryAllocWarningFlag` is the natural number of its bits, `None`
being 0. -/
structure MemoryInfoHost where
  /-- The call `key->ComputeAllocTracingInfo(mflag)` with `mflag` equal to `None`:
  the size returned and `mflag` after the call. -/
  ComputeAllocTracingInfo : Nat → Nat × Nat
  /-- The test `Js::DynamicType::Is(key->GetTypeId())`. -/
  DynamicTypeIs : Nat → Bool
  /-- The call `Js::DynamicObject::FromVar(key)->ComputeObjPropertyAllocTracingInfo(mflag)`
  from the value of `mflag` before it: the size returned and `mflag` after the call. -/
  ComputeObjPropertyAllocTracingInfo : Nat → Nat → Nat × Nat

/-- The locals and reference arguments the `Map` loop of
`AllocSiteStats::ComputeMemoryInfo` updates. -/
structure MemoryInfoState where
  tflag : Nat
  regSize : Nat
  flaggedSize : Nat
  liveCount : Nat
  liveSize : Nat
  deriving DecidableEq, Repr

/-- The size `osize` and the flag `mflag` the loop of `ComputeMemoryInfo`
computes for one object. -/
def ComputeMemoryInfo.object (host : MemoryInfoHost) (key : Nat) : Nat × Nat :=
  let first := host.ComputeAllocTracingInfo key
  if host.DynamicTypeIs key then
    let second := host.ComputeObjPropertyAllocTracingInfo key first.2
    (first.1 + second.1, second.2)
  else first

/-- The `Map` loop of `AllocSiteStats::ComputeMemoryInfo` of AllocTracing.cpp. -/
def ComputeMemoryInfo.loop (host : MemoryInfoHost) :
    List Nat → MemoryInfoState → MemoryInfoState
  | [], st => st
  | key :: rest, st =>
    let r := ComputeMemoryInfo.object host key
    ComputeMemoryInfo.loop host rest
      (if r.2 = 0 then
        { st with regSize := st.regSize + r.1, liveCount := st.liveCount + 1,
                  liveSize := st.liveSize + r.1 }
      else
        { st with tflag := st.tflag ||| r.2, flaggedSize := st.flaggedSize + r.1,
                  liveCount := st.liveCount + 1, liveSize := st.liveSize + r.1 })

/-- The method `AllocSiteStats::ComputeMemoryInfo` of AllocTracing.cpp: the
values of `liveCount`, `liveSize` and `dflag` after the call, from their values
before it. -/
def AllocSiteStats.ComputeMemoryInfo (host : MemoryInfoHost) (stats : AllocSiteStats)
    (liveCount liveSize dflag : Nat) : Nat × Nat × Nat :=
  let st := ComputeMemoryInfo.loop host stats.m_allocationLiveSet
    { tflag := 0, regSize := 0, flaggedSize := 0, liveCount := liveCount, liveSize := liveSize }
  (st.liveCount, st.liveSize,
    if st.flaggedSize ≥ st.regSize / 2 then dflag ||| st.tflag else dflag)

/-- The values written under the key `fileId` in a trace, in order. -/
def writtenFileIds : List WriterCall → List Nat
  | [] => []
  | .WriteUInt32 .fileId value _ :: rest => value :: writtenFileIds rest
  | _ :: rest => writtenFileIds rest

mutual
/-- Whether every terminal entry of a subtree is flagged interesting. -/
def AllocPathEntry.allLeavesInteresting : AllocPathEntry → Bool
  | .terminal _ _ _ b _ => b
  | .node _ _ _ _ paths => allLeavesInterestingList paths
/-- Whether every terminal entry of or below a dictionary is flagged interesting. -/
def allLeavesInterestingList : List (Int × AllocPathEntry) → Bool
  | [] => true
  | (_, e) :: rest => e.allLeavesInteresting && allLeavesInterestingList rest
end

/-- The roots as `ExtendPathTreeForAllocation` keeps them: every root is stored
under the key of its own location, and no two roots have the same key. -/
def KeyedRoots (host : Host) (roots : CallerPathList) : Prop :=
  (∀ kv ∈ roots,
      kv.1 = FrameKey host kv.2.Location.m_function kv.2.Location.m_line
        kv.2.Location.m_column)
    ∧ (roots.map (fun kv => kv.1)).Nodup

/-- A runtime for the examples with two files: the function body at address
4096 is code of `/a.jsx`, every other function body is as in `exampleHost`. -/
def twoFileHost : Host :=
  { exampleHost with
    GetSourceContextInfo := fun f =>
      if f = 4096 then some (some [47, 97, 46, 106, 115, 120])
      else exampleHost.GetSourceContextInfo f
    GetUtf8SourceUrl := fun f =>
      if f = 4096 then some [47, 97, 46, 106, 115, 120]
      else exampleHost.GetUtf8SourceUrl f }

/-- A runtime for the memory warnings: object 2 takes 20 bytes and raises no
flag, object 4 takes 10 bytes and raises the flag of bit 0; no object is dynamic. -/
def warningHost : MemoryInfoHost :=
  { ComputeAllocTracingInfo := fun key => if key = 4 then (10, 1) else (20, 0)
    DynamicTypeIs := fun _ => false
    ComputeObjPropertyAllocTracingInfo := fun _ mflag => (0, mflag) }

/-- The tracer reached in the runtime with two files by
`push 4096; record 2; pop; push 8192; record 4`: one leaf in `/a.jsx` and one
in `/a.js`. -/
def twoFileTracer : AllocTracer :=
  { m_callStack := [{ Function := 8192, BytecodeIndex := 0 }]
    m_prunedCallStack := []
    m_allocPathRoots :=
      [(4096, .terminal { m_function := 4096, m_line := 0, m_column := 0 } 0 0 false
          { m_threadContext := 1, m_allocationCount := 1, m_allocationLiveSet := [2] }),
       (8192, .terminal { m_function := 8192, m_line := 0, m_column := 0 } 0 0 false
          { m_threadContext := 1, m_allocationCount := 1, m_allocationLiveSet := [4] })] }

/-- The sum of the sizes `ComputeMemoryInfo` measures for the objects of a live
set that raise no flag: what the loop adds to `regSize`. -/
def regularSizeSum (host : MemoryInfoHost) : List Nat → Nat
  | [] => 0
  | key :: rest =>
    (if (ComputeMemoryInfo.object host key).2 = 0 then (ComputeMemoryInfo.object host key).1
      else 0) + regularSizeSum host rest

/-- The sum of the sizes `ComputeMemoryInfo` measures for the objects of a live
set that raise a flag: what the loop adds to `flaggedSize`. -/
def flaggedSizeSum (host : MemoryInfoHost) : List Nat → Nat
  | [] => 0
  | key :: rest =>
    (if (ComputeMemoryInfo.object host key).2 = 0 then 0
      else (ComputeMemoryInfo.object host key).1) + flaggedSizeSum host rest

/-- The flags the objects of a live set raise, joined onto `tflag`. -/
def raisedFlags (host : MemoryInfoHost) (tflag : Nat) (keys : List Nat) : Nat :=
  keys.foldl (fun acc key => acc ||| (ComputeMemoryInfo.object host key).2) tflag

/-- The tracer reached in the example runtime by
`push 4096; record 2; pop; push 8192; record 4`: one leaf for each of two
functions of the file `/a.js`, both at line 0, column 0. -/
def twoFunctionsTracer : AllocTracer :=
  { m_callStack := [{ Function := 8192, BytecodeIndex := 0 }]
    m_prunedCallStack := []
    m_allocPathRoots :=
      [(4096, .terminal { m_function := 4096, m_line := 0, m_column := 0 } 0 0 false
          { m_threadContext := 1, m_allocationCount := 1, m_allocationLiveSet := [2] }),
       (8192, .terminal { m_function := 8192, m_line := 0, m_column := 0 } 0 0 false
          { m_threadContext := 1, m_allocationCount := 1, m_allocationLiveSet := [4] })] }

/-- The test of the loop over the roots in `EmitTrimedAllocTrace`:
`cpe->IsInterestingSite && cpe->LiveCount > 0`. -/
def rootIsWritten (e : AllocPathEntry) : Bool :=
  e.IsInterestingSite && decide (e.LiveCount > 0)

mutual
/-- The number of allocation records of the walk over a subtree whose root is
flagged interesting: none when the live count of the root is 0, otherwise one
for the root and those of its caller paths. -/
def AllocPathEntry.recordCount : AllocPathEntry → Nat
  | .terminal _ c _ _ _ => if c = 0 then 0 else 1
  | .node _ c _ _ paths => if c = 0 then 0 else recordCountList paths + 1
/-- The number of allocation records of the walk over the entries of a
dictionary: those of the entries that are flagged interesting. -/
def recordCountList : List (Int × AllocPathEntry) → Nat
  | [] => 0
  | (_, e) :: rest => (if e.IsInterestingSite then e.recordCount else 0) + recordCountList rest
end

/-- The nesting depth of records and sequences after a trace, from the depth
before it. -/
def depthAfter : Nat → List WriterCall → Nat
  | d, [] => d
  | d, .WriteRecordStart _ :: rest => depthAfter (d + 1) rest
  | d, .WriteRecordStartWithKey _ _ :: rest => depthAfter (d + 1) rest
  | d, .WriteSequenceStartWithKey _ _ :: rest => depthAfter (d + 1) rest
  | d, .WriteRecordEnd :: rest => depthAfter (d - 1) rest
  | d, .WriteSequenceEnd :: rest => depthAfter (d - 1) rest
  | d, _ :: rest => depthAfter d rest

/-- The number of records without a key that a trace starts at nesting depth
0, from the depth before it: the elements of the sequence being written, not
the records nested in them. -/
def topLevelRecords : Nat → List WriterCall → Nat
  | _, [] => 0
  | d, .WriteRecordStart _ :: rest => (if d = 0 then 1 else 0) + topLevelRecords (d + 1) rest
  | d, .WriteRecordStartWithKey _ _ :: rest => topLevelRecords (d + 1) rest
  | d, .WriteSequenceStartWithKey _ _ :: rest => topLevelRecords (d + 1) rest
  | d, .WriteRecordEnd :: rest => topLevelRecords (d - 1) rest
  | d, .WriteSequenceEnd :: rest => topLevelRecords (d - 1) rest
  | d, _ :: rest => topLevelRecords d rest

theorem containsKey_iff_item (d : CallerPathList) (key : Int) :
    ContainsKey d key = (Item d key).isSome := by
  induction d with
  | nil => rfl
  | cons kv rest ih =>
    by_cases h : kv.1 = key
    · simp [ContainsKey, Item, h]
    · have ih2 : (rest.any fun kv => kv.1 == key) = (Item rest key).isSome := ih
      simp [ContainsKey, Item, h, ih2]

theorem item_mem (d : CallerPathList) (key : Int) (e : AllocPathEntry)
    (h : Item d key = some e) : (key, e) ∈ d := by
  induction d with
  | nil => simp [Item] at h
  | cons kv rest ih =>
    by_cases hk : kv.1 = key
    · simp [Item, hk] at h
      subst hk; subst h
      simp
    · simp [Item, hk] at h
      exact List.mem_cons_of_mem _ (ih h)

theorem item_add_new (d : CallerPathList) (key : Int) (e : AllocPathEntry)
    (h : Item d key = none) : Item (Add d key e) key = some e := by
  induction d with
  | nil => simp [Add, Item]
  | cons kv rest ih =>
    by_cases hk : kv.1 = key
    · simp [Item, hk] at h
    · simp [Item, hk] at h
      have := ih h
      simp only [Add] at this
      simp [Add, Item, hk, this]

theorem storeItem_add_new (d : CallerPathList) (key : Int) (e e2 : AllocPathEntry)
    (h : Item d key = none) : StoreItem (Add d key e) key e2 = d ++ [(key, e2)] := by
  induction d with
  | nil => simp [Add, StoreItem]
  | cons kv rest ih =>
    by_cases hk : kv.1 = key
    · simp [Item, hk] at h
    · simp [Item, hk] at h
      have := ih h
      simp only [Add] at this
      simp [Add, StoreItem, hk, this]

theorem storeItem_terminal (d : CallerPathList) (key : Int) (e : AllocPathEntry)
    (hd : ∀ kv ∈ d, kv.2.IsTerminalStatsEntry = true) (he : e.IsTerminalStatsEntry = true) :
    ∀ kv ∈ StoreItem d key e, kv.2.IsTerminalStatsEntry = true := by
  induction d with
  | nil => simp [StoreItem]
  | cons kv rest ih =>
    have hrest : ∀ kv ∈ rest, kv.2.IsTerminalStatsEntry = true :=
      fun x hx => hd x (List.mem_cons_of_mem _ hx)
    by_cases hk : kv.1 = key
    · intro x hx
      simp [StoreItem, hk] at hx
      rcases hx with hx | hx
      · subst hx; exact he
      · exact hrest x hx
    · intro x hx
      simp [StoreItem, hk] at hx
      rcases hx with hx | hx
      · subst hx; exact hd _ (List.mem_cons_self _ _)
      · exact ih hrest x hx

theorem addAllocation_terminal (obj : Nat) (e : AllocPathEntry) :
    (e.addAllocation obj).IsTerminalStatsEntry = e.IsTerminalStatsEntry := by
  cases e <;> rfl

/-! ## Lemmas on the pruning loop -/

theorem pruneLoop_append (host : Host) (s r : List AllocCallStackEntry) :
    ∀ (n : Nat) (p : List AllocCallStackEntry), n ≤ s.length →
      pruneLoop host (s ++ r) n p = pruneLoop host s n p := by
  intro n
  induction n with
  | zero => intro p _; rfl
  | succ i ih =>
    intro p hi
    have hlt : i < s.length := hi
    have hget : (s ++ r).get? i = s.get? i := by
      simp [List.getElem?_append_left hlt]
    simp only [pruneLoop, hget]
    rw [ih p (Nat.le_of_lt hlt)]

theorem pruneLoop_snoc (host : Host) (s : List AllocCallStackEntry) (e : AllocCallStackEntry)
    (p : List AllocCallStackEntry) :
    pruneLoop host (s ++ [e]) (s ++ [e]).length p =
      if IsInternalLocation host e then pruneLoop host s s.length p else p ++ [e] := by
  have hlen : (s ++ [e]).length = s.length + 1 := by simp
  have hget : (s ++ [e]).get? s.length = some e := by simp
  rw [hlen]
  simp only [pruneLoop, hget]
  by_cases h : IsInternalLocation host e = true
  · simp [h, pruneLoop_append host s [e] s.length p (Nat.le_refl _)]
  · simp [h]

theorem pruneLoop_eq_topUserFrame (host : Host) (s p : List AllocCallStackEntry) :
    pruneLoop host s s.length p = p ++ (topUserFrame host s).toList := by
  induction s using List.reverseRecOn with
  | nil => simp [pruneLoop, topUserFrame]
  | append_singleton s e ih =>
    rw [pruneLoop_snoc]
    by_cases h : IsInternalLocation host e = true
    · simp [h, ih, topUserFrame, List.find?]
    · simp [h, topUserFrame, List.find?]

theorem find_skip_internal (host : Host) (l r : List AllocCallStackEntry)
    (fr : AllocCallStackEntry) (hfr : IsInternalLocation host fr = false)
    (hl : ∀ e ∈ l, IsInternalLocation host e = true) :
    (l ++ fr :: r).find? (fun e => !IsInternalLocation host e) = some fr := by
  induction l with
  | nil => simp [List.find?, hfr]
  | cons x rest ih =>
    have hx : IsInternalLocation host x = true := hl x (List.mem_cons_self _ _)
    have hrest : ∀ e ∈ rest, IsInternalLocation host e = true :=
      fun e he => hl e (List.mem_cons_of_mem _ he)
    simp only [List.cons_append, List.find?, hx, Bool.not_true]
    exact ih hrest

theorem topUserFrame_split (host : Host) (below above : List AllocCallStackEntry)
    (fr : AllocCallStackEntry) (hfr : IsInternalLocation host fr = false)
    (habove : ∀ e ∈ above, IsInternalLocation host e = true) :
    topUserFrame host (below ++ fr :: above) = some fr := by
  have hrev : (below ++ fr :: above).reverse = above.reverse ++ fr :: below.reverse := by
    simp
  rw [topUserFrame, hrev]
  exact find_skip_internal host above.reverse below.reverse fr hfr
    (fun e he => habove e (List.mem_reverse.mp he))

theorem topUserFrame_none (host : Host) (s : List AllocCallStackEntry)
    (h : ∀ e ∈ s, IsInternalLocation host e = true) : topUserFrame host s = none := by
  simp only [topUserFrame, List.find?_eq_none]
  intro e he
  simp [h e (List.mem_reverse.mp he)]

/-! ## What `AddAllocation` does to a well-formed tracer -/

theorem attributeTo_terminal (host : Host) (roots : CallerPathList)
    (function line column threadContext obj : Nat)
    (h : ∀ kv ∈ roots, kv.2.IsTerminalStatsEntry = true) :
    ∀ kv ∈ attributeTo host roots function line column threadContext obj,
      kv.2.IsTerminalStatsEntry = true := by
  unfold attributeTo
  cases hit : Item roots (FrameKey host function line column) with
  | none =>
    intro kv hkv
    simp at hkv
    rcases hkv with hkv | hkv
    · exact h kv hkv
    · subst hkv; rfl
  | some tentry =>
    have ht : tentry.IsTerminalStatsEntry = true := h _ (item_mem _ _ _ hit)
    exact storeItem_terminal roots _ _ h (by rw [addAllocation_terminal]; exact ht)

theorem addAllocation_wellFormed (host : Host) (t : AllocTracer) (obj : Nat)
    (hwf : WellFormed t) :
    AddAllocation host t obj =
      match topUserFrame host t.m_callStack with
      | none => .ok t
      | some fr =>
        .ok { m_callStack := t.m_callStack
              m_prunedCallStack := []
              m_allocPathRoots :=
                attributeTo host t.m_allocPathRoots fr.Function
                  (ExtractLineColumn host fr).1 (ExtractLineColumn host fr).2
                  (host.GetThreadContext obj) obj } := by
  obtain ⟨hp, hterm⟩ := hwf
  cases t with
  | mk cs pr roots =>
    simp only at hp hterm
    subst hp
    unfold AddAllocation
    simp only [pruneLoop_eq_topUserFrame, List.nil_append]
    cases htop : topUserFrame host cs with
    | none => simp
    | some fr =>
      simp only [Option.toList, List.length_singleton, Nat.one_ne_zero, if_false,
        Nat.sub_self, ExtendPathTreeForAllocation, List.get?_cons_zero]
      cases hit : Item roots (FrameKey host fr.Function (ExtractLineColumn host fr).1
          (ExtractLineColumn host fr).2) with
      | some tentry =>
        have hc : ContainsKey roots (FrameKey host fr.Function (ExtractLineColumn host fr).1
            (ExtractLineColumn host fr).2) = true := by
          rw [containsKey_iff_item, hit]; rfl
        have ht : tentry.IsTerminalStatsEntry = true := hterm _ (item_mem _ _ _ hit)
        simp [hc, hit, ht, attributeTo]
      | none =>
        have hc : ContainsKey roots (FrameKey host fr.Function (ExtractLineColumn host fr).1
            (ExtractLineColumn host fr).2) = false := by
          rw [containsKey_iff_item, hit]; rfl
        simp [hc, hit, attributeTo, item_add_new, storeItem_add_new,
          CreateTerminalAllocPathEntry, AllocPathEntry.IsTerminalStatsEntry,
          AllocPathEntry.addAllocation, AllocSiteStats.AddAllocation, AllocSiteStats.new,
          AllocPinSet.Add]

theorem applyOp_wellFormed (host : Host) (t t1 : AllocTracer) (op : TracerOp)
    (hwf : WellFormed t) (h : applyOp host t op = .ok t1) : WellFormed t1 := by
  cases op with
  | push body =>
    simp only [applyOp, PushCallStackEntry, Except.ok.injEq] at h
    subst h; exact hwf
  | pop =>
    simp only [applyOp, PopCallStackEntry] at h
    split at h
    · cases h
    · simp only [Except.ok.injEq] at h
      subst h; exact hwf
  | update_offset index =>
    simp only [applyOp, UpdateBytecodeIndex] at h
    split at h
    · cases h
    · simp only [Except.ok.injEq] at h
      subst h; exact hwf
  | record obj =>
    simp only [applyOp, addAllocation_wellFormed host t obj hwf] at h
    cases htop : topUserFrame host t.m_callStack with
    | none =>
      simp only [htop, Except.ok.injEq] at h
      subst h; exact hwf
    | some fr =>
      simp only [htop, Except.ok.injEq] at h
      subst h
      exact ⟨rfl, attributeTo_terminal host _ _ _ _ _ _ hwf.2⟩

theorem runOps_wellFormed (host : Host) (ops : List TracerOp) :
    ∀ (t t1 : AllocTracer), WellFormed t → runOps host t ops = .ok t1 → WellFormed t1 := by
  induction ops with
  | nil =>
    intro t t1 hwf h
    simp only [runOps, Except.ok.injEq] at h
    subst h; exact hwf
  | cons op rest ih =>
    intro t t1 hwf h
    simp only [runOps] at h
    cases hop : applyOp host t op with
    | error e => simp [hop] at h
    | ok t2 =>
      simp only [hop] at h
      exact ih t2 t1 (applyOp_wellFormed host t t2 op hwf hop) h

theorem wellFormed_new : WellFormed AllocTracer.new :=
  ⟨rfl, by intro kv hkv; simp [AllocTracer.new] at hkv⟩

theorem reachable_wellFormed (host : Host) (t : AllocTracer) (h : Reachable host t) :
    WellFormed t := by
  obtain ⟨ops, hops⟩ := h
  exact runOps_wellFormed host ops _ _ wellFormed_new hops

/-! ## Attribution to the top user frame -/

/-- C1: in every reachable tracer whose shadow stack holds a non-internal frame
`fr` with only internal frames above it, `AddAllocation` succeeds and
attributes the object to the site of `fr`: the roots afterwards are those
obtained from the function of `fr` and the line and column resolved from its
bytecode offset alone.  Hence any other reachable tracer with the same roots
whose top user frame has the same function and resolves to the same line and
column, whatever frames lie below it and whatever internal frames above it,
ends with the same roots. -/
theorem record_attributes_to_top_user_frame (host : Host) (t : AllocTracer) (obj : Nat)
    (below above : List AllocCallStackEntry) (fr : AllocCallStackEntry)
    (hreach : Reachable host t)
    (hstack : t.m_callStack = below ++ fr :: above)
    (hfr : IsInternalLocation host fr = false)
    (habove : ∀ e ∈ above, IsInternalLocation host e = true) :
    AddAllocation host t obj =
        .ok { m_callStack := t.m_callStack
              m_prunedCallStack := []
              m_allocPathRoots :=
                attributeTo host t.m_allocPathRoots fr.Function
                  (ExtractLineColumn host fr).1 (ExtractLineColumn host fr).2
                  (host.GetThreadContext obj) obj }
      ∧ ∀ (t2 : AllocTracer) (below2 above2 : List AllocCallStackEntry)
          (fr2 : AllocCallStackEntry),
          Reachable host t2 → t2.m_allocPathRoots = t.m_allocPathRoots →
          t2.m_callStack = below2 ++ fr2 :: above2 →
          IsInternalLocation host fr2 = false →
          (∀ e ∈ above2, IsInternalLocation host e = true) →
          fr2.Function = fr.Function →
          ExtractLineColumn host fr2 = ExtractLineColumn host fr →
          (AddAllocation host t2 obj).map (fun r => r.m_allocPathRoots) =
            (AddAllocation host t obj).map (fun r => r.m_allocPathRoots) := by
  have key : ∀ (u : AllocTracer) (b a : List AllocCallStackEntry) (f : AllocCallStackEntry),
      Reachable host u → u.m_callStack = b ++ f :: a →
      IsInternalLocation host f = false →
      (∀ e ∈ a, IsInternalLocation host e = true) →
      AddAllocation host u obj =
        .ok { m_callStack := u.m_callStack
              m_prunedCallStack := []
              m_allocPathRoots :=
                attributeTo host u.m_allocPathRoots f.Function
                  (ExtractLineColumn host f).1 (ExtractLineColumn host f).2
                  (host.GetThreadContext obj) obj } := by
    intro u b a f hu hs hf ha
    rw [addAllocation_wellFormed host u obj (reachable_wellFormed host u hu), hs,
      topUserFrame_split host b a f hf ha]
  refine ⟨key t below above fr hreach hstack hfr habove, ?_⟩
  intro t2 below2 above2 fr2 hreach2 hroots hstack2 hfr2 habove2 hfun hlc
  rw [key t below above fr hreach hstack hfr habove,
    key t2 below2 above2 fr2 hreach2 hstack2 hfr2 habove2, hroots, hfun, hlc]
  rfl

/-- Witness of C1: after `push 1; push 4096; push 3` the frame of function 4096
is the top user frame, and recording object 8 creates the leaf of its site. -/
theorem record_attributes_to_top_user_frame_witness :
    IsInternalLocation exampleHost { Function := 4096, BytecodeIndex := 0 } = false ∧
    AddAllocation exampleHost stackWithUserFrame 8 =
      .ok { m_callStack := stackWithUserFrame.m_callStack
            m_prunedCallStack := []
            m_allocPathRoots :=
              attributeTo exampleHost stackWithUserFrame.m_allocPathRoots 4096
                (ExtractLineColumn exampleHost { Function := 4096, BytecodeIndex := 0 }).1
                (ExtractLineColumn exampleHost { Function := 4096, BytecodeIndex := 0 }).2
                (exampleHost.GetThreadContext 8) 8 } :=
  ⟨by decide,
   (record_attributes_to_top_user_frame exampleHost stackWithUserFrame 8
      [{ Function := 1, BytecodeIndex := 0 }] [{ Function := 3, BytecodeIndex := 0 }]
      { Function := 4096, BytecodeIndex := 0 }
      ⟨[.push 1, .push 4096, .push 3], rfl⟩ rfl (by decide) (by decide)).1⟩

/-- The sequence `push(A); push(B); update_offset(o); record(x); pop; pop` on a
reachable tracer, `B` a user function: it succeeds, the stack is the one before
the sequence, and the allocation is attributed under the key of function `B`
at the line and column resolved from offset `o`. -/
theorem push_push_update_record_pop_pop (host : Host) (t : AllocTracer) (A B o x : Nat)
    (hreach : Reachable host t)
    (hB : IsInternalLocation host { Function := B, BytecodeIndex := o } = false) :
    runOps host t [.push A, .push B, .update_offset o, .record x, .pop, .pop] =
      .ok { m_callStack := t.m_callStack
            m_prunedCallStack := []
            m_allocPathRoots :=
              attributeTo host t.m_allocPathRoots B
                (ExtractLineColumn host { Function := B, BytecodeIndex := o }).1
                (ExtractLineColumn host { Function := B, BytecodeIndex := o }).2
                (host.GetThreadContext x) x } := by
  have hwf := reachable_wellFormed host t hreach
  have hset : ∀ (l : List AllocCallStackEntry) (e : AllocCallStackEntry),
      setLastBytecodeIndex o (l ++ [e]) = l ++ [{ e with BytecodeIndex := o }] := by
    intro l e
    induction l with
    | nil => rfl
    | cons a rest ih =>
      cases hr : rest ++ [e] with
      | nil => simp at hr
      | cons b rest2 =>
        rw [hr] at ih
        simp only [List.cons_append, hr, setLastBytecodeIndex, ih]
  have hwf3 : WellFormed
      { m_callStack := t.m_callStack ++ [{ Function := A, BytecodeIndex := 0 }]
          ++ [{ Function := B, BytecodeIndex := o }]
        m_prunedCallStack := t.m_prunedCallStack
        m_allocPathRoots := t.m_allocPathRoots } := hwf
  have htop : topUserFrame host
      (t.m_callStack ++ [{ Function := A, BytecodeIndex := 0 }]
        ++ [{ Function := B, BytecodeIndex := o }]) =
      some { Function := B, BytecodeIndex := o } := by
    have := topUserFrame_split host
      (t.m_callStack ++ [{ Function := A, BytecodeIndex := 0 }]) []
      { Function := B, BytecodeIndex := o } hB (by simp)
    simpa using this
  simp only [runOps, applyOp, PushCallStackEntry, UpdateBytecodeIndex, PopCallStackEntry,
    List.length_append, List.length_singleton, List.length_cons, List.length_nil]
  simp only [Nat.add_one_ne_zero, if_false, hset]
  rw [addAllocation_wellFormed host _ x hwf3]
  simp only [htop]
  simp

/-- C2 (the code at the failing input): the tracer reached by
`push 4096; update_offset 40; record 2; pop` holds one leaf, for function 4096
at line 1, column 0.  Function 4608 is a user function, object 4 is trackable
and offset 3 of function 4608 resolves to line 0, column 0.  Running
`push 1; push 4608; update_offset 3; record 4; pop; pop` restores the stack but
adds object 4 to the leaf whose location is function 4096 at line 1, column 0:
both sites have the key 4608, and no leaf for function 4608 exists afterwards. -/
theorem record_sequence_at_colliding_key :
    runOps exampleHost AllocTracer.new [.push 4096, .update_offset 40, .record 2, .pop] =
        .ok siteLine1Recorded
      ∧ IsInternalLocation exampleHost { Function := 4608, BytecodeIndex := 3 } = false
      ∧ exampleHost.IsAllocTrackable 4 = true
      ∧ ExtractLineColumn exampleHost { Function := 4608, BytecodeIndex := 3 } = (0, 0)
      ∧ runOps exampleHost siteLine1Recorded
          [.push 1, .push 4608, .update_offset 3, .record 4, .pop, .pop] =
        .ok { m_callStack := []
              m_prunedCallStack := []
              m_allocPathRoots :=
                [(4608, .terminal { m_function := 4096, m_line := 1, m_column := 0 } 0 0 false
                    { m_threadContext := 1, m_allocationCount := 2,
                      m_allocationLiveSet := [2, 4] })] } :=
  ⟨rfl, by decide, by decide, by decide, rfl⟩

/-- Two allocations attributed to one site whose key has no entry yet: the
first adds a leaf for the site after the existing roots, the second finds it,
and the leaf ends with an allocation count of 2 and both objects. -/
theorem attributeTo_twice_without_key (host : Host) (roots : CallerPathList)
    (function line column ctx1 ctx2 x1 x2 : Nat)
    (hkey : ContainsKey roots (FrameKey host function line column) = false) :
    attributeTo host (attributeTo host roots function line column ctx1 x1)
        function line column ctx2 x2 =
      roots ++ [(FrameKey host function line column,
        .terminal { m_function := function, m_line := line, m_column := column } 0 0 false
          { m_threadContext := ctx1, m_allocationCount := 2,
            m_allocationLiveSet := AllocPinSet.Add [x1] x2 })] := by
  have hit : Item roots (FrameKey host function line column) = none := by
    rw [containsKey_iff_item] at hkey
    cases h : Item roots (FrameKey host function line column) with
    | none => rfl
    | some e => simp [h] at hkey
  have h1 : attributeTo host roots function line column ctx1 x1 =
      Add roots (FrameKey host function line column)
        (.terminal { m_function := function, m_line := line, m_column := column } 0 0 false
          { m_threadContext := ctx1, m_allocationCount := 1, m_allocationLiveSet := [x1] }) := by
    simp [attributeTo, hit, Add]
  rw [h1]
  unfold attributeTo
  rw [item_add_new roots _ _ hit]
  simp only [storeItem_add_new roots _ _ _ hit, AllocPathEntry.addAllocation,
    AllocSiteStats.AddAllocation]

/-- C3 (the code at the failing input): the tracer reached by
`push 4096; update_offset 40; record 2; pop` has no leaf for function 4608.
Offsets 3 and 7 of the user function 4608 differ and both resolve to line 0,
column 0.  Two record calls under them add no leaf at all: the tree still has
its one leaf, located at function 4096, line 1, column 0, now counting three
allocations, because both sites have the key 4608. -/
theorem two_records_at_colliding_key :
    runOps exampleHost AllocTracer.new [.push 4096, .update_offset 40, .record 2, .pop] =
        .ok siteLine1Recorded
      ∧ IsInternalLocation exampleHost { Function := 4608, BytecodeIndex := 3 } = false
      ∧ ExtractLineColumn exampleHost { Function := 4608, BytecodeIndex := 3 } = (0, 0)
      ∧ ExtractLineColumn exampleHost { Function := 4608, BytecodeIndex := 7 } = (0, 0)
      ∧ runOps exampleHost siteLine1Recorded
          [.push 4608, .update_offset 3, .record 4, .update_offset 7, .record 6] =
        .ok { m_callStack := [{ Function := 4608, BytecodeIndex := 7 }]
              m_prunedCallStack := []
              m_allocPathRoots :=
                [(4608, .terminal { m_function := 4096, m_line := 1, m_column := 0 } 0 0 false
                    { m_threadContext := 1, m_allocationCount := 3,
                      m_allocationLiveSet := [2, 4, 6] })] } :=
  ⟨rfl, by decide, by decide, by decide, rfl⟩

theorem allocCountSumList_append (d1 d2 : CallerPathList) :
    allocCountSumList (d1 ++ d2) = allocCountSumList d1 + allocCountSumList d2 := by
  induction d1 with
  | nil => simp [allocCountSumList]
  | cons kv rest ih =>
    obtain ⟨k, e⟩ := kv
    have hcons : ∀ l : CallerPathList,
        allocCountSumList ((k, e) :: l) = e.allocCountSum + allocCountSumList l := by
      intro l; simp only [allocCountSumList]
    rw [List.cons_append, hcons, hcons, ih]
    omega

theorem allocCountSum_addAllocation (obj : Nat) (e : AllocPathEntry)
    (he : e.IsTerminalStatsEntry = true) :
    (e.addAllocation obj).allocCountSum = e.allocCountSum + 1 := by
  cases e with
  | terminal loc c s b stats =>
    simp [AllocPathEntry.addAllocation, AllocPathEntry.allocCountSum,
      AllocSiteStats.AddAllocation]
  | node loc c s b paths => simp [AllocPathEntry.IsTerminalStatsEntry] at he

theorem allocCountSumList_storeItem (d : CallerPathList) (key : Int) (e e2 : AllocPathEntry)
    (h : Item d key = some e) :
    allocCountSumList (StoreItem d key e2) + e.allocCountSum =
      allocCountSumList d + e2.allocCountSum := by
  induction d with
  | nil => simp [Item] at h
  | cons kv rest ih =>
    obtain ⟨k, x⟩ := kv
    by_cases hk : k = key
    · simp only [Item, hk, beq_self_eq_true, if_true, Option.some.injEq] at h
      subst h
      simp only [StoreItem, hk, beq_self_eq_true, if_true, allocCountSumList]
      omega
    · simp only [Item, beq_iff_eq, hk, if_false] at h
      have := ih h
      simp only [StoreItem, beq_iff_eq, hk, if_false, allocCountSumList]
      omega

theorem allocCountSumList_attributeTo (host : Host) (roots : CallerPathList)
    (function line column threadContext obj : Nat)
    (h : ∀ kv ∈ roots, kv.2.IsTerminalStatsEntry = true) :
    allocCountSumList (attributeTo host roots function line column threadContext obj) =
      allocCountSumList roots + 1 := by
  unfold attributeTo
  cases hit : Item roots (FrameKey host function line column) with
  | none =>
    simp [allocCountSumList_append, allocCountSumList, AllocPathEntry.allocCountSum]
  | some tentry =>
    have ht : tentry.IsTerminalStatsEntry = true := h _ (item_mem _ _ _ hit)
    have h1 := allocCountSumList_storeItem roots _ tentry (tentry.addAllocation obj) hit
    rw [allocCountSum_addAllocation obj tentry ht] at h1
    simp only
    omega

theorem hasUserFrame_eq_topUserFrame (host : Host) (s : List AllocCallStackEntry) :
    hasUserFrame host s = (topUserFrame host s).isSome := by
  simp only [hasUserFrame, topUserFrame]
  rw [Bool.eq_iff_iff]
  simp only [List.any_eq_true, List.find?_isSome, List.mem_reverse]

/-- The sum of the allocation counts over the leaves after a sequence of calls
on a well-formed tracer: the sum before it plus the number of record calls
made with a user frame on the stack, whether their object is trackable or not. -/
theorem allocCountSum_runOps (host : Host) (ops : List TracerOp) :
    ∀ t t1 : AllocTracer, WellFormed t → runOps host t ops = .ok t1 →
      allocCountSumList t1.m_allocPathRoots =
        allocCountSumList t.m_allocPathRoots + attributedRecordCalls host t ops := by
  induction ops with
  | nil =>
    intro t t1 _ h
    simp only [runOps, Except.ok.injEq] at h
    subst h
    simp [attributedRecordCalls]
  | cons op rest ih =>
    intro t t1 hwf h
    simp only [runOps] at h
    cases hop : applyOp host t op with
    | error e => simp [hop] at h
    | ok t2 =>
      simp only [hop] at h
      have hwf2 := applyOp_wellFormed host t t2 op hwf hop
      have hrest := ih t2 t1 hwf2 h
      rw [hrest]
      simp only [attributedRecordCalls, hop]
      cases op with
      | push body =>
        simp only [applyOp, PushCallStackEntry, Except.ok.injEq] at hop
        subst hop; simp
      | pop =>
        simp only [applyOp, PopCallStackEntry] at hop
        split at hop
        · cases hop
        · simp only [Except.ok.injEq] at hop
          subst hop; simp
      | update_offset index =>
        simp only [applyOp, UpdateBytecodeIndex] at hop
        split at hop
        · cases hop
        · simp only [Except.ok.injEq] at hop
          subst hop; simp
      | record obj =>
        simp only [applyOp, addAllocation_wellFormed host t obj hwf] at hop
        rw [hasUserFrame_eq_topUserFrame]
        cases htop : topUserFrame host t.m_callStack with
        | none =>
          simp only [htop, Except.ok.injEq] at hop
          subst hop; simp
        | some fr =>
          simp only [htop, Except.ok.injEq] at hop
          subst hop
          simp only [allocCountSumList_attributeTo host _ _ _ _ _ _ hwf.2, Option.isSome_some,
            if_true]
          omega

/-- C4 (the code at the failing input): object 3 is not trackable, so the
sequence `push 4096; record 3` holds no accepted record call, yet the sum of
the allocation counts over the leaves is 1 after it. -/
theorem untrackable_record_is_counted :
    exampleHost.IsAllocTrackable 3 = false
      ∧ acceptedRecordCalls exampleHost AllocTracer.new [.push 4096, .record 3] = 0
      ∧ (runOps exampleHost AllocTracer.new [.push 4096, .record 3]).map
          (fun t => allocCountSumList t.m_allocPathRoots) = .ok 1 :=
  ⟨by decide, by decide, rfl⟩

/-- C5: in every reachable tracer whose shadow stack holds no user frame, in
particular one whose stack is empty, `AddAllocation` succeeds and changes
nothing: the path tree with every count and live set, the shadow stack and the
scratch list `m_prunedCallStack` are those before the call. -/
theorem record_without_user_frame_is_dropped (host : Host) (t : AllocTracer) (obj : Nat)
    (hreach : Reachable host t)
    (hno : ∀ e ∈ t.m_callStack, IsInternalLocation host e = true) :
    AddAllocation host t obj = .ok t := by
  rw [addAllocation_wellFormed host t obj (reachable_wellFormed host t hreach),
    topUserFrame_none host t.m_callStack hno]

/-- Witness of C5: a new tracer has an empty stack, and recording leaves it as it is. -/
theorem record_without_user_frame_is_dropped_witness :
    AllocTracer.new.m_callStack = [] ∧
    AddAllocation exampleHost AllocTracer.new 2 = .ok AllocTracer.new :=
  ⟨rfl, record_without_user_frame_is_dropped exampleHost AllocTracer.new 2 ⟨[], rfl⟩
    (by intro e he; simp [AllocTracer.new] at he)⟩

/-- C6 (the code at the failing input): object 3 is not trackable, yet recording
it under the user frame of function 4096 creates a leaf that counts one
allocation and holds object 3 in its live set. -/
theorem untrackable_record_is_inserted :
    exampleHost.IsAllocTrackable 3 = false
      ∧ runOps exampleHost AllocTracer.new [.push 4096, .record 3] =
        .ok { m_callStack := [{ Function := 4096, BytecodeIndex := 0 }]
              m_prunedCallStack := []
              m_allocPathRoots :=
                [(4096, .terminal { m_function := 4096, m_line := 0, m_column := 0 } 0 0 false
                    { m_threadContext := 1, m_allocationCount := 1,
                      m_allocationLiveSet := [3] })] } :=
  ⟨by decide, rfl⟩

/-! ## Internal frames -/

/-- C7 (counterexample): function 1 has a null url and object 2 is trackable.
After `push 1; record 2` on a new tracer the path tree has no entry and the
total allocation count is 0, not 1. -/
theorem internal_only_record_counterexample :
    exampleHost.GetSourceContextInfo 1 = some none
      ∧ exampleHost.IsAllocTrackable 2 = true
      ∧ (runOps exampleHost AllocTracer.new [.push 1, .record 2]).map
          (fun t => t.m_allocPathRoots.length) = .ok 0
      ∧ ¬ ((runOps exampleHost AllocTracer.new [.push 1, .record 2]).map
          (fun t => allocCountSumList t.m_allocPathRoots) = .ok 1) := by
  refine ⟨by decide, by decide, rfl, ?_⟩
  have h : (runOps exampleHost AllocTracer.new [.push 1, .record 2]).map
      (fun t => allocCountSumList t.m_allocPathRoots) = .ok 0 := rfl
  rw [h]
  intro hc
  cases hc

/-- C7 (amended): when the only frame on the shadow stack of a new tracer is a
frame of a function whose url is null, recording an object inserts no path: the
tracer is the one before the call, its total allocation count is 0, and the
next emission (its stream opened) writes an allocations sequence with no
record in it. -/
theorem internal_only_record_is_dropped (host : Host) (f obj : Nat)
    (files : List FileSourceEntry) (snapId : Int)
    (hurl : host.GetSourceContextInfo f = some none)
    (hopen : host.OpenResourceStream snapId = true) :
    runOps host AllocTracer.new [.push f, .record obj] =
        .ok (PushCallStackEntry AllocTracer.new f)
      ∧ (PushCallStackEntry AllocTracer.new f).m_allocPathRoots = []
      ∧ allocCountSumList (PushCallStackEntry AllocTracer.new f).m_allocPathRoots = 0
      ∧ (EmitTrimedAllocTrace host (PushCallStackEntry AllocTracer.new f) files snapId).map
          (fun r => r.written) =
        .ok ([ .setQuotedKey true, .WriteRecordStart .NoSeparator, .AdjustIndent 1,
               .WriteSequenceStartWithKey .allocations .BigSpaceSeparator, .AdjustIndent 1,
               .WriteSeperator .BigSpaceSeparator, .AdjustIndent (-1), .WriteSequenceEnd ]
             ++ JSONWriteFileToSourceList files .CommaAndBigSpaceSeparator
             ++ [.AdjustIndent (-1), .WriteRecordEnd, .FlushAndClose]) := by
  have hint : ∀ e ∈ (PushCallStackEntry AllocTracer.new f).m_callStack,
      IsInternalLocation host e = true := by
    intro e he
    simp only [PushCallStackEntry, AllocTracer.new, List.nil_append, List.mem_singleton] at he
    subst he
    simp [IsInternalLocation, hurl]
  have hwf : WellFormed (PushCallStackEntry AllocTracer.new f) := wellFormed_new
  have hrec : AddAllocation host (PushCallStackEntry AllocTracer.new f) obj =
      .ok (PushCallStackEntry AllocTracer.new f) := by
    rw [addAllocation_wellFormed host _ obj hwf, topUserFrame_none host _ hint]
  refine ⟨?_, rfl, rfl, ?_⟩
  · simp only [runOps, applyOp, hrec]
  · simp [EmitTrimedAllocTrace, hopen, PushCallStackEntry, AllocTracer.new,
      EmitTrimedAllocTrace.estimateRoots, EmitTrimedAllocTrace.flagRoots,
      EmitTrimedAllocTrace.writeRoots, Except.map]

/-- Witness of C7 (amended): function 1 of the example runtime has a null url. -/
theorem internal_only_record_is_dropped_witness :
    exampleHost.GetSourceContextInfo 1 = some none
      ∧ runOps exampleHost AllocTracer.new [.push 1, .record 2] =
        .ok (PushCallStackEntry AllocTracer.new 1) :=
  ⟨by decide, (internal_only_record_is_dropped exampleHost 1 2 [] 0 (by decide) (by decide)).1⟩

/-! ## The shadow stack -/

theorem setLastBytecodeIndex_length (index : Nat) :
    ∀ l : List AllocCallStackEntry, (setLastBytecodeIndex index l).length = l.length
  | [] => rfl
  | [_] => rfl
  | _ :: e2 :: rest => by
    simp only [setLastBytecodeIndex, List.length_cons]
    have := setLastBytecodeIndex_length index (e2 :: rest)
    simp only [List.length_cons] at this
    omega

theorem setLastBytecodeIndex_snoc (index : Nat) (l : List AllocCallStackEntry)
    (e : AllocCallStackEntry) :
    setLastBytecodeIndex index (l ++ [e]) = l ++ [{ e with BytecodeIndex := index }] := by
  induction l with
  | nil => rfl
  | cons a rest ih =>
    cases hr : rest ++ [e] with
    | nil => simp at hr
    | cons b rest2 =>
      rw [hr] at ih
      simp only [List.cons_append, hr, setLastBytecodeIndex, ih]

theorem addAllocation_callStack (host : Host) (t t1 : AllocTracer) (obj : Nat)
    (hwf : WellFormed t) (h : AddAllocation host t obj = .ok t1) :
    t1.m_callStack = t.m_callStack := by
  rw [addAllocation_wellFormed host t obj hwf] at h
  cases htop : topUserFrame host t.m_callStack with
  | none =>
    simp only [htop, Except.ok.injEq] at h
    subst h; rfl
  | some fr =>
    simp only [htop, Except.ok.injEq] at h
    subst h; rfl

theorem addAllocation_succeeds (host : Host) (t : AllocTracer) (obj : Nat)
    (hwf : WellFormed t) : ∃ t1, AddAllocation host t obj = .ok t1 := by
  rw [addAllocation_wellFormed host t obj hwf]
  cases topUserFrame host t.m_callStack with
  | none => exact ⟨_, rfl⟩
  | some fr => exact ⟨_, rfl⟩

theorem runOps_depth (host : Host) (ops : List TracerOp) :
    ∀ t : AllocTracer, WellFormed t → legalFrom t.m_callStack.length ops = true →
      ∃ t1, runOps host t ops = .ok t1 ∧
        t1.m_callStack.length + countPop ops = t.m_callStack.length + countPush ops := by
  induction ops with
  | nil => intro t _ _; exact ⟨t, rfl, rfl⟩
  | cons op rest ih =>
    intro t hwf hlegal
    cases op with
    | push body =>
      have hwf1 : WellFormed (PushCallStackEntry t body) := hwf
      have hl : legalFrom (PushCallStackEntry t body).m_callStack.length rest = true := by
        simpa [PushCallStackEntry, legalFrom] using hlegal
      obtain ⟨t1, hrun, hlen⟩ := ih _ hwf1 hl
      refine ⟨t1, by simp only [runOps, applyOp, hrun], ?_⟩
      simp only [PushCallStackEntry, List.length_append, List.length_singleton] at hlen
      simp only [countPush, countPop]
      omega
    | pop =>
      simp only [legalFrom, Bool.and_eq_true, bne_iff_ne, ne_eq] at hlegal
      have hwf1 : WellFormed { t with m_callStack := t.m_callStack.dropLast } := hwf
      have hl : legalFrom
          ({ t with m_callStack := t.m_callStack.dropLast } : AllocTracer).m_callStack.length
          rest = true := by
        simpa using hlegal.2
      obtain ⟨t1, hrun, hlen⟩ := ih _ hwf1 hl
      refine ⟨t1, by simp only [runOps, applyOp, PopCallStackEntry, hlegal.1, if_false, hrun], ?_⟩
      simp only [List.length_dropLast] at hlen
      simp only [countPush, countPop]
      omega
    | update_offset index =>
      simp only [legalFrom, Bool.and_eq_true, bne_iff_ne, ne_eq] at hlegal
      have hwf1 : WellFormed
          { t with m_callStack := setLastBytecodeIndex index t.m_callStack } := hwf
      have hl : legalFrom
          ({ t with m_callStack := setLastBytecodeIndex index t.m_callStack } :
            AllocTracer).m_callStack.length rest = true := by
        simpa [setLastBytecodeIndex_length] using hlegal.2
      obtain ⟨t1, hrun, hlen⟩ := ih _ hwf1 hl
      refine ⟨t1, by
        simp only [runOps, applyOp, UpdateBytecodeIndex, hlegal.1, if_false, hrun], ?_⟩
      simp only [setLastBytecodeIndex_length] at hlen
      simp only [countPush, countPop]
      omega
    | record obj =>
      obtain ⟨t2, h2⟩ := addAllocation_succeeds host t obj hwf
      have hcs := addAllocation_callStack host t t2 obj hwf h2
      have hwf2 : WellFormed t2 := applyOp_wellFormed host t t2 (.record obj) hwf h2
      have hl : legalFrom t2.m_callStack.length rest = true := by
        rw [hcs]; simpa [legalFrom] using hlegal
      obtain ⟨t1, hrun, hlen⟩ := ih _ hwf2 hl
      refine ⟨t1, by simp only [runOps, applyOp, h2, hrun], ?_⟩
      rw [hcs] at hlen
      simp only [countPush, countPop]
      omega

/-- C8: every legal sequence of push, pop, update_offset and record calls runs
to the end on a new tracer, and the depth of the shadow stack after it is the
number of its push calls minus the number of its pop calls.  On a reachable
tracer a successful update_offset and a record leave the depth as it is. -/
theorem depth_is_pushes_minus_pops (host : Host) (ops : List TracerOp)
    (hlegal : legalFrom 0 ops = true) :
    (∃ t, runOps host AllocTracer.new ops = .ok t ∧
        countPop ops ≤ countPush ops ∧
        t.m_callStack.length = countPush ops - countPop ops)
      ∧ (∀ (t t1 : AllocTracer) (index : Nat), Reachable host t →
          UpdateBytecodeIndex t index = .ok t1 →
          t1.m_callStack.length = t.m_callStack.length)
      ∧ (∀ (t : AllocTracer) (obj : Nat), Reachable host t →
          ∃ t1, AddAllocation host t obj = .ok t1 ∧
            t1.m_callStack.length = t.m_callStack.length) := by
  refine ⟨?_, ?_, ?_⟩
  · obtain ⟨t, hrun, hlen⟩ := runOps_depth host ops AllocTracer.new wellFormed_new hlegal
    have h0 : AllocTracer.new.m_callStack.length = 0 := rfl
    rw [h0] at hlen
    exact ⟨t, hrun, by omega, by omega⟩
  · intro t t1 index _ h
    simp only [UpdateBytecodeIndex] at h
    split at h
    · cases h
    · simp only [Except.ok.injEq] at h
      subst h
      exact setLastBytecodeIndex_length index t.m_callStack
  · intro t obj hreach
    have hwf := reachable_wellFormed host t hreach
    obtain ⟨t1, h1⟩ := addAllocation_succeeds host t obj hwf
    exact ⟨t1, h1, by rw [addAllocation_callStack host t t1 obj hwf h1]⟩

/-- Witness of C8: `push; push; update_offset; record; pop` is legal and leaves depth 1. -/
theorem depth_is_pushes_minus_pops_witness :
    legalFrom 0 [.push 1, .push 4096, .update_offset 3, .record 2, .pop] = true
      ∧ ∃ t, runOps exampleHost AllocTracer.new
            [.push 1, .push 4096, .update_offset 3, .record 2, .pop] = .ok t ∧
          countPop [.push 1, .push 4096, .update_offset 3, .record 2, .pop] ≤
            countPush [.push 1, .push 4096, .update_offset 3, .record 2, .pop] ∧
          t.m_callStack.length =
            countPush [.push 1, .push 4096, .update_offset 3, .record 2, .pop] -
              countPop [.push 1, .push 4096, .update_offset 3, .record 2, .pop] :=
  ⟨by decide,
   (depth_is_pushes_minus_pops exampleHost
      [.push 1, .push 4096, .update_offset 3, .record 2, .pop] (by decide)).1⟩

/-- C10: `PopCallStackEntry` and `UpdateBytecodeIndex` fail, with the underflow
assertion, exactly on an empty shadow stack.  On a stack `lower` followed by
`top`, pop leaves exactly `lower` and update_offset leaves `lower` followed by
`top` with only its bytecode offset changed; neither touches the scratch list
or the path tree. -/
theorem pop_and_update_offset_underflow (t : AllocTracer) (index : Nat)
    (lower pruned : List AllocCallStackEntry) (top : AllocCallStackEntry)
    (roots : CallerPathList) :
    (PopCallStackEntry t = .error .Underflow ↔ t.m_callStack = [])
      ∧ ((∃ e, PopCallStackEntry t = .error e) ↔ t.m_callStack = [])
      ∧ (UpdateBytecodeIndex t index = .error .Underflow ↔ t.m_callStack = [])
      ∧ ((∃ e, UpdateBytecodeIndex t index = .error e) ↔ t.m_callStack = [])
      ∧ PopCallStackEntry
          { m_callStack := lower ++ [top], m_prunedCallStack := pruned,
            m_allocPathRoots := roots } =
        .ok { m_callStack := lower, m_prunedCallStack := pruned, m_allocPathRoots := roots }
      ∧ UpdateBytecodeIndex
          { m_callStack := lower ++ [top], m_prunedCallStack := pruned,
            m_allocPathRoots := roots } index =
        .ok { m_callStack := lower ++ [{ Function := top.Function, BytecodeIndex := index }],
              m_prunedCallStack := pruned, m_allocPathRoots := roots } := by
  have hpop : ∀ e, PopCallStackEntry t = .error e ↔ (t.m_callStack = [] ∧ e = .Underflow) := by
    intro e
    simp only [PopCallStackEntry, List.length_eq_zero]
    split
    · rename_i h
      simp only [Except.error.injEq, h, true_and]
      exact eq_comm
    · rename_i h
      simp [h]
  have hupd : ∀ e, UpdateBytecodeIndex t index = .error e ↔
      (t.m_callStack = [] ∧ e = .Underflow) := by
    intro e
    simp only [UpdateBytecodeIndex, List.length_eq_zero]
    split
    · rename_i h
      simp only [Except.error.injEq, h, true_and]
      exact eq_comm
    · rename_i h
      simp [h]
  refine ⟨?_, ?_, ?_, ?_, ?_, ?_⟩
  · rw [hpop]; simp
  · constructor
    · rintro ⟨e, he⟩; exact ((hpop e).mp he).1
    · intro h; exact ⟨.Underflow, (hpop _).mpr ⟨h, rfl⟩⟩
  · rw [hupd]; simp
  · constructor
    · rintro ⟨e, he⟩; exact ((hupd e).mp he).1
    · intro h; exact ⟨.Underflow, (hupd _).mpr ⟨h, rfl⟩⟩
  · simp [PopCallStackEntry]
  · simp [UpdateBytecodeIndex, setLastBytecodeIndex_snoc]

/-! ## The exception frame popper -/

/-- C11: `PushCallStackEntry` leaves the stack it found followed by the single
new frame of the function with bytecode offset 0: the depth grows by one, the
frames that were there are the first frames of the new stack, unchanged, the
scratch list and the path tree are untouched, and a pop that follows succeeds
and gives back exactly the tracer before the push. -/
theorem push_appends_frame (t : AllocTracer) (f : Nat) :
    (PushCallStackEntry t f).m_callStack =
        t.m_callStack ++ [{ Function := f, BytecodeIndex := 0 }]
      ∧ (PushCallStackEntry t f).m_callStack.length = t.m_callStack.length + 1
      ∧ (PushCallStackEntry t f).m_callStack.take t.m_callStack.length = t.m_callStack
      ∧ (PushCallStackEntry t f).m_callStack.getLast? =
        some { Function := f, BytecodeIndex := 0 }
      ∧ (PushCallStackEntry t f).m_prunedCallStack = t.m_prunedCallStack
      ∧ (PushCallStackEntry t f).m_allocPathRoots = t.m_allocPathRoots
      ∧ PopCallStackEntry (PushCallStackEntry t f) = .ok t := by
  refine ⟨rfl, ?_, ?_, ?_, rfl, rfl, ?_⟩
  · simp [PushCallStackEntry]
  · simp [PushCallStackEntry]
  · simp [PushCallStackEntry]
  · simp [PopCallStackEntry, PushCallStackEntry]

/-! ## The estimate pass -/

theorem estimate_foldl (host : Host) (keys : List Nat) :
    ∀ liveCount liveSize : Nat,
      keys.foldl (fun acc key => (acc.1 + 1, acc.2 + objectSize host key)) (liveCount, liveSize) =
        (liveCount + keys.length, liveSize + objectSizeSum host keys) := by
  induction keys with
  | nil => intro c s; simp [objectSizeSum]
  | cons k rest ih =>
    intro c s
    simp only [List.foldl_cons, ih, List.length_cons, objectSizeSum, List.map_cons,
      List.sum_cons]
    have : (List.map (objectSize host) rest).sum = objectSizeSum host rest := rfl
    rw [this]
    congr 1 <;> omega

/-- The estimate pass on a terminal entry: the live count grows by the number
of entries of the live set and the live size by the sum of their sizes; both
start from the values the entry held before the pass. -/
theorem estimate_terminal (host : Host) (loc : SourceLocation) (c sz : Nat) (b : Bool)
    (stats : AllocSiteStats) :
    EstimateMemoryUseInfo host (.terminal loc c sz b stats) =
      .terminal loc (c + stats.m_allocationLiveSet.length)
        (sz + objectSizeSum host stats.m_allocationLiveSet) b stats := by
  simp [EstimateMemoryUseInfo, AllocSiteStats.EstimateMemoryUseInfo, estimate_foldl]

/-- C12 (the code at the failing input): after `push 4096; record 2` and one
emission the leaf holds live count 1 and live size 8, for its one live object
of size 8.  The next estimate pass leaves live count 2 and live size 16 while
the live set still has one entry.  An entry with one caller path, holding 1 and
8 like its path, is left with 3 and 24 while its path is left with 2 and 16:
the pass adds to the values found and never resets them. -/
theorem estimate_accumulates :
    (runSession exampleHost Session.start
        [.call (.push 4096), .call (.record 2), .emit 0]).map
        (fun s => s.tracer.m_allocPathRoots) = .ok [(4096, leafAfterOneEmission)]
      ∧ EstimateMemoryUseInfo exampleHost leafAfterOneEmission =
        .terminal { m_function := 4096, m_line := 0, m_column := 0 } 2 16 true
          { m_threadContext := 1, m_allocationCount := 1, m_allocationLiveSet := [2] }
      ∧ objectSizeSum exampleHost [2] = 8
      ∧ EstimateMemoryUseInfo exampleHost nodeAfterOneEstimate =
        .node { m_function := 4096, m_line := 0, m_column := 0 } 3 24 false
          [(8192, .terminal { m_function := 8192, m_line := 0, m_column := 0 } 2 16 false
              { m_threadContext := 1, m_allocationCount := 1, m_allocationLiveSet := [2] })] :=
  ⟨rfl, rfl, by decide, rfl⟩

/-- C13 (the code at the failing input): after `push 4096; record 2` two
emissions in a row leave the one leaf of the tree with live count 2 and
allocation count 1. -/
theorem live_count_exceeds_alloc_count :
    (runSession exampleHost Session.start
        [.call (.push 4096), .call (.record 2), .emit 0, .emit 1]).map
        (fun s => s.tracer.m_allocPathRoots) =
      .ok [(4096, .terminal { m_function := 4096, m_line := 0, m_column := 0 } 2 16 true
          { m_threadContext := 1, m_allocationCount := 1, m_allocationLiveSet := [2] })]
      ∧ (runSession exampleHost Session.start
        [.call (.push 4096), .call (.record 2), .emit 0, .emit 1]).map
        (fun s => s.tracer.m_allocPathRoots.map
          (fun kv => (kv.2.LiveCount, kv.2.allocCountSum))) = .ok [(2, 1)] :=
  ⟨rfl, rfl⟩

/-! ## The flag pass -/

theorem flag_eachValue_eq (countThreshold estimatedSizeThreshold : Nat)
    (paths : List (Int × AllocPathEntry)) :
    ∀ b : Bool,
      FlagInterestingSites.eachValue countThreshold estimatedSizeThreshold paths b =
        (paths.map (fun kv =>
            (kv.1, FlagInterestingSites countThreshold estimatedSizeThreshold kv.2)),
          b || paths.any (fun kv =>
            (FlagInterestingSites countThreshold estimatedSizeThreshold kv.2).IsInterestingSite))
    := by
  induction paths with
  | nil => intro b; simp [FlagInterestingSites.eachValue]
  | cons kv rest ih =>
    intro b
    obtain ⟨k, e⟩ := kv
    simp only [FlagInterestingSites.eachValue, ih, List.map_cons, List.any_cons, Bool.or_assoc]

theorem isInterestingSite_node (loc : SourceLocation) (c s : Nat) (b : Bool)
    (paths : List (Int × AllocPathEntry)) :
    (AllocPathEntry.node loc c s b paths).IsInterestingSite = b := rfl

mutual
theorem flag_spec (ct st : Nat) :
    ∀ e : AllocPathEntry,
      (FlagInterestingSites ct st e).flagsAsSpecified ct st = true ∧
        (FlagInterestingSites ct st e).anyInteresting =
          (FlagInterestingSites ct st e).IsInterestingSite ∧
        (FlagInterestingSites ct st e).clearFlags = e.clearFlags
  | .terminal loc c s b stats => by
    simp [FlagInterestingSites, AllocPathEntry.flagsAsSpecified,
      AllocPathEntry.anyInteresting, AllocPathEntry.IsInterestingSite,
      AllocPathEntry.clearFlags]
  | .node loc c s b paths => by
    obtain ⟨h1, h2, h3⟩ := flag_spec_list ct st paths
    simp only [FlagInterestingSites, flag_eachValue_eq, AllocPathEntry.flagsAsSpecified,
      AllocPathEntry.anyInteresting, isInterestingSite_node,
      AllocPathEntry.clearFlags, h1, h2, h3, Bool.and_true]
    generalize (paths.any fun kv => (FlagInterestingSites ct st kv.2).IsInterestingSite) = a
    refine ⟨?_, ?_, trivial⟩
    · cases a <;> cases b <;> rfl
    · cases a <;> cases b <;> rfl
theorem flag_spec_list (ct st : Nat) :
    ∀ paths : List (Int × AllocPathEntry),
      flagsAsSpecifiedList ct st
          (paths.map (fun kv => (kv.1, FlagInterestingSites ct st kv.2))) = true ∧
        anyInterestingList (paths.map (fun kv => (kv.1, FlagInterestingSites ct st kv.2))) =
          paths.any (fun kv => (FlagInterestingSites ct st kv.2).IsInterestingSite) ∧
        clearFlagsList (paths.map (fun kv => (kv.1, FlagInterestingSites ct st kv.2))) =
          clearFlagsList paths
  | [] => by simp [flagsAsSpecifiedList, anyInterestingList, clearFlagsList]
  | (k, e) :: rest => by
    obtain ⟨h1, h2, h3⟩ := flag_spec ct st e
    obtain ⟨g1, g2, g3⟩ := flag_spec_list ct st rest
    simp only [List.map_cons, flagsAsSpecifiedList, anyInterestingList, clearFlagsList,
      List.any_cons, h1, h2, h3, g1, g2, g3, Bool.and_true]
    exact ⟨trivial, trivial, trivial⟩
end

/-- C16: after `FlagInterestingSites` with the two thresholds, every terminal
entry of the subtree is flagged exactly when its live count reaches the count
threshold or its live size reaches the size threshold, whatever its flag was
before, and every entry with caller paths is flagged whenever an entry below
it is flagged.  The pass changes nothing but the flags. -/
theorem flag_pass_flags_as_specified (countThreshold estimatedSizeThreshold : Nat)
    (e : AllocPathEntry) :
    (FlagInterestingSites countThreshold estimatedSizeThreshold e).flagsAsSpecified
        countThreshold estimatedSizeThreshold = true
      ∧ (FlagInterestingSites countThreshold estimatedSizeThreshold e).clearFlags =
        e.clearFlags :=
  ⟨(flag_spec countThreshold estimatedSizeThreshold e).1,
   (flag_spec countThreshold estimatedSizeThreshold e).2.2⟩

/-! ## The thresholds -/

theorem bitLength_go_zero (fuel : Nat) : bitLength.go fuel 0 = 0 := by
  cases fuel <;> simp [bitLength.go]

theorem bitLength_go_spec : ∀ (fuel n : Nat), n ≤ fuel →
    n < 2 ^ bitLength.go fuel n ∧ (n ≠ 0 → 2 ^ (bitLength.go fuel n - 1) ≤ n) := by
  intro fuel
  induction fuel with
  | zero =>
    intro n hn
    have : n = 0 := by omega
    subst this
    simp [bitLength.go]
  | succ fuel ih =>
    intro n hn
    by_cases h0 : n = 0
    · subst h0; simp [bitLength.go]
    · have hhalf : n / 2 ≤ fuel := by omega
      obtain ⟨h1, h2⟩ := ih (n / 2) hhalf
      simp only [bitLength.go, h0, if_false, Nat.add_sub_cancel]
      constructor
      · rw [Nat.pow_succ]; omega
      · intro _
        by_cases hz : n / 2 = 0
        · rw [hz, bitLength_go_zero]
          simp; omega
        · have h3 := h2 hz
          have hg : bitLength.go fuel (n / 2) ≠ 0 := by
            intro hg
            rw [hg] at h1
            simp at h1
            exact hz h1
          have hpow : 2 ^ bitLength.go fuel (n / 2) =
              2 * 2 ^ (bitLength.go fuel (n / 2) - 1) := by
            conv_lhs => rw [show bitLength.go fuel (n / 2) =
              (bitLength.go fuel (n / 2) - 1) + 1 by omega]
            rw [Nat.pow_succ]; omega
          omega

theorem lt_pow_bitLength (n : Nat) : n < 2 ^ bitLength n :=
  (bitLength_go_spec n n (Nat.le_refl n)).1

theorem pow_bitLength_le (n : Nat) (h : n ≠ 0) : 2 ^ (bitLength n - 1) ≤ n :=
  (bitLength_go_spec n n (Nat.le_refl n)).2 h

theorem bitLength_le_of_lt (n k : Nat) (h : n < 2 ^ k) : bitLength n ≤ k := by
  by_cases h0 : n = 0
  · subst h0; simp [bitLength, bitLength.go]
  · have h1 := pow_bitLength_le n h0
    have h2 : 2 ^ (bitLength n - 1) < 2 ^ k := Nat.lt_of_le_of_lt h1 h
    have h3 : bitLength n - 1 < k := (Nat.pow_lt_pow_iff_right (by norm_num)).mp h2
    omega

theorem roundToDouble_of_bitLength_le (n : Nat) (h : bitLength n ≤ 53) :
    roundToDouble n = n := by
  simp [roundToDouble, h]

theorem roundToDouble_bounds (n : Nat) :
    (n / 2 ^ (bitLength n - 53)) * 2 ^ (bitLength n - 53) ≤ roundToDouble n ∧
      2 * roundToDouble n ≤ 2 * n + 2 ^ (bitLength n - 53) := by
  by_cases h : bitLength n ≤ 53
  · have hs : bitLength n - 53 = 0 := by omega
    rw [roundToDouble_of_bitLength_le n h, hs]
    simp
  · have hdm := Nat.div_add_mod n (2 ^ (bitLength n - 53))
    have hpow : 2 ^ (bitLength n - 53) = 2 * 2 ^ (bitLength n - 53 - 1) := by
      conv_lhs => rw [show bitLength n - 53 = (bitLength n - 53 - 1) + 1 by omega]
      rw [Nat.pow_succ]; omega
    have hmul : (n / 2 ^ (bitLength n - 53) + 1) * 2 ^ (bitLength n - 53) =
        (n / 2 ^ (bitLength n - 53)) * 2 ^ (bitLength n - 53) + 2 ^ (bitLength n - 53) := by
      rw [Nat.add_mul, Nat.one_mul]
    have hcomm : 2 ^ (bitLength n - 53) * (n / 2 ^ (bitLength n - 53)) =
        (n / 2 ^ (bitLength n - 53)) * 2 ^ (bitLength n - 53) := Nat.mul_comm _ _
    simp only [roundToDouble, h, if_false]
    split
    · rename_i hc
      rw [hmul]
      constructor
      · omega
      · rcases hc with hc | hc
        · omega
        · omega
    · constructor
      · omega
      · omega

/-- Below 2^52 the expression `(size_t)(total * 0.01)` is the integer part of
the hundredth of the total. -/
theorem interestingThreshold_eq_div (total : Nat) (h : total < 4503599627370496) :
    interestingThreshold total = total / 100 := by
  have hT : roundToDouble total = total := by
    apply roundToDouble_of_bitLength_le
    have : bitLength total ≤ 52 := bitLength_le_of_lt total 52 (by norm_num; exact h)
    omega
  have hdm := Nat.div_add_mod total 100
  have hr : total % 100 < 100 := Nat.mod_lt _ (by norm_num)
  have hb1 : total / 100 + 1 < 2 ^ bitLength (total / 100 + 1) := lt_pow_bitLength _
  have hb2 : 2 ^ (bitLength (total / 100 + 1) - 1) ≤ total / 100 + 1 :=
    pow_bitLength_le _ (by omega)
  have hb3 : bitLength (total / 100 + 1) ≤ 46 :=
    bitLength_le_of_lt _ 46 (by norm_num; omega)
  have hb4 : bitLength (total / 100 + 1) ≠ 0 := by
    intro h0
    rw [h0] at hb1
    simp at hb1
  have h59 : (2 : Nat) ^ 59 = 576460752303423488 := by norm_num
  have hPlt : total * 5764607523034235 <
      2 ^ (bitLength (total / 100 + 1) + 59) := by
    rw [Nat.pow_add, h59]
    have : total * 5764607523034235 < (total / 100 + 1) * 576460752303423488 := by omega
    calc total * 5764607523034235 < (total / 100 + 1) * 576460752303423488 := this
      _ ≤ 2 ^ bitLength (total / 100 + 1) * 576460752303423488 :=
        Nat.mul_le_mul_right _ (Nat.le_of_lt hb1)
  have hbits : bitLength (total * 5764607523034235) ≤ bitLength (total / 100 + 1) + 59 :=
    bitLength_le_of_lt _ _ hPlt
  obtain ⟨hlo, hhi⟩ := roundToDouble_bounds (total * 5764607523034235)
  have hsh : bitLength (total * 5764607523034235) - 53 ≤ bitLength (total / 100 + 1) + 6 := by
    omega
  have hpowsh : 2 ^ (bitLength (total * 5764607523034235) - 53) ≤ 128 * (total / 100 + 1) := by
    calc 2 ^ (bitLength (total * 5764607523034235) - 53)
        ≤ 2 ^ (bitLength (total / 100 + 1) + 6) :=
          Nat.pow_le_pow_right (by norm_num) hsh
      _ = 2 ^ ((bitLength (total / 100 + 1) - 1) + 7) := by
          have he : bitLength (total / 100 + 1) + 6 =
              (bitLength (total / 100 + 1) - 1) + 7 := by omega
          rw [he]
      _ = 2 ^ (bitLength (total / 100 + 1) - 1) * 128 := by
          rw [Nat.pow_add]
      _ ≤ (total / 100 + 1) * 128 := Nat.mul_le_mul_right _ hb2
      _ = 128 * (total / 100 + 1) := Nat.mul_comm _ _
  have hlow : total / 100 * 2 ^ 59 ≤ roundToDouble (total * 5764607523034235) := by
    have hsplit : (2 : Nat) ^ 59 =
        2 ^ (59 - (bitLength (total * 5764607523034235) - 53)) *
          2 ^ (bitLength (total * 5764607523034235) - 53) := by
      rw [← Nat.pow_add]
      have he : 59 = 59 - (bitLength (total * 5764607523034235) - 53) +
          (bitLength (total * 5764607523034235) - 53) := by omega
      rw [← he]
    have hle : total / 100 * 2 ^ 59 ≤ total * 5764607523034235 := by
      rw [h59]; omega
    have hq : total / 100 * 2 ^ (59 - (bitLength (total * 5764607523034235) - 53)) ≤
        total * 5764607523034235 / 2 ^ (bitLength (total * 5764607523034235) - 53) := by
      rw [Nat.le_div_iff_mul_le (Nat.pos_pow_of_pos _ (by norm_num))]
      rw [Nat.mul_assoc, ← hsplit]
      exact hle
    calc total / 100 * 2 ^ 59
        = total / 100 * 2 ^ (59 - (bitLength (total * 5764607523034235) - 53)) *
            2 ^ (bitLength (total * 5764607523034235) - 53) := by
          rw [Nat.mul_assoc, ← hsplit]
      _ ≤ total * 5764607523034235 / 2 ^ (bitLength (total * 5764607523034235) - 53) *
            2 ^ (bitLength (total * 5764607523034235) - 53) :=
          Nat.mul_le_mul_right _ hq
      _ ≤ roundToDouble (total * 5764607523034235) := hlo
  have hup : roundToDouble (total * 5764607523034235) < (total / 100 + 1) * 2 ^ 59 := by
    rw [h59]; omega
  unfold interestingThreshold doubleProductToSize
  rw [hT]
  exact Nat.div_eq_of_lt_le hlow hup

theorem estimateRoots_eq (host : Host) (roots : CallerPathList) :
    ∀ totalLive totalSizeEstimate : Nat,
      totalLive < 18446744073709551616 → totalSizeEstimate < 18446744073709551616 →
      EmitTrimedAllocTrace.estimateRoots host roots totalLive totalSizeEstimate =
        (estimatedRoots host roots,
          (totalLive + liveCountSum (estimatedRoots host roots)) % 18446744073709551616,
          (totalSizeEstimate + liveSizeSum (estimatedRoots host roots))
            % 18446744073709551616) := by
  induction roots with
  | nil =>
    intro c s hc hs
    simp [EmitTrimedAllocTrace.estimateRoots, estimatedRoots, liveCountSum, liveSizeSum,
      Nat.mod_eq_of_lt hc, Nat.mod_eq_of_lt hs]
  | cons kv rest ih =>
    intro c s hc hs
    obtain ⟨k, e⟩ := kv
    have h1 : (c + (EstimateMemoryUseInfo host e).LiveCount) % 18446744073709551616
        < 18446744073709551616 := Nat.mod_lt _ (by norm_num)
    have h2 : (s + (EstimateMemoryUseInfo host e).LiveSizeEstimate) % 18446744073709551616
        < 18446744073709551616 := Nat.mod_lt _ (by norm_num)
    simp only [EmitTrimedAllocTrace.estimateRoots, ih _ _ h1 h2, estimatedRoots, liveCountSum,
      liveSizeSum, List.map_cons, List.sum_cons, List.map_map]
    refine Prod.ext rfl (Prod.ext ?_ ?_)
    · simp only; omega
    · simp only; omega

theorem estimateRoots_zero (host : Host) (roots : CallerPathList) :
    EmitTrimedAllocTrace.estimateRoots host roots 0 0 =
      (estimatedRoots host roots,
        liveCountSum (estimatedRoots host roots) % 18446744073709551616,
        liveSizeSum (estimatedRoots host roots) % 18446744073709551616) := by
  rw [estimateRoots_eq host roots 0 0 (by norm_num) (by norm_num)]
  simp only [Nat.zero_add]

theorem emit_ok_fields (host : Host) (t : AllocTracer) (files : List FileSourceEntry)
    (snapId : Int) (r : EmitResult) (h : EmitTrimedAllocTrace host t files snapId = .ok r) :
    host.OpenResourceStream snapId = true
      ∧ r.countThreshold =
        interestingThreshold
          (liveCountSum (estimatedRoots host t.m_allocPathRoots) % 18446744073709551616)
      ∧ r.estimatedSizeThreshold =
        interestingThreshold
          (liveSizeSum (estimatedRoots host t.m_allocPathRoots) % 18446744073709551616)
      ∧ r.tracer =
        { m_callStack := t.m_callStack
          m_prunedCallStack := t.m_prunedCallStack
          m_allocPathRoots :=
            EmitTrimedAllocTrace.flagRoots r.countThreshold r.estimatedSizeThreshold
              (estimatedRoots host t.m_allocPathRoots) }
      ∧ ∃ w files1,
          EmitTrimedAllocTrace.writeRoots host r.tracer.m_allocPathRoots true files =
            .ok (w, files1)
          ∧ r.files = []
          ∧ r.written =
            [ .setQuotedKey true, .WriteRecordStart .NoSeparator, .AdjustIndent 1,
              .WriteSequenceStartWithKey .allocations .BigSpaceSeparator, .AdjustIndent 1 ]
            ++ w
            ++ [.WriteSeperator .BigSpaceSeparator, .AdjustIndent (-1), .WriteSequenceEnd]
            ++ JSONWriteFileToSourceList files1 .CommaAndBigSpaceSeparator
            ++ [.AdjustIndent (-1), .WriteRecordEnd, .FlushAndClose] := by
  unfold EmitTrimedAllocTrace at h
  by_cases hopen : host.OpenResourceStream snapId = true
  · simp only [hopen, Bool.not_true, Bool.false_eq_true, if_false, estimateRoots_zero] at h
    split at h
    · cases h
    · rename_i w files1 hw
      simp only [Except.ok.injEq] at h
      subst h
      exact ⟨hopen, rfl, rfl, rfl, w, files1, hw, rfl, rfl⟩
  · simp [hopen] at h

/-! ## What a session keeps true of the roots -/

theorem sourceContext_of_user (host : Host) (f : Nat)
    (h : IsInternalLocation host { Function := f, BytecodeIndex := 0 } = false) :
    ∃ url, host.GetSourceContextInfo f = some (some url) := by
  unfold IsInternalLocation at h
  cases hinfo : host.GetSourceContextInfo f with
  | none => simp [hinfo] at h
  | some u =>
    cases u with
    | none => simp [hinfo] at h
    | some url => exact ⟨url, rfl⟩

theorem topUserFrame_not_internal (host : Host) (s : List AllocCallStackEntry)
    (fr : AllocCallStackEntry) (h : topUserFrame host s = some fr) :
    IsInternalLocation host { Function := fr.Function, BytecodeIndex := 0 } = false := by
  have := List.find?_some h
  have h2 : IsInternalLocation host fr = false := by simpa using this
  exact h2

theorem storeItem_forall (P : AllocPathEntry → Prop) (d : CallerPathList) (key : Int)
    (e : AllocPathEntry) (hd : ∀ kv ∈ d, P kv.2) (he : P e) :
    ∀ kv ∈ StoreItem d key e, P kv.2 := by
  induction d with
  | nil => simp [StoreItem]
  | cons kv rest ih =>
    have hrest : ∀ kv ∈ rest, P kv.2 := fun x hx => hd x (List.mem_cons_of_mem _ hx)
    by_cases hk : kv.1 = key
    · intro x hx
      simp [StoreItem, hk] at hx
      rcases hx with hx | hx
      · subst hx; exact he
      · exact hrest x hx
    · intro x hx
      simp [StoreItem, hk] at hx
      rcases hx with hx | hx
      · subst hx; exact hd _ (List.mem_cons_self _ _)
      · exact ih hrest x hx

theorem addAllocation_location (obj : Nat) (e : AllocPathEntry) :
    (e.addAllocation obj).Location = e.Location := by
  cases e <;> rfl

theorem attributeTo_userLeaves (host : Host) (roots : CallerPathList)
    (function line column threadContext obj : Nat)
    (hf : IsInternalLocation host { Function := function, BytecodeIndex := 0 } = false)
    (h : UserLeaves host roots) :
    UserLeaves host (attributeTo host roots function line column threadContext obj) := by
  unfold attributeTo
  cases hit : Item roots (FrameKey host function line column) with
  | none =>
    intro kv hkv
    simp at hkv
    rcases hkv with hkv | hkv
    · exact h kv hkv
    · subst hkv; exact ⟨rfl, hf⟩
  | some tentry =>
    have ht := h _ (item_mem _ _ _ hit)
    exact storeItem_forall
      (fun e => e.IsTerminalStatsEntry = true ∧
        IsInternalLocation host { Function := e.Location.m_function, BytecodeIndex := 0 } = false)
      roots _ _ h (by
        show (tentry.addAllocation obj).IsTerminalStatsEntry = true ∧
          IsInternalLocation host
            { Function := (tentry.addAllocation obj).Location.m_function,
              BytecodeIndex := 0 } = false
        rw [addAllocation_terminal, addAllocation_location]
        exact ht)

theorem estimate_keeps (host : Host) (e : AllocPathEntry) :
    (EstimateMemoryUseInfo host e).IsTerminalStatsEntry = e.IsTerminalStatsEntry ∧
      (EstimateMemoryUseInfo host e).Location = e.Location := by
  cases e <;> simp [EstimateMemoryUseInfo, AllocPathEntry.IsTerminalStatsEntry,
    AllocPathEntry.Location]

theorem flag_keeps (ct st : Nat) (e : AllocPathEntry) :
    (FlagInterestingSites ct st e).IsTerminalStatsEntry = e.IsTerminalStatsEntry ∧
      (FlagInterestingSites ct st e).Location = e.Location ∧
      (FlagInterestingSites ct st e).LiveCount = e.LiveCount ∧
      (FlagInterestingSites ct st e).LiveSizeEstimate = e.LiveSizeEstimate := by
  cases e <;> simp [FlagInterestingSites, AllocPathEntry.IsTerminalStatsEntry,
    AllocPathEntry.Location, AllocPathEntry.LiveCount, AllocPathEntry.LiveSizeEstimate]

theorem collect_keeps (alive : Nat → Bool) (e : AllocPathEntry) :
    (collectEntry alive e).IsTerminalStatsEntry = e.IsTerminalStatsEntry ∧
      (collectEntry alive e).Location = e.Location := by
  cases e <;> simp [collectEntry, AllocPathEntry.IsTerminalStatsEntry,
    AllocPathEntry.Location]

theorem collectList_eq_map (alive : Nat → Bool) (d : CallerPathList) :
    collectList alive d = d.map (fun kv => (kv.1, collectEntry alive kv.2)) := by
  induction d with
  | nil => simp [collectList]
  | cons kv rest ih =>
    obtain ⟨k, e⟩ := kv
    simp [collectList, ih]

theorem map_userLeaves (host : Host) (f : AllocPathEntry → AllocPathEntry)
    (hf : ∀ e, (f e).IsTerminalStatsEntry = e.IsTerminalStatsEntry ∧
      (f e).Location = e.Location)
    (roots : CallerPathList) (h : UserLeaves host roots) :
    UserLeaves host (roots.map (fun kv => (kv.1, f kv.2))) := by
  intro kv hkv
  simp only [List.mem_map] at hkv
  obtain ⟨x, hx, rfl⟩ := hkv
  have := h x hx
  simp only [(hf x.2).1, (hf x.2).2]
  exact this

/-- The invariant of a session: the tracer is well formed and its roots are
terminal entries of functions that are not internal. -/
theorem stepSession_invariant (host : Host) (s s1 : Session) (ev : SessionEvent)
    (hwf : WellFormed s.tracer) (hul : UserLeaves host s.tracer.m_allocPathRoots)
    (h : stepSession host s ev = .ok s1) :
    WellFormed s1.tracer ∧ UserLeaves host s1.tracer.m_allocPathRoots := by
  cases ev with
  | call op =>
    simp only [stepSession] at h
    cases hop : applyOp host s.tracer op with
    | error e => simp [hop] at h
    | ok t =>
      simp only [hop, Except.ok.injEq] at h
      subst h
      refine ⟨applyOp_wellFormed host _ _ op hwf hop, ?_⟩
      cases op with
      | push body =>
        simp only [applyOp, PushCallStackEntry, Except.ok.injEq] at hop
        subst hop; exact hul
      | pop =>
        simp only [applyOp, PopCallStackEntry] at hop
        split at hop
        · cases hop
        · simp only [Except.ok.injEq] at hop
          subst hop; exact hul
      | update_offset index =>
        simp only [applyOp, UpdateBytecodeIndex] at hop
        split at hop
        · cases hop
        · simp only [Except.ok.injEq] at hop
          subst hop; exact hul
      | record obj =>
        simp only [applyOp, addAllocation_wellFormed host s.tracer obj hwf] at hop
        cases htop : topUserFrame host s.tracer.m_callStack with
        | none =>
          simp only [htop, Except.ok.injEq] at hop
          subst hop; exact hul
        | some fr =>
          simp only [htop, Except.ok.injEq] at hop
          subst hop
          exact attributeTo_userLeaves host _ _ _ _ _ _
            (topUserFrame_not_internal host _ fr htop) hul
  | collect alive =>
    simp only [stepSession, Except.ok.injEq] at h
    subst h
    refine ⟨⟨hwf.1, ?_⟩, ?_⟩
    · have := map_userLeaves host (collectEntry alive) (collect_keeps alive) _ hul
      rw [← collectList_eq_map] at this
      exact fun kv hkv => (this kv hkv).1
    · have := map_userLeaves host (collectEntry alive) (collect_keeps alive) _ hul
      rw [← collectList_eq_map] at this
      exact this
  | emit snapId =>
    simp only [stepSession] at h
    cases hem : EmitTrimedAllocTrace host s.tracer s.files snapId with
    | error e => simp [hem] at h
    | ok r =>
      simp only [hem, Except.ok.injEq] at h
      subst h
      obtain ⟨_, _, _, ht, _⟩ := emit_ok_fields host _ _ _ r hem
      have h1 := map_userLeaves host (EstimateMemoryUseInfo host) (estimate_keeps host) _ hul
      have h2 := map_userLeaves host
        (FlagInterestingSites r.countThreshold r.estimatedSizeThreshold)
        (fun e => ⟨(flag_keeps _ _ e).1, (flag_keeps _ _ e).2.1⟩) _ h1
      have h3 : UserLeaves host r.tracer.m_allocPathRoots := by
        rw [ht]; exact h2
      refine ⟨⟨?_, fun kv hkv => (h3 kv hkv).1⟩, h3⟩
      rw [ht]; exact hwf.1

theorem runSession_invariant (host : Host) (events : List SessionEvent) :
    ∀ s s1 : Session, WellFormed s.tracer → UserLeaves host s.tracer.m_allocPathRoots →
      runSession host s events = .ok s1 →
      WellFormed s1.tracer ∧ UserLeaves host s1.tracer.m_allocPathRoots := by
  induction events with
  | nil =>
    intro s s1 hwf hul h
    simp only [runSession, Except.ok.injEq] at h
    subst h; exact ⟨hwf, hul⟩
  | cons ev rest ih =>
    intro s s1 hwf hul h
    simp only [runSession] at h
    cases hst : stepSession host s ev with
    | error e => simp [hst] at h
    | ok s2 =>
      simp only [hst] at h
      obtain ⟨hwf2, hul2⟩ := stepSession_invariant host s s2 ev hwf hul hst
      exact ih s2 s1 hwf2 hul2 h

theorem sessionReachable_invariant (host : Host) (t : AllocTracer)
    (h : SessionReachable host t) : WellFormed t ∧ UserLeaves host t.m_allocPathRoots := by
  obtain ⟨events, s, hrun, hs⟩ := h
  subst hs
  exact runSession_invariant host events Session.start s wellFormed_new
    (by intro kv hkv; simp [Session.start, AllocTracer.new] at hkv) hrun

/-! ## What an emission writes for the roots -/

theorem countRecordStart_append (a b : List WriterCall) :
    countRecordStart (a ++ b) = countRecordStart a + countRecordStart b := by
  induction a with
  | nil => simp [countRecordStart]
  | cons x rest ih =>
    have hcons : ∀ l : List WriterCall,
        countRecordStart (x :: l) = countRecordStart [x] + countRecordStart l := by
      intro l
      cases x <;> simp [countRecordStart]
      omega
    rw [List.cons_append, hcons (rest ++ b), hcons rest, ih]
    omega

theorem countRecordStart_siteLoop (keys : List Nat) :
    ∀ first : Bool, countRecordStart (JSONWriteSiteDataTrimed.loop keys first) = 0 := by
  induction keys with
  | nil => intro first; simp [JSONWriteSiteDataTrimed.loop, countRecordStart]
  | cons k rest ih =>
    intro first
    cases first <;>
      simp [JSONWriteSiteDataTrimed.loop, countRecordStart_append, countRecordStart, ih]

theorem write_terminal_root (host : Host) (loc : SourceLocation) (c sz : Nat)
    (stats : AllocSiteStats) (files : List FileSourceEntry) (hc : c ≠ 0)
    (hu : IsInternalLocation host { Function := loc.m_function, BytecodeIndex := 0 } = false) :
    ∃ w files1,
      JSONWriteDataPathEntryTrimed host (.terminal loc c sz true stats) files = .ok (w, files1) ∧
        countRecordStart w = 1 := by
  obtain ⟨url, hurl⟩ := sourceContext_of_user host loc.m_function hu
  have hloc : ∃ w0 f0, JSONWriteLocationDataTrimed host loc files = .ok (w0, f0) ∧
      countRecordStart w0 = 0 := by
    refine ⟨[ .WriteRecordStartWithKey .src .BigSpaceSeparator,
              .writeRawCharsWithKey .function (host.GetDisplayName loc.m_function) .NoSeparator,
              .WriteInt64 .line (((loc.m_line + 1) % 4294967296 : Nat) : Int) .CommaSeparator,
              .WriteInt64 .column ((loc.m_column : Nat) : Int) .CommaSeparator,
              .WriteUInt32 .fileId
                (addSourceItem files (some url) (host.DecodedSource loc.m_function)).2
                .CommaSeparator,
              .WriteRecordEnd ],
            (addSourceItem files (some url) (host.DecodedSource loc.m_function)).1, ?_, ?_⟩
    · simp only [JSONWriteLocationDataTrimed, hurl]
    · simp [countRecordStart]
  obtain ⟨w0, f0, hw0, hcount0⟩ := hloc
  refine ⟨[.WriteRecordStart .NoSeparator] ++ w0 ++ writeAllocInfo c sz
      ++ stats.JSONWriteSiteDataTrimed
      ++ [.WriteSeperator .BigSpaceSeparator, .WriteRecordEnd], f0, ?_, ?_⟩
  · simp only [JSONWriteDataPathEntryTrimed, hw0, hc, Bool.not_true, Bool.false_eq_true,
      if_false]
  · simp [countRecordStart_append, countRecordStart, writeAllocInfo,
      AllocSiteStats.JSONWriteSiteDataTrimed, countRecordStart_siteLoop, hcount0]

theorem writeRoots_spec (host : Host) (roots : CallerPathList) (hul : UserLeaves host roots) :
    ∀ (first : Bool) (files : List FileSourceEntry),
      ∃ w files1,
        EmitTrimedAllocTrace.writeRoots host roots first files = .ok (w, files1) ∧
          countRecordStart w = (roots.filter (fun kv => rootIsEmitted host kv.2)).length ∧
          EmitTrimedAllocTrace.writeRoots host
            (roots.filter (fun kv => rootIsEmitted host kv.2)) first files = .ok (w, files1) ∧
          (roots.filter (fun kv => rootIsEmitted host kv.2) = [] → w = [] ∧ files1 = files) := by
  induction roots with
  | nil =>
    intro first files
    exact ⟨[], files, rfl, rfl, rfl, fun _ => ⟨rfl, rfl⟩⟩
  | cons kv rest ih =>
    intro first files
    obtain ⟨k, e⟩ := kv
    have hrest : UserLeaves host rest := fun x hx => hul x (List.mem_cons_of_mem _ hx)
    have he := hul (k, e) (List.mem_cons_self _ _)
    cases e with
    | node loc c sz b paths => simp [AllocPathEntry.IsTerminalStatsEntry] at he
    | terminal loc c sz b stats =>
      have hu : IsInternalLocation host { Function := loc.m_function, BytecodeIndex := 0 }
          = false := he.2
      by_cases hcond : (b && decide (c > 0)) = true
      · have hb : b = true := by
          cases b
          · simp at hcond
          · rfl
        have hc : c ≠ 0 := by
          intro h0; subst h0; simp at hcond
        subst hb
        obtain ⟨w1, f1, hw1, hcount1⟩ := write_terminal_root host loc c sz stats files hc hu
        obtain ⟨w2, f2, hw2, hcount2, hfil2, _⟩ := ih hrest false f1
        have hem : rootIsEmitted host (.terminal loc c sz true stats) = true := by
          simp [rootIsEmitted, AllocPathEntry.IsInterestingSite, AllocPathEntry.LiveCount,
            AllocPathEntry.Location, hu]
          omega
        have hfilter : (((k, AllocPathEntry.terminal loc c sz true stats) :: rest).filter
            (fun kv => rootIsEmitted host kv.2)) =
            (k, AllocPathEntry.terminal loc c sz true stats) ::
              rest.filter (fun kv => rootIsEmitted host kv.2) := by
          simp [List.filter, hem]
        have hcpos : decide (c > 0) = true := by simp; omega
        refine ⟨(if !first then [WriterCall.WriteSeperator .CommaSeparator] else [])
            ++ [.WriteSeperator .BigSpaceSeparator] ++ w1 ++ w2, f2, ?_, ?_, ?_, ?_⟩
        · simp only [EmitTrimedAllocTrace.writeRoots, AllocPathEntry.IsInterestingSite,
            AllocPathEntry.LiveCount, hcpos, Bool.and_self, if_true, hw1, hw2]
        · rw [hfilter]
          cases first <;>
            simp [countRecordStart_append, countRecordStart, hcount1, hcount2] <;> omega
        · rw [hfilter]
          simp only [EmitTrimedAllocTrace.writeRoots, AllocPathEntry.IsInterestingSite,
            AllocPathEntry.LiveCount, hcpos, Bool.and_self, if_true, hw1, hfil2]
        · rw [hfilter]; intro h; cases h
      · have hem : rootIsEmitted host (.terminal loc c sz b stats) = false := by
          simp only [rootIsEmitted, AllocPathEntry.IsInterestingSite, AllocPathEntry.LiveCount]
          simp only [Bool.not_eq_true] at hcond
          rw [hcond]; rfl
        have hfilter : (((k, AllocPathEntry.terminal loc c sz b stats) :: rest).filter
            (fun kv => rootIsEmitted host kv.2)) =
            rest.filter (fun kv => rootIsEmitted host kv.2) := by
          simp [List.filter, hem]
        obtain ⟨w2, f2, hw2, hcount2, hfil2, hnil2⟩ := ih hrest first files
        refine ⟨w2, f2, ?_, ?_, ?_, ?_⟩
        · simp only [EmitTrimedAllocTrace.writeRoots, AllocPathEntry.IsInterestingSite,
            AllocPathEntry.LiveCount, hcond, Bool.false_eq_true, if_false, hw2]
        · rw [hfilter]; exact hcount2
        · rw [hfilter]; exact hfil2
        · rw [hfilter]; exact hnil2

theorem emit_succeeds (host : Host) (t : AllocTracer) (files : List FileSourceEntry)
    (snapId : Int) (hul : UserLeaves host t.m_allocPathRoots)
    (hopen : host.OpenResourceStream snapId = true) :
    ∃ r, EmitTrimedAllocTrace host t files snapId = .ok r := by
  have h1 : UserLeaves host (estimatedRoots host t.m_allocPathRoots) :=
    map_userLeaves host (EstimateMemoryUseInfo host) (estimate_keeps host) _ hul
  have h2 : ∀ ct st, UserLeaves host
      (EmitTrimedAllocTrace.flagRoots ct st (estimatedRoots host t.m_allocPathRoots)) :=
    fun ct st => map_userLeaves host (FlagInterestingSites ct st)
      (fun e => ⟨(flag_keeps _ _ e).1, (flag_keeps _ _ e).2.1⟩) _ h1
  obtain ⟨w, f1, hw, _⟩ := writeRoots_spec host _
    (h2 (interestingThreshold
        (liveCountSum (estimatedRoots host t.m_allocPathRoots) % 18446744073709551616))
      (interestingThreshold
        (liveSizeSum (estimatedRoots host t.m_allocPathRoots) % 18446744073709551616)))
    true files
  unfold EmitTrimedAllocTrace
  simp only [hopen, Bool.not_true, Bool.false_eq_true, if_false, estimateRoots_zero, hw]
  exact ⟨_, rfl⟩

/-! ## Scenario S2 -/

theorem objectSizeSum_of_primitive (host : Host) (keys : List Nat)
    (h : ∀ k ∈ keys, host.StaticTypeIs (host.GetTypeId k) = true ∧
      host.GetTypeId k ≠ host.TypeIds_String) :
    objectSizeSum host keys = 8 * keys.length := by
  induction keys with
  | nil => simp [objectSizeSum]
  | cons k rest ih =>
    have hk := h k (List.mem_cons_self _ _)
    have hrest := ih (fun x hx => h x (List.mem_cons_of_mem _ hx))
    have hsize : objectSize host k = 8 := by simp [objectSize, hk.1, hk.2]
    simp only [objectSizeSum, List.map_cons, List.sum_cons, List.length_cons, hsize]
    have : (List.map (objectSize host) rest).sum = objectSizeSum host rest := rfl
    rw [this, hrest]
    omega

/-- C17 (counterexample): in the example runtime every object is of a static
type that is not the string type.  Site A has 50 live objects and site B has 1;
the totals are 51 and 408.  With the count fraction 0.05 the count threshold is
2 and with the size fraction 0.01 the size threshold is 4; the flag pass with
these thresholds flags B as interesting, its live count 1 being below 2,
because its live size 8 reaches 4. -/
theorem scenario_S2_site_B_is_flagged :
    estimatedRoots exampleHost [(4096, scenarioLeafA), (8192, scenarioLeafB)] =
        [(4096, .terminal { m_function := 4096, m_line := 0, m_column := 0 } 50 400 false
            { m_threadContext := 1, m_allocationCount := 50,
              m_allocationLiveSet := (List.range 50).map (fun i => 2 * i + 2) }),
         (8192, .terminal { m_function := 8192, m_line := 0, m_column := 0 } 1 8 false
            { m_threadContext := 1, m_allocationCount := 1, m_allocationLiveSet := [200] })]
      ∧ doubleProductToSize 7205759403792794 57 51 = 2
      ∧ interestingThreshold 408 = 4
      ∧ (FlagInterestingSites 2 4
          (EstimateMemoryUseInfo exampleHost scenarioLeafB)).IsInterestingSite = true := by
  refine ⟨rfl, by decide, by decide, ?_⟩
  decide

/-- C17 (amended): scenario S2, for two new leaf sites A with 50 live objects
and B with 1 live object, every object of a static type that is not the string
type, both sites in functions that are not internal.  The estimate pass leaves
A with live count 50 and live size 400 and B with 1 and 8; the totals are 51
and 408.  With both fractions 0.01 the thresholds are 0 and 4 and both sites
are flagged.  With the count fraction 0.05 (the `double` 7205759403792794 /
2^57) the count threshold is 2 and the size threshold still 4: A is flagged,
and B is flagged too, through its live size 8, and the loop over the roots
writes two allocation records. -/
theorem scenario_S2 (host : Host) (keyA keyB : Int) (locA locB : SourceLocation)
    (statsA statsB : AllocSiteStats) (files : List FileSourceEntry)
    (hA : statsA.m_allocationLiveSet.length = 50)
    (hB : statsB.m_allocationLiveSet.length = 1)
    (hprimA : ∀ k ∈ statsA.m_allocationLiveSet,
      host.StaticTypeIs (host.GetTypeId k) = true ∧ host.GetTypeId k ≠ host.TypeIds_String)
    (hprimB : ∀ k ∈ statsB.m_allocationLiveSet,
      host.StaticTypeIs (host.GetTypeId k) = true ∧ host.GetTypeId k ≠ host.TypeIds_String)
    (huA : IsInternalLocation host { Function := locA.m_function, BytecodeIndex := 0 } = false)
    (huB : IsInternalLocation host { Function := locB.m_function, BytecodeIndex := 0 } = false) :
    estimatedRoots host
        [(keyA, .terminal locA 0 0 false statsA), (keyB, .terminal locB 0 0 false statsB)] =
        [(keyA, .terminal locA 50 400 false statsA), (keyB, .terminal locB 1 8 false statsB)]
      ∧ liveCountSum
        [(keyA, .terminal locA 50 400 false statsA), (keyB, .terminal locB 1 8 false statsB)]
        = 51
      ∧ liveSizeSum
        [(keyA, .terminal locA 50 400 false statsA), (keyB, .terminal locB 1 8 false statsB)]
        = 408
      ∧ interestingThreshold 51 = 0
      ∧ interestingThreshold 408 = 4
      ∧ EmitTrimedAllocTrace.flagRoots 0 4
        [(keyA, .terminal locA 50 400 false statsA), (keyB, .terminal locB 1 8 false statsB)] =
        [(keyA, .terminal locA 50 400 true statsA), (keyB, .terminal locB 1 8 true statsB)]
      ∧ doubleProductToSize 7205759403792794 57 51 = 2
      ∧ EmitTrimedAllocTrace.flagRoots 2 4
        [(keyA, .terminal locA 50 400 false statsA), (keyB, .terminal locB 1 8 false statsB)] =
        [(keyA, .terminal locA 50 400 true statsA), (keyB, .terminal locB 1 8 true statsB)]
      ∧ ∃ w files1,
        EmitTrimedAllocTrace.writeRoots host
            [(keyA, .terminal locA 50 400 true statsA), (keyB, .terminal locB 1 8 true statsB)]
            true files = .ok (w, files1)
          ∧ countRecordStart w = 2 := by
  have hsA := objectSizeSum_of_primitive host _ hprimA
  have hsB := objectSizeSum_of_primitive host _ hprimB
  refine ⟨?_, by simp [liveCountSum, AllocPathEntry.LiveCount],
    by simp [liveSizeSum, AllocPathEntry.LiveSizeEstimate], by decide, by decide,
    by simp [EmitTrimedAllocTrace.flagRoots, FlagInterestingSites], by decide,
    by simp [EmitTrimedAllocTrace.flagRoots, FlagInterestingSites], ?_⟩
  · simp only [estimatedRoots, List.map_cons, List.map_nil, estimate_terminal, hA, hB, hsA,
      hsB]
  · have hul : UserLeaves host
        [(keyA, .terminal locA 50 400 true statsA), (keyB, .terminal locB 1 8 true statsB)] := by
      intro kv hkv
      simp only [List.mem_cons, List.mem_singleton, List.not_mem_nil, or_false] at hkv
      rcases hkv with hkv | hkv
      · subst hkv; exact ⟨rfl, huA⟩
      · subst hkv; exact ⟨rfl, huB⟩
    obtain ⟨w, files1, hw, hcount, _⟩ := writeRoots_spec host _ hul true files
    refine ⟨w, files1, hw, ?_⟩
    rw [hcount]
    simp [List.filter, rootIsEmitted, AllocPathEntry.IsInterestingSite,
      AllocPathEntry.LiveCount, AllocPathEntry.Location, huA, huB]

/-- Witness of C17 (amended): the two sites of the example runtime. -/
theorem scenario_S2_witness :
    IsInternalLocation exampleHost { Function := 4096, BytecodeIndex := 0 } = false
      ∧ IsInternalLocation exampleHost { Function := 8192, BytecodeIndex := 0 } = false
      ∧ EmitTrimedAllocTrace.flagRoots 2 4
        [(4096, .terminal { m_function := 4096, m_line := 0, m_column := 0 } 50 400 false
            { m_threadContext := 1, m_allocationCount := 50,
              m_allocationLiveSet := (List.range 50).map (fun i => 2 * i + 2) }),
         (8192, .terminal { m_function := 8192, m_line := 0, m_column := 0 } 1 8 false
            { m_threadContext := 1, m_allocationCount := 1, m_allocationLiveSet := [200] })] =
        [(4096, .terminal { m_function := 4096, m_line := 0, m_column := 0 } 50 400 true
            { m_threadContext := 1, m_allocationCount := 50,
              m_allocationLiveSet := (List.range 50).map (fun i => 2 * i + 2) }),
         (8192, .terminal { m_function := 8192, m_line := 0, m_column := 0 } 1 8 true
            { m_threadContext := 1, m_allocationCount := 1, m_allocationLiveSet := [200] })] :=
  ⟨by decide, by decide,
   (scenario_S2 exampleHost 4096 8192 { m_function := 4096, m_line := 0, m_column := 0 }
      { m_function := 8192, m_line := 0, m_column := 0 }
      { m_threadContext := 1, m_allocationCount := 50,
        m_allocationLiveSet := (List.range 50).map (fun i => 2 * i + 2) }
      { m_threadContext := 1, m_allocationCount := 1, m_allocationLiveSet := [200] } []
      (by decide) (by decide) (by decide) (by decide) (by decide) (by decide)).2.2.2.2.2.2.2.1⟩

/-! ## Repeated emission -/

/-- C19 (the code at the failing input): after `push 4096; record 2`, two
emissions in a row, with no call and no collection between them, write
different traces: the record of the one site carries count 1 and estimated
size 8 in the first and count 2 and estimated size 16 in the second. -/
theorem second_emission_differs :
    (runSession exampleHost Session.start
        [.call (.push 4096), .call (.record 2), .emit 0, .emit 0]).map
        (fun s => s.outputs.map writtenCounts) = .ok [[1], [2]]
      ∧ (runSession exampleHost Session.start
        [.call (.push 4096), .call (.record 2), .emit 0, .emit 0]).map
        (fun s => s.outputs.map writtenSizes) = .ok [[8], [16]]
      ∧ (runSession exampleHost Session.start
        [.call (.push 4096), .call (.record 2), .emit 0, .emit 0]).map
        (fun s => decide (s.outputs.get? 0 = s.outputs.get? 1)) = .ok false :=
  ⟨rfl, rfl, rfl⟩

/-! ## The file table -/

theorem addSourceItem_search_range (name : List char16) (files : List FileSourceEntry) :
    ∀ (i id : Nat), addSourceItem.search name files i = some id →
      i + 1 ≤ id ∧ id ≤ i + files.length := by
  induction files with
  | nil => intro i id h; simp [addSourceItem.search] at h
  | cons entry rest ih =>
    intro i id h
    simp only [addSourceItem.search] at h
    split at h
    · simp only [Option.some.injEq] at h
      subst h
      simp only [List.length_cons]
      omega
    · have := ih (i + 1) id h
      simp only [List.length_cons]
      omega

/-- The method `addSourceItem` on a name that the `memcmp` test accepts for no
entry of the table: one entry is appended and the new entry count is returned. -/
theorem addSourceItem_absent (files : List FileSourceEntry) (name source : List char16)
    (h : ∀ entry ∈ files, sameFilenameBytes entry.filename name = false) :
    addSourceItem files (some name) source =
      (files ++ [{ filename := name.take (wcslen name), source := source }],
        files.length + 1) := by
  have hsearch : ∀ (l : List FileSourceEntry) (i : Nat),
      (∀ entry ∈ l, sameFilenameBytes entry.filename name = false) →
      addSourceItem.search name l i = none := by
    intro l
    induction l with
    | nil => intro i _; rfl
    | cons entry rest ih =>
      intro i hl
      simp only [addSourceItem.search, hl entry (List.mem_cons_self _ _),
        Bool.false_eq_true, if_false]
      exact ih (i + 1) (fun e he => hl e (List.mem_cons_of_mem _ he))
  simp [addSourceItem, hsearch files 0 h]

/-- The id `addSourceItem` returns for a name that is not null lies between 1
and the number of entries of the table it leaves, and the table it leaves is
the one it found, or that one with one entry appended for the name. -/
theorem addSourceItem_id_range (files : List FileSourceEntry) (name source : List char16) :
    1 ≤ (addSourceItem files (some name) source).2
      ∧ (addSourceItem files (some name) source).2 ≤
        (addSourceItem files (some name) source).1.length
      ∧ ((addSourceItem files (some name) source).1 = files
        ∨ (addSourceItem files (some name) source) =
          (files ++ [{ filename := name.take (wcslen name), source := source }],
            files.length + 1)) := by
  cases hs : addSourceItem.search name files 0 with
  | none => simp [addSourceItem, hs]
  | some id =>
    have := addSourceItem_search_range name files 0 id hs
    have hr : addSourceItem files (some name) source = (files, id) := by
      simp only [addSourceItem, hs]
    rw [hr]
    refine ⟨by show 1 ≤ id; omega, by show id ≤ files.length; omega, Or.inl rfl⟩

/-- C20 (the code at the failing input): on an empty table the name `/a.jsx`
is interned with id 1.  The name `/a.js`, which is not in the table, is then
given id 1 as well and no entry is appended: the `memcmp` test compares only
the first 5 code units of the stored name `/a.jsx` with `/a.js`. -/
theorem intern_prefix_of_stored_name :
    addSourceItem (clearSourceItems []) (some [47, 97, 46, 106, 115, 120]) [120] =
        ([{ filename := [47, 97, 46, 106, 115, 120], source := [120] }], 1)
      ∧ addSourceItem [{ filename := [47, 97, 46, 106, 115, 120], source := [120] }]
          (some [47, 97, 46, 106, 115]) [121] =
        ([{ filename := [47, 97, 46, 106, 115, 120], source := [120] }], 1)
      ∧ sameFilenameBytes [47, 97, 46, 106, 115, 120] [47, 97, 46, 106, 115] = true
      ∧ ([47, 97, 46, 106, 115] : List char16) ≠ [47, 97, 46, 106, 115, 120] := by
  decide

/-! ## Interning: the null file -/

/-- C22: `addSourceItem` signals an unavailable file by the id 0, which no
entry has, exactly when the file name is null, and then leaves the table as it
found it; for every file name that is not null it returns an id between 1 and
the number of entries of the table it leaves. -/
theorem addSourceItem_null_iff (files : List FileSourceEntry)
    (filename : Option (List char16)) (source : List char16) :
    ((addSourceItem files filename source).2 = 0 ↔ filename = none)
      ∧ addSourceItem files none source = (files, 0)
      ∧ (∀ name : List char16,
          1 ≤ (addSourceItem files (some name) source).2 ∧
            (addSourceItem files (some name) source).2 ≤
              (addSourceItem files (some name) source).1.length) := by
  refine ⟨?_, rfl, fun name => ⟨(addSourceItem_id_range files name source).1,
    (addSourceItem_id_range files name source).2.1⟩⟩
  cases filename with
  | none => simp [addSourceItem]
  | some name =>
    have := (addSourceItem_id_range files name source).1
    simp only [reduceCtorEq, iff_false]
    omega

/-! ## The flat tree -/

theorem storeItem_length (d : CallerPathList) (key : Int) (e : AllocPathEntry) :
    (StoreItem d key e).length = d.length := by
  induction d with
  | nil => rfl
  | cons kv rest ih =>
    by_cases hk : kv.1 = key
    · simp [StoreItem, hk]
    · simp [StoreItem, hk, ih]

theorem attributeTo_length (host : Host) (roots : CallerPathList)
    (function line column threadContext obj : Nat) :
    roots.length ≤ (attributeTo host roots function line column threadContext obj).length ∧
      (attributeTo host roots function line column threadContext obj).length ≤
        roots.length + 1 := by
  unfold attributeTo
  cases Item roots (FrameKey host function line column) with
  | none => simp
  | some tentry => simp [storeItem_length]

/-- C26: in every tracer reached from a new tracer by push, pop, update_offset
and record calls, every root of the path tree is a terminal entry, so the tree
is a flat set of leaves.  A record call on such a tracer never fails (the
assertion on `IsTerminalStatsEntry` holds), leaves every root terminal again
and adds at most one root. -/
theorem tree_is_flat (host : Host) (t : AllocTracer) (obj : Nat)
    (hreach : Reachable host t) :
    (∀ kv ∈ t.m_allocPathRoots, kv.2.IsTerminalStatsEntry = true)
      ∧ ∃ t1, AddAllocation host t obj = .ok t1
        ∧ (∀ kv ∈ t1.m_allocPathRoots, kv.2.IsTerminalStatsEntry = true)
        ∧ t.m_allocPathRoots.length ≤ t1.m_allocPathRoots.length
        ∧ t1.m_allocPathRoots.length ≤ t.m_allocPathRoots.length + 1 := by
  have hwf := reachable_wellFormed host t hreach
  refine ⟨hwf.2, ?_⟩
  obtain ⟨t1, h1⟩ := addAllocation_succeeds host t obj hwf
  have hwf1 : WellFormed t1 := applyOp_wellFormed host t t1 (.record obj) hwf h1
  refine ⟨t1, h1, hwf1.2, ?_⟩
  rw [addAllocation_wellFormed host t obj hwf] at h1
  cases htop : topUserFrame host t.m_callStack with
  | none =>
    simp only [htop, Except.ok.injEq] at h1
    subst h1
    exact ⟨Nat.le_refl _, Nat.le_succ _⟩
  | some fr =>
    simp only [htop, Except.ok.injEq] at h1
    subst h1
    exact attributeTo_length host _ _ _ _ _ _

/-- Witness of C26: the tracer after `push 1; push 4096; push 3` is reachable,
and recording object 8 on it succeeds. -/
theorem tree_is_flat_witness :
    runOps exampleHost AllocTracer.new [.push 1, .push 4096, .push 3] = .ok stackWithUserFrame
      ∧ ∃ t1, AddAllocation exampleHost stackWithUserFrame 8 = .ok t1
        ∧ (∀ kv ∈ t1.m_allocPathRoots, kv.2.IsTerminalStatsEntry = true)
        ∧ stackWithUserFrame.m_allocPathRoots.length ≤ t1.m_allocPathRoots.length
        ∧ t1.m_allocPathRoots.length ≤ stackWithUserFrame.m_allocPathRoots.length + 1 :=
  ⟨rfl, (tree_is_flat exampleHost stackWithUserFrame 8
      ⟨[.push 1, .push 4096, .push 3], rfl⟩).2⟩

/-! ## Internal locations -/

theorem wcslen_nil : wcslen [] = 0 := rfl

theorem wcslen_cons (a : char16) (rest : List char16) :
    wcslen (a :: rest) = if a = 0 then 0 else wcslen rest + 1 := by
  by_cases h : a = 0
  · simp [wcslen, List.takeWhile_cons, h]
  · simp [wcslen, List.takeWhile_cons, h]

theorem wcslen_eq_length (s : List char16) (h : ∀ c ∈ s, c ≠ 0) : wcslen s = s.length := by
  induction s with
  | nil => rfl
  | cons a rest ih =>
    have ha : a ≠ 0 := h a (List.mem_cons_self _ _)
    rw [wcslen_cons, if_neg ha, ih (fun c hc => h c (List.mem_cons_of_mem _ hc))]
    rfl

/-- C27: where `_WIN32` is not defined, `IsInternalLocation` answers true for a
null source context info and for a null url, and for a url that is not null it
answers false exactly when the url has at least two code units (`wcslen`) and
its first unit is `/` (47) or its second unit is `:` (58).  So a url of length
0 or 1 is internal, and so is a url whose first unit is not `/` and whose
second unit is not `:`.  The length is the number of units of the url when
none of them is null. -/
theorem isInternalLocation_nonWindows (host : Host) (callEntry : AllocCallStackEntry)
    (url : List char16) (hnw : host.win32 = false) :
    (host.GetSourceContextInfo callEntry.Function = none →
        IsInternalLocation host callEntry = true)
      ∧ (host.GetSourceContextInfo callEntry.Function = some none →
        IsInternalLocation host callEntry = true)
      ∧ (host.GetSourceContextInfo callEntry.Function = some (some url) →
        (IsInternalLocation host callEntry = false ↔
            2 ≤ wcslen url ∧ (url.get? 0 = some 47 ∨ url.get? 1 = some 58))
          ∧ (wcslen url ≤ 1 → IsInternalLocation host callEntry = true)
          ∧ (url.get? 0 ≠ some 47 → url.get? 1 ≠ some 58 →
            IsInternalLocation host callEntry = true))
      ∧ ((∀ c ∈ url, c ≠ 0) → wcslen url = url.length) := by
  refine ⟨?_, ?_, ?_, wcslen_eq_length url⟩
  · intro h; simp [IsInternalLocation, h]
  · intro h; simp [IsInternalLocation, h]
  · intro h
    have hval : IsInternalLocation host callEntry =
        (decide (wcslen url ≤ 1) || (url.getD 0 0 != 47 && url.getD 1 0 != 58)) := by
      simp [IsInternalLocation, h, hnw]
    rw [hval]
    cases url with
    | nil => simp [wcslen_nil]
    | cons a rest =>
      cases rest with
      | nil =>
        have hlen : wcslen [a] ≤ 1 := by
          rw [wcslen_cons, wcslen_nil]; split <;> omega
        have hlen2 : ¬ 2 ≤ wcslen [a] := by omega
        simp [hlen, hlen2]
      | cons b rest2 =>
        simp only [List.getD_cons_zero, List.getD_cons_succ,
          List.get?_cons_zero, List.get?_cons_succ, Option.some.injEq]
        by_cases ha0 : a = 0
        · have hlen : wcslen (a :: b :: rest2) = 0 := by rw [wcslen_cons, if_pos ha0]
          simp [hlen]
        · by_cases hb0 : b = 0
          · have hlen : wcslen (a :: b :: rest2) = 1 := by
              rw [wcslen_cons, if_neg ha0, wcslen_cons, if_pos hb0]
            simp [hlen]
          · have hlen : wcslen (a :: b :: rest2) = wcslen rest2 + 1 + 1 := by
              rw [wcslen_cons, if_neg ha0, wcslen_cons, if_neg hb0]
            have h1 : ¬ wcslen rest2 + 1 + 1 ≤ 1 := by omega
            have h2 : 2 ≤ wcslen rest2 + 1 + 1 := by omega
            rw [hlen]
            by_cases ha : a = 47 <;> by_cases hb : b = 58 <;> simp [ha, hb, h1, h2]

/-- Witness of C27: the example runtime is not a Windows one, and its function
4096 has the url `/a.js`, which is not internal. -/
theorem isInternalLocation_nonWindows_witness :
    exampleHost.win32 = false
      ∧ exampleHost.GetSourceContextInfo 4096 = some (some [47, 97, 46, 106, 115])
      ∧ (IsInternalLocation exampleHost { Function := 4096, BytecodeIndex := 0 } = false ↔
        2 ≤ wcslen [47, 97, 46, 106, 115] ∧
          (([47, 97, 46, 106, 115] : List char16).get? 0 = some 47 ∨
            ([47, 97, 46, 106, 115] : List char16).get? 1 = some 58)) :=
  ⟨rfl, by decide,
   ((isInternalLocation_nonWindows exampleHost { Function := 4096, BytecodeIndex := 0 }
      [47, 97, 46, 106, 115] rfl).2.2.1 (by decide)).1⟩

/-! ## The frame key -/

theorem toInt64_injective (a b : Nat) (ha : a < 18446744073709551616)
    (hb : b < 18446744073709551616) (h : toInt64 a = toInt64 b) : a = b := by
  unfold toInt64 at h
  rw [Nat.mod_eq_of_lt ha, Nat.mod_eq_of_lt hb] at h
  split at h <;> split at h <;> omega

/-- The key of `ExtendPathTreeForAllocation` tells apart two columns below
2^26 on one line of one function, when the size of a function body is positive
and the pointer arithmetic stays below 2^64. -/
theorem frameKey_separates_small_columns (host : Host) (cbody line c1 c2 : Nat)
    (hS : 0 < host.sizeofFunctionBody)
    (hrange : cbody + host.sizeofFunctionBody * 4294967296
      + host.sizeofFunctionBody * line < 18446744073709551616)
    (h1 : c1 < 67108864) (h2 : c2 < 67108864)
    (hkey : FrameKey host cbody line c1 = FrameKey host cbody line c2) : c1 = c2 := by
  have hp1 : c1 * 1000000 % 4294967296 < 4294967296 := Nat.mod_lt _ (by norm_num)
  have hp2 : c2 * 1000000 % 4294967296 < 4294967296 := Nat.mod_lt _ (by norm_num)
  have hm1 : host.sizeofFunctionBody * (c1 * 1000000 % 4294967296) ≤
      host.sizeofFunctionBody * 4294967296 := Nat.mul_le_mul_left _ (Nat.le_of_lt hp1)
  have hm2 : host.sizeofFunctionBody * (c2 * 1000000 % 4294967296) ≤
      host.sizeofFunctionBody * 4294967296 := Nat.mul_le_mul_left _ (Nat.le_of_lt hp2)
  have heq := toInt64_injective _ _ (by omega) (by omega) hkey
  have hmul : host.sizeofFunctionBody * (c1 * 1000000 % 4294967296) =
      host.sizeofFunctionBody * (c2 * 1000000 % 4294967296) := by omega
  have hprod : c1 * 1000000 % 4294967296 = c2 * 1000000 % 4294967296 :=
    Nat.eq_of_mul_eq_mul_left hS hmul
  omega

/-- C25 (the code at the failing input): on every line of every function the
columns `column` and `column + 67108864` have the same key, because
`67108864 * 1000000` is a multiple of 2^32 and the product is a `uint32`; in
particular the columns 0 and 67108864, both below 2^32, of line 0 of the
function at 4096 both have the key 4096. -/
theorem frameKey_same_for_columns_2_pow_26_apart (host : Host) (cbody line column : Nat) :
    FrameKey host cbody line (column + 67108864) = FrameKey host cbody line column
      ∧ FrameKey exampleHost 4096 0 0 = 4096
      ∧ FrameKey exampleHost 4096 0 67108864 = 4096
      ∧ (0 : Nat) ≠ 67108864
      ∧ (67108864 : Nat) < 4294967296 := by
  refine ⟨?_, by decide, by decide, by decide, by decide⟩
  have h : (column + 67108864) * 1000000 % 4294967296 = column * 1000000 % 4294967296 := by
    omega
  simp only [FrameKey, h]

/-- C28 (the code at the failing input): in every function the site at line
1000000, column 0 and the site at line 0, column 1 have the same key, and the
site at line 1, column 0 of a function has the key of the site at line 0,
column 0 of the function one function body further.  In the example runtime
offset 40000000 of function 4096 resolves to line 1000000, column 0 and offset
10 to line 0, column 1, and `push 4096; update_offset 40000000; record 2;
update_offset 10; record 4` leaves both allocations in one leaf. -/
theorem different_sites_share_a_leaf (host : Host) (cbody : Nat) :
    FrameKey host cbody 1000000 0 = FrameKey host cbody 0 1
      ∧ FrameKey host cbody 1 0 = FrameKey host (cbody + host.sizeofFunctionBody) 0 0
      ∧ ExtractLineColumn exampleHost { Function := 4096, BytecodeIndex := 40000000 } =
        (1000000, 0)
      ∧ ExtractLineColumn exampleHost { Function := 4096, BytecodeIndex := 10 } = (0, 1)
      ∧ runOps exampleHost AllocTracer.new
          [.push 4096, .update_offset 40000000, .record 2, .update_offset 10, .record 4] =
        .ok { m_callStack := [{ Function := 4096, BytecodeIndex := 10 }]
              m_prunedCallStack := []
              m_allocPathRoots :=
                [(512004096,
                  .terminal { m_function := 4096, m_line := 1000000, m_column := 0 } 0 0 false
                    { m_threadContext := 1, m_allocationCount := 2,
                      m_allocationLiveSet := [2, 4] })] } := by
  refine ⟨?_, ?_, by decide, by decide, rfl⟩
  · simp [FrameKey]
  · simp only [FrameKey]
    congr 1
    simp

/-! ## The file table within one emission -/

/-- C21 (the code at the failing input): function 4096 is code of `/a.jsx` and
function 8192 of `/a.js`; each has one live object in the tracer reached by
`push 4096; record 2; pop; push 8192; record 4`.  The emission writes the file
id 1 in both allocation records, and a table of one entry, with id 1 and the
name `/a.jsx`: the two paths differ and share the id. -/
theorem two_paths_share_an_id :
    twoFileHost.GetSourceContextInfo 4096 = some (some [47, 97, 46, 106, 115, 120])
      ∧ twoFileHost.GetSourceContextInfo 8192 = some (some [47, 97, 46, 106, 115])
      ∧ runOps twoFileHost AllocTracer.new
          [.push 4096, .record 2, .pop, .push 8192, .record 4] = .ok twoFileTracer
      ∧ (EmitTrimedAllocTrace twoFileHost twoFileTracer [] 0).map
          (fun r => writtenFileIds r.written) = .ok [1, 1, 1]
      ∧ (EmitTrimedAllocTrace.writeRoots twoFileHost
          [(4096, .terminal { m_function := 4096, m_line := 0, m_column := 0 } 1 8 true
              { m_threadContext := 1, m_allocationCount := 1, m_allocationLiveSet := [2] }),
           (8192, .terminal { m_function := 8192, m_line := 0, m_column := 0 } 1 8 true
              { m_threadContext := 1, m_allocationCount := 1, m_allocationLiveSet := [4] })]
          true []).map (fun r => (writtenFileIds r.1, r.2)) =
        .ok ([1, 1], [{ filename := [47, 97, 46, 106, 115, 120], source := [] }]) :=
  ⟨by decide, by decide, rfl, rfl, rfl⟩

/-! ## Memory warnings of the older tracer -/

theorem computeMemoryInfo_loop_spec (host : MemoryInfoHost) (keys : List Nat) :
    ∀ st : MemoryInfoState,
      (ComputeMemoryInfo.loop host keys st).regSize = st.regSize + regularSizeSum host keys
        ∧ (ComputeMemoryInfo.loop host keys st).flaggedSize =
          st.flaggedSize + flaggedSizeSum host keys
        ∧ (ComputeMemoryInfo.loop host keys st).liveSize =
          st.liveSize + regularSizeSum host keys + flaggedSizeSum host keys
        ∧ (ComputeMemoryInfo.loop host keys st).liveCount = st.liveCount + keys.length
        ∧ (ComputeMemoryInfo.loop host keys st).tflag = raisedFlags host st.tflag keys := by
  induction keys with
  | nil =>
    intro st
    simp [ComputeMemoryInfo.loop, regularSizeSum, flaggedSizeSum, raisedFlags]
  | cons key rest ih =>
    intro st
    by_cases hflag : (ComputeMemoryInfo.object host key).2 = 0
    · obtain ⟨h1, h2, h3, h4, h5⟩ := ih
        { st with regSize := st.regSize + (ComputeMemoryInfo.object host key).1,
                  liveCount := st.liveCount + 1,
                  liveSize := st.liveSize + (ComputeMemoryInfo.object host key).1 }
      simp only [ComputeMemoryInfo.loop, hflag, if_true, regularSizeSum, flaggedSizeSum,
        raisedFlags, List.foldl_cons, List.length_cons, Nat.or_zero]
      refine ⟨?_, ?_, ?_, ?_, ?_⟩
      · rw [h1]; simp only; omega
      · rw [h2]; simp only; omega
      · rw [h3]; simp only; omega
      · rw [h4]; simp only; omega
      · rw [h5]; rfl
    · obtain ⟨h1, h2, h3, h4, h5⟩ := ih
        { st with tflag := st.tflag ||| (ComputeMemoryInfo.object host key).2,
                  flaggedSize := st.flaggedSize + (ComputeMemoryInfo.object host key).1,
                  liveCount := st.liveCount + 1,
                  liveSize := st.liveSize + (ComputeMemoryInfo.object host key).1 }
      simp only [ComputeMemoryInfo.loop, hflag, if_false, regularSizeSum, flaggedSizeSum,
        raisedFlags, List.foldl_cons, List.length_cons]
      refine ⟨?_, ?_, ?_, ?_, ?_⟩
      · rw [h1]; simp only; omega
      · rw [h2]; simp only; omega
      · rw [h3]; simp only; omega
      · rw [h4]; simp only; omega
      · rw [h5]; rfl

/-- The method `ComputeMemoryInfo` in closed form: the count grows by the number
of live objects, the size by the regular and the flagged sizes, and the flags
raised are joined onto `dflag` exactly when the flagged size is at least the
integer half of the regular size. -/
theorem computeMemoryInfo_eq (host : MemoryInfoHost) (stats : AllocSiteStats)
    (liveCount liveSize dflag : Nat) :
    AllocSiteStats.ComputeMemoryInfo host stats liveCount liveSize dflag =
      (liveCount + stats.m_allocationLiveSet.length,
        liveSize + regularSizeSum host stats.m_allocationLiveSet
          + flaggedSizeSum host stats.m_allocationLiveSet,
        if flaggedSizeSum host stats.m_allocationLiveSet ≥
            regularSizeSum host stats.m_allocationLiveSet / 2 then
          dflag ||| raisedFlags host 0 stats.m_allocationLiveSet
        else dflag) := by
  obtain ⟨h1, h2, h3, h4, h5⟩ := computeMemoryInfo_loop_spec host stats.m_allocationLiveSet
    { tflag := 0, regSize := 0, flaggedSize := 0, liveCount := liveCount, liveSize := liveSize }
  simp only [AllocSiteStats.ComputeMemoryInfo, h1, h2, h3, h4, h5, Nat.zero_add]

/-- C24 (counterexample): a site with the live objects 2, of 20 bytes and
without a flag, and 4, of 10 bytes and with the flag of bit 0.  The method
adds the flag to an empty `dflag` although the flagged size 10, doubled, is
below the measured size 30 of the site. -/
theorem computeMemoryInfo_flags_one_third :
    AllocSiteStats.ComputeMemoryInfo warningHost
        { m_threadContext := 1, m_allocationCount := 2, m_allocationLiveSet := [2, 4] } 0 0 0 =
        (2, 30, 1)
      ∧ flaggedSizeSum warningHost [2, 4] = 10
      ∧ regularSizeSum warningHost [2, 4] = 20
      ∧ ¬ (flaggedSizeSum warningHost [2, 4] * 2 ≥ 30) := by
  decide

/-- C24 (amended): whenever `ComputeMemoryInfo` changes `dflag`, the flagged
size of the site is at least the integer half of its regular (unflagged) size;
the size measured for the site, by which `liveSize` grows, is the sum of the
two, so the flagged size, tripled, plus one reaches the measured size.  The
flags joined onto `dflag` are those the objects of the site raise. -/
theorem computeMemoryInfo_raises_flags (host : MemoryInfoHost) (stats : AllocSiteStats)
    (liveCount liveSize dflag : Nat)
    (hraised : (AllocSiteStats.ComputeMemoryInfo host stats liveCount liveSize dflag).2.2
      ≠ dflag) :
    flaggedSizeSum host stats.m_allocationLiveSet ≥
        regularSizeSum host stats.m_allocationLiveSet / 2
      ∧ (AllocSiteStats.ComputeMemoryInfo host stats liveCount liveSize dflag).2.1 =
        liveSize + (regularSizeSum host stats.m_allocationLiveSet
          + flaggedSizeSum host stats.m_allocationLiveSet)
      ∧ flaggedSizeSum host stats.m_allocationLiveSet * 3 + 1 ≥
        regularSizeSum host stats.m_allocationLiveSet
          + flaggedSizeSum host stats.m_allocationLiveSet
      ∧ (AllocSiteStats.ComputeMemoryInfo host stats liveCount liveSize dflag).2.2 =
        dflag ||| raisedFlags host 0 stats.m_allocationLiveSet := by
  rw [computeMemoryInfo_eq] at hraised ⊢
  by_cases hc : flaggedSizeSum host stats.m_allocationLiveSet ≥
      regularSizeSum host stats.m_allocationLiveSet / 2
  · simp only [hc, if_true]
    refine ⟨trivial, by omega, by omega, trivial⟩
  · simp only [hc, if_false] at hraised
    exact absurd rfl hraised

/-- Witness of C24: the site of the counterexample changes `dflag` from 0 to 1. -/
theorem computeMemoryInfo_raises_flags_witness :
    (AllocSiteStats.ComputeMemoryInfo warningHost
        { m_threadContext := 1, m_allocationCount := 2, m_allocationLiveSet := [2, 4] }
        0 0 0).2.2 ≠ 0
      ∧ flaggedSizeSum warningHost [2, 4] ≥ regularSizeSum warningHost [2, 4] / 2
      ∧ flaggedSizeSum warningHost [2, 4] * 3 + 1 ≥
        regularSizeSum warningHost [2, 4] + flaggedSizeSum warningHost [2, 4] :=
  ⟨by decide,
   (computeMemoryInfo_raises_flags warningHost
      { m_threadContext := 1, m_allocationCount := 2, m_allocationLiveSet := [2, 4] }
      0 0 0 (by decide)).1,
   (computeMemoryInfo_raises_flags warningHost
      { m_threadContext := 1, m_allocationCount := 2, m_allocationLiveSet := [2, 4] }
      0 0 0 (by decide)).2.2.1⟩

/-! ## Sibling entries -/

theorem storeItem_keys (d : CallerPathList) (key : Int) (e : AllocPathEntry) :
    (StoreItem d key e).map (fun kv => kv.1) = d.map (fun kv => kv.1) := by
  induction d with
  | nil => rfl
  | cons kv rest ih =>
    by_cases hk : kv.1 = key
    · simp [StoreItem, hk]
    · simp [StoreItem, hk, ih]

theorem storeItem_mem (d : CallerPathList) (key : Int) (e : AllocPathEntry) :
    ∀ kv ∈ StoreItem d key e, kv ∈ d ∨ kv = (key, e) := by
  induction d with
  | nil => simp [StoreItem]
  | cons kv rest ih =>
    intro x hx
    by_cases hk : kv.1 = key
    · simp [StoreItem, hk] at hx
      rcases hx with hx | hx
      · exact Or.inr hx
      · exact Or.inl (List.mem_cons_of_mem _ hx)
    · simp [StoreItem, hk] at hx
      rcases hx with hx | hx
      · subst hx; exact Or.inl (List.mem_cons_self _ _)
      · rcases ih x hx with h | h
        · exact Or.inl (List.mem_cons_of_mem _ h)
        · exact Or.inr h

theorem item_none_not_key (d : CallerPathList) (key : Int) (h : Item d key = none) :
    key ∉ d.map (fun kv => kv.1) := by
  induction d with
  | nil => simp
  | cons kv rest ih =>
    by_cases hk : kv.1 = key
    · simp [Item, hk] at h
    · simp [Item, hk] at h
      simp only [List.map_cons, List.mem_cons, not_or]
      exact ⟨fun heq => hk heq.symm, ih h⟩

theorem attributeTo_keyedRoots (host : Host) (roots : CallerPathList)
    (function line column threadContext obj : Nat) (h : KeyedRoots host roots) :
    KeyedRoots host (attributeTo host roots function line column threadContext obj) := by
  obtain ⟨hkey, hnodup⟩ := h
  unfold attributeTo
  cases hit : Item roots (FrameKey host function line column) with
  | none =>
    refine ⟨?_, ?_⟩
    · intro kv hkv
      simp at hkv
      rcases hkv with hkv | hkv
      · exact hkey kv hkv
      · subst hkv; rfl
    · simp only [List.map_append, List.map_cons, List.map_nil]
      rw [List.nodup_append]
      refine ⟨hnodup, List.nodup_singleton _, ?_⟩
      intro a ha hb
      simp only [List.mem_singleton] at hb
      subst hb
      exact item_none_not_key roots _ hit ha
  | some tentry =>
    refine ⟨?_, ?_⟩
    · intro kv hkv
      rcases storeItem_mem roots _ _ kv hkv with h1 | h1
      · exact hkey kv h1
      · subst h1
        have := hkey _ (item_mem _ _ _ hit)
        show FrameKey host function line column =
          FrameKey host (tentry.addAllocation obj).Location.m_function
            (tentry.addAllocation obj).Location.m_line
            (tentry.addAllocation obj).Location.m_column
        rw [addAllocation_location]
        exact this
    · rw [storeItem_keys]; exact hnodup

theorem applyOp_keyedRoots (host : Host) (t t1 : AllocTracer) (op : TracerOp)
    (hwf : WellFormed t) (hk : KeyedRoots host t.m_allocPathRoots)
    (h : applyOp host t op = .ok t1) : KeyedRoots host t1.m_allocPathRoots := by
  cases op with
  | push body =>
    simp only [applyOp, PushCallStackEntry, Except.ok.injEq] at h
    subst h; exact hk
  | pop =>
    simp only [applyOp, PopCallStackEntry] at h
    split at h
    · cases h
    · simp only [Except.ok.injEq] at h
      subst h; exact hk
  | update_offset index =>
    simp only [applyOp, UpdateBytecodeIndex] at h
    split at h
    · cases h
    · simp only [Except.ok.injEq] at h
      subst h; exact hk
  | record obj =>
    simp only [applyOp, addAllocation_wellFormed host t obj hwf] at h
    cases htop : topUserFrame host t.m_callStack with
    | none =>
      simp only [htop, Except.ok.injEq] at h
      subst h; exact hk
    | some fr =>
      simp only [htop, Except.ok.injEq] at h
      subst h
      exact attributeTo_keyedRoots host _ _ _ _ _ _ hk

theorem runOps_keyedRoots (host : Host) (ops : List TracerOp) :
    ∀ (t t1 : AllocTracer), WellFormed t → KeyedRoots host t.m_allocPathRoots →
      runOps host t ops = .ok t1 → KeyedRoots host t1.m_allocPathRoots := by
  induction ops with
  | nil =>
    intro t t1 _ hk h
    simp only [runOps, Except.ok.injEq] at h
    subst h; exact hk
  | cons op rest ih =>
    intro t t1 hwf hk h
    simp only [runOps] at h
    cases hop : applyOp host t op with
    | error e => simp [hop] at h
    | ok t2 =>
      simp only [hop] at h
      exact ih t2 t1 (applyOp_wellFormed host t t2 op hwf hop)
        (applyOp_keyedRoots host t t2 op hwf hk hop) h

/-- C23 (counterexample): the functions 4096 and 8192 of the example runtime
are both code of `/a.js`, and offset 0 resolves to line 0, column 0 in both.
After `push 4096; record 2; pop; push 8192; record 4` the tree has two roots,
and `SameAsOtherLocation` on the location of the first and the function, line
and column of the second answers true: two siblings with equal locations. -/
theorem siblings_with_same_url_line_column :
    runOps exampleHost AllocTracer.new
        [.push 4096, .record 2, .pop, .push 8192, .record 4] = .ok twoFunctionsTracer
      ∧ twoFunctionsTracer.m_allocPathRoots.map (fun kv => kv.2.Location) =
        [{ m_function := 4096, m_line := 0, m_column := 0 },
         { m_function := 8192, m_line := 0, m_column := 0 }]
      ∧ SourceLocation.SameAsOtherLocation exampleHost
          { m_function := 4096, m_line := 0, m_column := 0 } 8192 0 0 = some true :=
  ⟨rfl, rfl, by decide⟩

/-- C23 (amended): in every tracer reached from a new tracer by push, pop,
update_offset and record calls, all siblings are roots and terminal entries,
every root is stored under the key of its own location, no two roots have the
same key, and no two roots have the same location, locations being equal when
they have the same function, the same line and the same column. -/
theorem siblings_have_distinct_locations (host : Host) (t : AllocTracer)
    (hreach : Reachable host t) :
    (∀ kv ∈ t.m_allocPathRoots, kv.2.IsTerminalStatsEntry = true)
      ∧ (∀ kv ∈ t.m_allocPathRoots,
          kv.1 = FrameKey host kv.2.Location.m_function kv.2.Location.m_line
            kv.2.Location.m_column)
      ∧ (t.m_allocPathRoots.map (fun kv => kv.1)).Nodup
      ∧ (t.m_allocPathRoots.map (fun kv => kv.2.Location)).Nodup := by
  have hwf := reachable_wellFormed host t hreach
  obtain ⟨ops, hops⟩ := hreach
  have hk : KeyedRoots host t.m_allocPathRoots :=
    runOps_keyedRoots host ops _ _ wellFormed_new
      ⟨by intro kv hkv; simp [AllocTracer.new] at hkv, by simp [AllocTracer.new]⟩ hops
  refine ⟨hwf.2, hk.1, hk.2, ?_⟩
  have hmap : t.m_allocPathRoots.map (fun kv => kv.1) =
      (t.m_allocPathRoots.map (fun kv => kv.2.Location)).map
        (fun loc => FrameKey host loc.m_function loc.m_line loc.m_column) := by
    rw [List.map_map]
    apply List.map_congr_left
    intro kv hkv
    exact hk.1 kv hkv
  have hnodup := hk.2
  rw [hmap] at hnodup
  exact List.Nodup.of_map _ hnodup

/-- Witness of C23: the tracer with the leaves of the functions 4096 and 8192 is
reachable; its two roots have the keys 4096 and 8192 and different locations. -/
theorem siblings_have_distinct_locations_witness :
    runOps exampleHost AllocTracer.new
        [.push 4096, .record 2, .pop, .push 8192, .record 4] = .ok twoFunctionsTracer
      ∧ (twoFunctionsTracer.m_allocPathRoots.map (fun kv => kv.1)).Nodup
      ∧ (twoFunctionsTracer.m_allocPathRoots.map (fun kv => kv.2.Location)).Nodup :=
  ⟨rfl,
   (siblings_have_distinct_locations exampleHost twoFunctionsTracer
      ⟨[.push 4096, .record 2, .pop, .push 8192, .record 4], rfl⟩).2.2.1,
   (siblings_have_distinct_locations exampleHost twoFunctionsTracer
      ⟨[.push 4096, .record 2, .pop, .push 8192, .record 4], rfl⟩).2.2.2⟩

/-! ## File ids of one report -/

theorem writtenFileIds_append (a b : List WriterCall) :
    writtenFileIds (a ++ b) = writtenFileIds a ++ writtenFileIds b := by
  induction a with
  | nil => rfl
  | cons x rest ih =>
    have hcons : ∀ l : List WriterCall,
        writtenFileIds (x :: l) = writtenFileIds [x] ++ writtenFileIds l := by
      intro l
      cases x with
      | WriteUInt32 key value sep => cases key <;> rfl
      | _ => rfl
    rw [List.cons_append, hcons (rest ++ b), hcons rest, ih, List.append_assoc]

theorem writtenFileIds_siteLoop (keys : List Nat) :
    ∀ first : Bool, writtenFileIds (JSONWriteSiteDataTrimed.loop keys first) = [] := by
  induction keys with
  | nil => intro first; rfl
  | cons k rest ih =>
    intro first
    cases first <;>
      simp [JSONWriteSiteDataTrimed.loop, writtenFileIds_append, writtenFileIds, ih]

theorem writtenFileIds_tableLoop (files : List FileSourceEntry) :
    ∀ i : Nat, writtenFileIds (JSONWriteFileToSourceList.loop files i) =
      List.range' (i + 1) files.length := by
  induction files with
  | nil => intro i; rfl
  | cons entry rest ih =>
    intro i
    simp only [JSONWriteFileToSourceList.loop, writtenFileIds_append, ih, List.length_cons,
      List.range'_succ]
    rfl

theorem writtenFileIds_table (files : List FileSourceEntry) (sep : Separator) :
    writtenFileIds (JSONWriteFileToSourceList files sep) = List.range' 1 files.length := by
  simp only [JSONWriteFileToSourceList, writtenFileIds_append, writtenFileIds_tableLoop]
  simp [writtenFileIds]

theorem write_terminal_root_fileIds (host : Host) (loc : SourceLocation) (c sz : Nat)
    (stats : AllocSiteStats) (files : List FileSourceEntry) (hc : c ≠ 0)
    (hu : IsInternalLocation host { Function := loc.m_function, BytecodeIndex := 0 } = false) :
    ∃ url w,
      JSONWriteDataPathEntryTrimed host (.terminal loc c sz true stats) files =
          .ok (w, (addSourceItem files (some url) (host.DecodedSource loc.m_function)).1)
        ∧ writtenFileIds w =
          [(addSourceItem files (some url) (host.DecodedSource loc.m_function)).2] := by
  obtain ⟨url, hurl⟩ := sourceContext_of_user host loc.m_function hu
  refine ⟨url,
    [.WriteRecordStart .NoSeparator]
      ++ [ .WriteRecordStartWithKey .src .BigSpaceSeparator,
           .writeRawCharsWithKey .function (host.GetDisplayName loc.m_function) .NoSeparator,
           .WriteInt64 .line (((loc.m_line + 1) % 4294967296 : Nat) : Int) .CommaSeparator,
           .WriteInt64 .column ((loc.m_column : Nat) : Int) .CommaSeparator,
           .WriteUInt32 .fileId
             (addSourceItem files (some url) (host.DecodedSource loc.m_function)).2
             .CommaSeparator,
           .WriteRecordEnd ]
      ++ writeAllocInfo c sz
      ++ stats.JSONWriteSiteDataTrimed
      ++ [.WriteSeperator .BigSpaceSeparator, .WriteRecordEnd], ?_, ?_⟩
  · simp only [JSONWriteDataPathEntryTrimed, JSONWriteLocationDataTrimed, hurl, hc,
      Bool.not_true, Bool.false_eq_true, if_false]
  · simp [writtenFileIds_append, writtenFileIds, writeAllocInfo,
      AllocSiteStats.JSONWriteSiteDataTrimed, writtenFileIds_siteLoop]

theorem writeRoots_fileIds (host : Host) (roots : CallerPathList)
    (hul : UserLeaves host roots) :
    ∀ (first : Bool) (files : List FileSourceEntry),
      ∃ w files1,
        EmitTrimedAllocTrace.writeRoots host roots first files = .ok (w, files1)
          ∧ files.length ≤ files1.length
          ∧ (∀ id ∈ writtenFileIds w, 1 ≤ id ∧ id ≤ files1.length)
          ∧ (∀ i, files.length < i → i ≤ files1.length → i ∈ writtenFileIds w) := by
  induction roots with
  | nil =>
    intro first files
    refine ⟨[], files, rfl, Nat.le_refl _, ?_, ?_⟩
    · intro id hid; simp [writtenFileIds] at hid
    · intro i h1 h2; omega
  | cons kv rest ih =>
    intro first files
    obtain ⟨k, e⟩ := kv
    have hrest : UserLeaves host rest := fun x hx => hul x (List.mem_cons_of_mem _ hx)
    have he := hul (k, e) (List.mem_cons_self _ _)
    cases e with
    | node loc c sz b paths => simp [AllocPathEntry.IsTerminalStatsEntry] at he
    | terminal loc c sz b stats =>
      have hu : IsInternalLocation host { Function := loc.m_function, BytecodeIndex := 0 }
          = false := he.2
      by_cases hcond : (b && decide (c > 0)) = true
      · have hb : b = true := by
          cases b
          · simp at hcond
          · rfl
        have hc : c ≠ 0 := by
          intro h0; subst h0; simp at hcond
        subst hb
        obtain ⟨url, w1, hw1, hids1⟩ :=
          write_terminal_root_fileIds host loc c sz stats files hc hu
        obtain ⟨hge1, hle1, hgrow⟩ :=
          addSourceItem_id_range files url (host.DecodedSource loc.m_function)
        generalize hr : addSourceItem files (some url) (host.DecodedSource loc.m_function) = r
          at hw1 hids1 hge1 hle1 hgrow
        obtain ⟨f1, id1⟩ := r
        simp only at hw1 hids1 hge1 hle1 hgrow
        obtain ⟨w2, f2, hw2, hlen2, hrange2, hall2⟩ := ih hrest false f1
        have hcpos : decide (c > 0) = true := by simp; omega
        have hids : writtenFileIds
            ((if !first then [WriterCall.WriteSeperator .CommaSeparator] else [])
              ++ [.WriteSeperator .BigSpaceSeparator] ++ w1 ++ w2) =
            id1 :: writtenFileIds w2 := by
          cases first <;> simp [writtenFileIds_append, writtenFileIds, hids1]
        have hlen1 : files.length ≤ f1.length := by
          rcases hgrow with hg | hg
          · rw [hg]
          · have := (Prod.mk.inj hg).1
            rw [this]; simp
        refine ⟨(if !first then [WriterCall.WriteSeperator .CommaSeparator] else [])
            ++ [.WriteSeperator .BigSpaceSeparator] ++ w1 ++ w2, f2, ?_, ?_, ?_, ?_⟩
        · simp only [EmitTrimedAllocTrace.writeRoots, AllocPathEntry.IsInterestingSite,
            AllocPathEntry.LiveCount, hcpos, Bool.and_self, if_true, hw1, hw2]
        · omega
        · intro id hid
          rw [hids] at hid
          rcases List.mem_cons.mp hid with h | h
          · subst h; omega
          · exact hrange2 id h
        · intro i hi1 hi2
          rw [hids]
          rcases hgrow with hg | hg
          · rw [hg] at hall2
            exact List.mem_cons_of_mem _ (hall2 i hi1 hi2)
          · have hf1 := (Prod.mk.inj hg).1
            have hid1 := (Prod.mk.inj hg).2
            by_cases hi : i = files.length + 1
            · rw [hid1, hi]; exact List.mem_cons_self _ _
            · have hlt : f1.length < i := by
                rw [hf1]; simp; omega
              exact List.mem_cons_of_mem _ (hall2 i hlt hi2)
      · obtain ⟨w2, f2, hw2, hlen2, hrange2, hall2⟩ := ih hrest first files
        refine ⟨w2, f2, ?_, hlen2, hrange2, hall2⟩
        simp only [EmitTrimedAllocTrace.writeRoots, AllocPathEntry.IsInterestingSite,
          AllocPathEntry.LiveCount, hcond, Bool.false_eq_true, if_false, hw2]

theorem emitted_roots_userLeaves (host : Host) (t : AllocTracer) (ct st : Nat)
    (hul : UserLeaves host t.m_allocPathRoots) :
    UserLeaves host
      (EmitTrimedAllocTrace.flagRoots ct st (estimatedRoots host t.m_allocPathRoots)) :=
  map_userLeaves host (FlagInterestingSites ct st)
    (fun e => ⟨(flag_keeps _ _ e).1, (flag_keeps _ _ e).2.1⟩) _
    (map_userLeaves host (EstimateMemoryUseInfo host) (estimate_keeps host) _ hul)

/-- C29: an emission of a tracer a session leads to, started on an empty file
table with its stream opened, succeeds and writes a report in which the
allocation records `w` are followed by the file table `files1`.  The table is
written with the ids 1 to n, n being its number of entries; every file id
written in an allocation record lies between 1 and n; every id from 1 to n is
written in some allocation record; and the table is empty after the emission. -/
theorem emitted_file_ids_match_table (host : Host) (t : AllocTracer) (snapId : Int)
    (hreach : SessionReachable host t) (hopen : host.OpenResourceStream snapId = true) :
    ∃ r w files1,
      EmitTrimedAllocTrace host t [] snapId = .ok r
        ∧ r.written =
          [ .setQuotedKey true, .WriteRecordStart .NoSeparator, .AdjustIndent 1,
            .WriteSequenceStartWithKey .allocations .BigSpaceSeparator, .AdjustIndent 1 ]
          ++ w
          ++ [.WriteSeperator .BigSpaceSeparator, .AdjustIndent (-1), .WriteSequenceEnd]
          ++ JSONWriteFileToSourceList files1 .CommaAndBigSpaceSeparator
          ++ [.AdjustIndent (-1), .WriteRecordEnd, .FlushAndClose]
        ∧ writtenFileIds (JSONWriteFileToSourceList files1 .CommaAndBigSpaceSeparator) =
          List.range' 1 files1.length
        ∧ (∀ id ∈ writtenFileIds w, 1 ≤ id ∧ id ≤ files1.length)
        ∧ (∀ i, 1 ≤ i → i ≤ files1.length → i ∈ writtenFileIds w)
        ∧ r.files = [] := by
  obtain ⟨_, hul⟩ := sessionReachable_invariant host t hreach
  obtain ⟨r, hr⟩ := emit_succeeds host t [] snapId hul hopen
  obtain ⟨_, _, _, ht, w, files1, hw, hfiles, hwritten⟩ := emit_ok_fields host t [] snapId r hr
  have hul2 : UserLeaves host r.tracer.m_allocPathRoots := by
    rw [ht]; exact emitted_roots_userLeaves host t _ _ hul
  obtain ⟨w', f', hw', _, hrange, hall⟩ := writeRoots_fileIds host _ hul2 true []
  rw [hw] at hw'
  have hww : w = w' := (Prod.mk.inj (Except.ok.inj hw')).1
  have hff : files1 = f' := (Prod.mk.inj (Except.ok.inj hw')).2
  subst hww; subst hff
  refine ⟨r, w, files1, hr, hwritten, writtenFileIds_table files1 _, hrange, ?_, hfiles⟩
  intro i h1 h2
  exact hall i (by simp only [List.length_nil]; omega) h2

/-- Witness of C29: the tracer reached by `push 4096; record 2` is reachable and
the stream of the example runtime opens. -/
theorem emitted_file_ids_match_table_witness :
    runSession exampleHost Session.start [.call (.push 4096), .call (.record 2)] =
        .ok { tracer := oneLeafTracer, files := [], outputs := [] }
      ∧ exampleHost.OpenResourceStream 0 = true
      ∧ ∃ (r : EmitResult) (w : List WriterCall) (files1 : List FileSourceEntry),
        EmitTrimedAllocTrace exampleHost oneLeafTracer [] 0 = .ok r
          ∧ r.written =
            [ .setQuotedKey true, .WriteRecordStart .NoSeparator, .AdjustIndent 1,
              .WriteSequenceStartWithKey .allocations .BigSpaceSeparator, .AdjustIndent 1 ]
            ++ w
            ++ [.WriteSeperator .BigSpaceSeparator, .AdjustIndent (-1), .WriteSequenceEnd]
            ++ JSONWriteFileToSourceList files1 .CommaAndBigSpaceSeparator
            ++ [.AdjustIndent (-1), .WriteRecordEnd, .FlushAndClose]
          ∧ writtenFileIds (JSONWriteFileToSourceList files1 .CommaAndBigSpaceSeparator) =
            List.range' 1 files1.length
          ∧ (∀ id ∈ writtenFileIds w, 1 ≤ id ∧ id ≤ files1.length)
          ∧ (∀ i, 1 ≤ i → i ≤ files1.length → i ∈ writtenFileIds w)
          ∧ r.files = [] :=
  ⟨rfl, by decide,
   emitted_file_ids_match_table exampleHost oneLeafTracer 0
     ⟨[.call (.push 4096), .call (.record 2)], _, rfl, rfl⟩ (by decide)⟩

/-! ## Low totals -/

mutual
theorem flag_zero_leaves (ct st : Nat) (h : ct = 0 ∨ st = 0) :
    ∀ e : AllocPathEntry, (FlagInterestingSites ct st e).allLeavesInteresting = true
  | .terminal loc c s b stats => by
    rcases h with h | h <;>
      simp [FlagInterestingSites, AllocPathEntry.allLeavesInteresting, h]
  | .node loc c s b paths => by
    simp only [FlagInterestingSites, flag_eachValue_eq, AllocPathEntry.allLeavesInteresting]
    exact flag_zero_leaves_list ct st h paths
theorem flag_zero_leaves_list (ct st : Nat) (h : ct = 0 ∨ st = 0) :
    ∀ paths : List (Int × AllocPathEntry),
      allLeavesInterestingList
        (paths.map (fun kv => (kv.1, FlagInterestingSites ct st kv.2))) = true
  | [] => rfl
  | (k, e) :: rest => by
    simp only [List.map_cons, allLeavesInterestingList, flag_zero_leaves ct st h e,
      flag_zero_leaves_list ct st h rest, Bool.and_self]
end

/-- C30: an emission of a tracer a session leads to, its stream opened, whose
total live count or whose total estimated size is below 100.  The emission
succeeds; a total below 100 gives the threshold 0; every leaf of the tree left
by the flag pass is flagged interesting, as is every leaf of any tree after a
flag pass with a threshold 0, a leaf with live count 0 included; the roots
that are emitted are exactly the roots with a positive live count, and the
allocation records written are those of these roots, one for each. -/
theorem low_total_flags_every_leaf (host : Host) (t : AllocTracer)
    (files : List FileSourceEntry) (snapId : Int)
    (hreach : SessionReachable host t) (hopen : host.OpenResourceStream snapId = true)
    (hlow : liveCountSum (estimatedRoots host t.m_allocPathRoots) < 100
      ∨ liveSizeSum (estimatedRoots host t.m_allocPathRoots) < 100) :
    ∃ r w files1,
      EmitTrimedAllocTrace host t files snapId = .ok r
        ∧ (liveCountSum (estimatedRoots host t.m_allocPathRoots) < 100 → r.countThreshold = 0)
        ∧ (liveSizeSum (estimatedRoots host t.m_allocPathRoots) < 100 →
            r.estimatedSizeThreshold = 0)
        ∧ (∀ kv ∈ r.tracer.m_allocPathRoots,
            kv.2.allLeavesInteresting = true ∧ kv.2.IsInterestingSite = true)
        ∧ (∀ (e : AllocPathEntry) (ct st : Nat), ct = 0 ∨ st = 0 →
            (FlagInterestingSites ct st e).allLeavesInteresting = true)
        ∧ (∀ (loc : SourceLocation) (s st : Nat) (b : Bool) (stats : AllocSiteStats),
            (FlagInterestingSites 0 st (.terminal loc 0 s b stats)).IsInterestingSite = true)
        ∧ r.tracer.m_allocPathRoots.filter (fun kv => rootIsEmitted host kv.2) =
          r.tracer.m_allocPathRoots.filter (fun kv => decide (kv.2.LiveCount > 0))
        ∧ EmitTrimedAllocTrace.writeRoots host r.tracer.m_allocPathRoots true files =
          .ok (w, files1)
        ∧ EmitTrimedAllocTrace.writeRoots host
            (r.tracer.m_allocPathRoots.filter (fun kv => decide (kv.2.LiveCount > 0)))
            true files = .ok (w, files1)
        ∧ countRecordStart w =
          (r.tracer.m_allocPathRoots.filter (fun kv => decide (kv.2.LiveCount > 0))).length
        ∧ r.written =
          [ .setQuotedKey true, .WriteRecordStart .NoSeparator, .AdjustIndent 1,
            .WriteSequenceStartWithKey .allocations .BigSpaceSeparator, .AdjustIndent 1 ]
          ++ w
          ++ [.WriteSeperator .BigSpaceSeparator, .AdjustIndent (-1), .WriteSequenceEnd]
          ++ JSONWriteFileToSourceList files1 .CommaAndBigSpaceSeparator
          ++ [.AdjustIndent (-1), .WriteRecordEnd, .FlushAndClose] := by
  obtain ⟨_, hul⟩ := sessionReachable_invariant host t hreach
  obtain ⟨r, hr⟩ := emit_succeeds host t files snapId hul hopen
  obtain ⟨_, hct, hst, ht, w, files1, hw, _, hwritten⟩ :=
    emit_ok_fields host t files snapId r hr
  have hzero : ∀ total : Nat, total < 100 → interestingThreshold total = 0 := by
    intro total h
    rw [interestingThreshold_eq_div total (by omega)]
    omega
  have hc0 : liveCountSum (estimatedRoots host t.m_allocPathRoots) < 100 →
      r.countThreshold = 0 := fun h => by
    rw [hct, Nat.mod_eq_of_lt (by omega)]; exact hzero _ h
  have hs0 : liveSizeSum (estimatedRoots host t.m_allocPathRoots) < 100 →
      r.estimatedSizeThreshold = 0 := fun h => by
    rw [hst, Nat.mod_eq_of_lt (by omega)]; exact hzero _ h
  have hthr : r.countThreshold = 0 ∨ r.estimatedSizeThreshold = 0 := by
    rcases hlow with h | h
    · exact Or.inl (hc0 h)
    · exact Or.inr (hs0 h)
  have hul2 : UserLeaves host r.tracer.m_allocPathRoots := by
    rw [ht]; exact emitted_roots_userLeaves host t _ _ hul
  have hleaves : ∀ kv ∈ r.tracer.m_allocPathRoots, kv.2.allLeavesInteresting = true := by
    intro kv hkv
    rw [ht] at hkv
    simp only [EmitTrimedAllocTrace.flagRoots, List.mem_map] at hkv
    obtain ⟨kv0, _, hkv0⟩ := hkv
    rw [← hkv0]
    exact flag_zero_leaves _ _ hthr kv0.2
  have hflag : ∀ kv ∈ r.tracer.m_allocPathRoots,
      kv.2.allLeavesInteresting = true ∧ kv.2.IsInterestingSite = true := by
    intro kv hkv
    have h1 := hleaves kv hkv
    have h2 := (hul2 kv hkv).1
    refine ⟨h1, ?_⟩
    obtain ⟨k, e⟩ := kv
    cases e with
    | node loc c sz b paths => simp [AllocPathEntry.IsTerminalStatsEntry] at h2
    | terminal loc c sz b stats => exact h1
  have hfilter : r.tracer.m_allocPathRoots.filter (fun kv => rootIsEmitted host kv.2) =
      r.tracer.m_allocPathRoots.filter (fun kv => decide (kv.2.LiveCount > 0)) := by
    apply List.filter_congr
    intro kv hkv
    simp only [rootIsEmitted, (hflag kv hkv).2, (hul2 kv hkv).2, Bool.true_and, Bool.not_false,
      Bool.and_true]
  obtain ⟨w', f', hw', hcount, hfil, _⟩ := writeRoots_spec host _ hul2 true files
  rw [hw] at hw'
  have hww : w = w' := (Prod.mk.inj (Except.ok.inj hw')).1
  have hff : files1 = f' := (Prod.mk.inj (Except.ok.inj hw')).2
  subst hww; subst hff
  rw [hfilter] at hcount hfil
  refine ⟨r, w, files1, hr, hc0, hs0, hflag, ?_, ?_, hfilter, hw, hfil, hcount, hwritten⟩
  · intro e ct st h
    exact flag_zero_leaves ct st h e
  · intro loc s st b stats
    simp [FlagInterestingSites, AllocPathEntry.IsInterestingSite]

/-- Witness of C30: the tracer reached by `push 4096; record 2` is reachable,
the stream of the example runtime opens, and its one live object gives the
total live count 1. -/
theorem low_total_flags_every_leaf_witness :
    runSession exampleHost Session.start [.call (.push 4096), .call (.record 2)] =
        .ok { tracer := oneLeafTracer, files := [], outputs := [] }
      ∧ exampleHost.OpenResourceStream 0 = true
      ∧ liveCountSum (estimatedRoots exampleHost oneLeafTracer.m_allocPathRoots) = 1
      ∧ ∃ r w files1,
        EmitTrimedAllocTrace exampleHost oneLeafTracer [] 0 = .ok r
          ∧ r.countThreshold = 0
          ∧ (∀ kv ∈ r.tracer.m_allocPathRoots,
              kv.2.allLeavesInteresting = true ∧ kv.2.IsInterestingSite = true)
          ∧ r.tracer.m_allocPathRoots.filter (fun kv => rootIsEmitted exampleHost kv.2) =
            r.tracer.m_allocPathRoots.filter (fun kv => decide (kv.2.LiveCount > 0))
          ∧ EmitTrimedAllocTrace.writeRoots exampleHost r.tracer.m_allocPathRoots true [] =
            .ok (w, files1) := by
  have hlow : liveCountSum (estimatedRoots exampleHost oneLeafTracer.m_allocPathRoots) < 100 :=
    by decide
  refine ⟨rfl, by decide, by decide, ?_⟩
  obtain ⟨r, w, files1, h1, h2, _, h4, _, _, h7, h8, _⟩ :=
    low_total_flags_every_leaf exampleHost oneLeafTracer [] 0
      ⟨[.call (.push 4096), .call (.record 2)], _, rfl, rfl⟩ (by decide) (Or.inl hlow)
  exact ⟨r, w, files1, h1, h2 hlow, h4, h7, h8⟩

/-! ## The thresholds of an emission -/

theorem runSession_append (host : Host) (a b : List SessionEvent) :
    ∀ s : Session, runSession host s (a ++ b) =
      match runSession host s a with
      | .error e => .error e
      | .ok s1 => runSession host s1 b := by
  induction a with
  | nil => intro s; rfl
  | cons ev rest ih =>
    intro s
    simp only [List.cons_append, runSession]
    cases hstep : stepSession host s ev with
    | error e => rfl
    | ok s1 => exact ih s1

theorem emit_of_emittedLeaf (n : Nat) (b : Bool) :
    ∃ (r : EmitResult) (b1 : Bool),
      EmitTrimedAllocTrace exampleHost (emittedLeafTracer n b) [] 0 = .ok r
        ∧ r.tracer = emittedLeafTracer (n + 1) b1
        ∧ r.files = []
        ∧ liveCountSum (estimatedRoots exampleHost (emittedLeafTracer n b).m_allocPathRoots) =
          n + 1
        ∧ r.countThreshold = interestingThreshold ((n + 1) % 18446744073709551616) := by
  have hul : UserLeaves exampleHost (emittedLeafTracer n b).m_allocPathRoots := by
    intro kv hkv
    simp only [emittedLeafTracer, List.mem_singleton] at hkv
    subst hkv
    have hu : IsInternalLocation exampleHost { Function := 4096, BytecodeIndex := 0 } = false :=
      by decide
    exact ⟨rfl, hu⟩
  obtain ⟨r, hr⟩ := emit_succeeds exampleHost (emittedLeafTracer n b) [] 0 hul (by decide)
  obtain ⟨_, hct, _, ht, _, _, _, hfiles, _⟩ :=
    emit_ok_fields exampleHost (emittedLeafTracer n b) [] 0 r hr
  have h8 : objectSizeSum exampleHost [2] = 8 := by decide
  have hest : estimatedRoots exampleHost (emittedLeafTracer n b).m_allocPathRoots =
      [(4096, .terminal { m_function := 4096, m_line := 0, m_column := 0 } (n + 1)
          (8 * (n + 1)) b
          { m_threadContext := 1, m_allocationCount := 1, m_allocationLiveSet := [2] })] := by
    simp only [emittedLeafTracer, estimatedRoots, List.map_cons, List.map_nil,
      estimate_terminal, h8, List.length_singleton, Nat.mul_succ]
  have hsum : liveCountSum
      (estimatedRoots exampleHost (emittedLeafTracer n b).m_allocPathRoots) = n + 1 := by
    rw [hest]
    simp [liveCountSum, AllocPathEntry.LiveCount]
  refine ⟨r, decide (n + 1 ≥ r.countThreshold) ||
      decide (8 * (n + 1) ≥ r.estimatedSizeThreshold), hr, ?_, hfiles, hsum, ?_⟩
  · rw [ht, hest]
    rfl
  · rw [hct, hsum]

theorem session_after_emissions (n : Nat) :
    ∃ (b : Bool) (outs : List (List WriterCall)),
      runSession exampleHost Session.start
          ([.call (.push 4096), .call (.record 2)] ++ List.replicate n (.emit 0)) =
        .ok { tracer := emittedLeafTracer n b, files := [], outputs := outs } := by
  induction n with
  | zero => exact ⟨false, [], rfl⟩
  | succ n ih =>
    obtain ⟨b, outs, h⟩ := ih
    obtain ⟨r, b1, hr, ht, hf, _, _⟩ := emit_of_emittedLeaf n b
    refine ⟨b1, outs ++ [r.written], ?_⟩
    rw [List.replicate_succ', ← List.append_assoc, runSession_append, h]
    simp only [runSession, stepSession, hr, ht, hf]

set_option maxRecDepth 8192 in
/-- C15 (counterexample): the session `push 4096; record 2` followed by
9007199254740998 emissions, in the example runtime, is run to its end; every
emission adds the one live object to the live count of the leaf.  The next
emission succeeds with the total live count 9007199254740999, below 2^64, and
hands the count threshold 90071992547410 to the flag pass, while the integer
part of the hundredth of the total is 90071992547409: the total is not a
`double` and is rounded to 9007199254741000 before the product. -/
theorem threshold_differs_from_floor :
    ∃ (b : Bool) (outs : List (List WriterCall)) (r : EmitResult),
      runSession exampleHost Session.start
          ([.call (.push 4096), .call (.record 2)]
            ++ List.replicate 9007199254740998 (.emit 0)) =
        .ok { tracer := emittedLeafTracer 9007199254740998 b, files := [], outputs := outs }
      ∧ EmitTrimedAllocTrace exampleHost (emittedLeafTracer 9007199254740998 b) [] 0 = .ok r
      ∧ liveCountSum (estimatedRoots exampleHost
          (emittedLeafTracer 9007199254740998 b).m_allocPathRoots) = 9007199254740999
      ∧ r.countThreshold = 90071992547410
      ∧ 9007199254740999 / 100 = 90071992547409
      ∧ roundToDouble 9007199254740999 = 9007199254741000 := by
  obtain ⟨b, outs, h⟩ := session_after_emissions 9007199254740998
  obtain ⟨r, _, hr, _, _, hsum, hct⟩ := emit_of_emittedLeaf 9007199254740998 b
  have he : (9007199254740998 + 1) % 18446744073709551616 = 9007199254740999 := by norm_num
  have hthr : interestingThreshold 9007199254740999 = 90071992547410 := by decide
  refine ⟨b, outs, r, h, hr, hsum, ?_, by decide, by decide⟩
  rw [hct, he, hthr]

/-! ## The records of an emission -/

theorem depthAfter_append (a b : List WriterCall) :
    ∀ d, depthAfter d (a ++ b) = depthAfter (depthAfter d a) b := by
  induction a with
  | nil => intro d; rfl
  | cons x rest ih =>
    intro d
    cases x <;> exact ih _

theorem topLevelRecords_append (a b : List WriterCall) :
    ∀ d, topLevelRecords d (a ++ b) =
      topLevelRecords d a + topLevelRecords (depthAfter d a) b := by
  induction a with
  | nil => intro d; simp [topLevelRecords, depthAfter]
  | cons x rest ih =>
    intro d
    cases x with
    | WriteRecordStart sep =>
      show (if d = 0 then 1 else 0) + topLevelRecords (d + 1) (rest ++ b) =
        (if d = 0 then 1 else 0) + topLevelRecords (d + 1) rest
          + topLevelRecords (depthAfter (d + 1) rest) b
      rw [ih]; omega
    | _ => exact ih _

theorem depthAfter_siteLoop (keys : List Nat) :
    ∀ (first : Bool) (d : Nat), depthAfter d (JSONWriteSiteDataTrimed.loop keys first) = d := by
  induction keys with
  | nil => intro first d; rfl
  | cons k rest ih =>
    intro first d
    cases first <;> simp [JSONWriteSiteDataTrimed.loop, depthAfter_append, depthAfter, ih]

theorem topLevelRecords_siteLoop (keys : List Nat) :
    ∀ (first : Bool) (d : Nat),
      topLevelRecords d (JSONWriteSiteDataTrimed.loop keys first) = 0 := by
  induction keys with
  | nil => intro first d; rfl
  | cons k rest ih =>
    intro first d
    cases first <;>
      simp [JSONWriteSiteDataTrimed.loop, topLevelRecords_append, topLevelRecords,
        depthAfter_append, depthAfter, ih]

theorem writeLocation_spec (host : Host) (hinfo : ∀ f, host.GetSourceContextInfo f ≠ none)
    (loc : SourceLocation) (files : List FileSourceEntry) :
    ∃ w files1,
      JSONWriteLocationDataTrimed host loc files = .ok (w, files1)
        ∧ countRecordStart w = 0
        ∧ (∀ d, depthAfter d w = d)
        ∧ (∀ d, topLevelRecords d w = 0) := by
  cases hurl : host.GetSourceContextInfo loc.m_function with
  | none => exact absurd hurl (hinfo _)
  | some url =>
    refine ⟨[ .WriteRecordStartWithKey .src .BigSpaceSeparator,
              .writeRawCharsWithKey .function (host.GetDisplayName loc.m_function) .NoSeparator,
              .WriteInt64 .line (((loc.m_line + 1) % 4294967296 : Nat) : Int) .CommaSeparator,
              .WriteInt64 .column ((loc.m_column : Nat) : Int) .CommaSeparator,
              .WriteUInt32 .fileId
                (addSourceItem files url (host.DecodedSource loc.m_function)).2
                .CommaSeparator,
              .WriteRecordEnd ],
            (addSourceItem files url (host.DecodedSource loc.m_function)).1, ?_, ?_, ?_, ?_⟩
    · simp only [JSONWriteLocationDataTrimed, hurl]
    · simp [countRecordStart]
    · intro d; simp [depthAfter]
    · intro d; simp [topLevelRecords]

theorem siteData_spec (stats : AllocSiteStats) :
    countRecordStart stats.JSONWriteSiteDataTrimed = 0
      ∧ (∀ d, depthAfter d stats.JSONWriteSiteDataTrimed = d)
      ∧ (∀ d, topLevelRecords d stats.JSONWriteSiteDataTrimed = 0) := by
  refine ⟨?_, ?_, ?_⟩
  · simp [AllocSiteStats.JSONWriteSiteDataTrimed, countRecordStart_append, countRecordStart,
      countRecordStart_siteLoop]
  · intro d
    simp [AllocSiteStats.JSONWriteSiteDataTrimed, depthAfter_append, depthAfter,
      depthAfter_siteLoop]
  · intro d
    simp [AllocSiteStats.JSONWriteSiteDataTrimed, topLevelRecords_append, topLevelRecords,
      depthAfter_append, depthAfter, depthAfter_siteLoop, topLevelRecords_siteLoop]

theorem allocInfo_spec (c sz : Nat) :
    countRecordStart (writeAllocInfo c sz) = 0
      ∧ (∀ d, depthAfter d (writeAllocInfo c sz) = d)
      ∧ (∀ d, topLevelRecords d (writeAllocInfo c sz) = 0) := by
  refine ⟨by simp [writeAllocInfo, countRecordStart], ?_, ?_⟩
  · intro d; simp [writeAllocInfo, depthAfter]
  · intro d; simp [writeAllocInfo, topLevelRecords]

mutual
theorem write_entry_spec (host : Host) (hinfo : ∀ f, host.GetSourceContextInfo f ≠ none) :
    ∀ (e : AllocPathEntry) (files : List FileSourceEntry), e.IsInterestingSite = true →
      ∃ w files1,
        JSONWriteDataPathEntryTrimed host e files = .ok (w, files1)
          ∧ countRecordStart w = e.recordCount
          ∧ (∀ d, depthAfter d w = d)
          ∧ (∀ d, topLevelRecords d w =
              if d = 0 then (if e.LiveCount = 0 then 0 else 1) else 0)
          ∧ (e.LiveCount = 0 → w = [] ∧ files1 = files)
  | .terminal loc c sz b stats, files, hi => by
    simp only [AllocPathEntry.IsInterestingSite] at hi
    subst hi
    by_cases hc : c = 0
    · subst hc
      refine ⟨[], files, by simp [JSONWriteDataPathEntryTrimed], by
        simp [AllocPathEntry.recordCount, countRecordStart], fun d => rfl, ?_,
        fun _ => ⟨rfl, rfl⟩⟩
      intro d; simp [topLevelRecords, AllocPathEntry.LiveCount]
    · obtain ⟨w0, f0, hw0, hc0, hd0, ht0⟩ := writeLocation_spec host hinfo loc files
      obtain ⟨hc1, hd1, ht1⟩ := allocInfo_spec c sz
      obtain ⟨hc2, hd2, ht2⟩ := siteData_spec stats
      refine ⟨[.WriteRecordStart .NoSeparator] ++ w0 ++ writeAllocInfo c sz
          ++ stats.JSONWriteSiteDataTrimed
          ++ [.WriteSeperator .BigSpaceSeparator, .WriteRecordEnd], f0, ?_, ?_, ?_, ?_, ?_⟩
      · simp only [JSONWriteDataPathEntryTrimed, hw0, hc, Bool.not_true, Bool.false_eq_true,
          if_false]
      · simp [countRecordStart_append, countRecordStart, hc0, hc1, hc2,
          countRecordStart_siteLoop, AllocPathEntry.recordCount, hc]
      · intro d
        simp [depthAfter_append, depthAfter, hd0, hd1, hd2, depthAfter_siteLoop]
      · intro d
        simp [topLevelRecords_append, topLevelRecords, depthAfter_append, depthAfter, hd0, hd1,
          hd2, ht0, ht1, ht2, depthAfter_siteLoop, topLevelRecords_siteLoop,
          AllocPathEntry.LiveCount, hc]
      · intro h0
        exact absurd h0 hc
  | .node loc c sz b paths, files, hi => by
    simp only [AllocPathEntry.IsInterestingSite] at hi
    subst hi
    by_cases hc : c = 0
    · subst hc
      refine ⟨[], files, by simp [JSONWriteDataPathEntryTrimed], by
        simp [AllocPathEntry.recordCount, countRecordStart], fun d => rfl, ?_,
        fun _ => ⟨rfl, rfl⟩⟩
      intro d; simp [topLevelRecords, AllocPathEntry.LiveCount]
    · obtain ⟨w0, f0, hw0, hc0, hd0, ht0⟩ := writeLocation_spec host hinfo loc files
      obtain ⟨hc1, hd1, ht1⟩ := allocInfo_spec c sz
      obtain ⟨w2, f2, hw2, hc2, hd2, ht2⟩ := write_paths_spec host hinfo paths true f0
      have ht2a : ∀ d, topLevelRecords (d + 1 + 1) w2 = 0 := fun d => ht2 _ (by omega)
      refine ⟨[.WriteRecordStart .NoSeparator] ++ w0 ++ writeAllocInfo c sz
          ++ [.WriteSequenceStartWithKey .subPaths .CommaAndBigSpaceSeparator, .AdjustIndent 1]
          ++ w2
          ++ [.WriteSeperator .BigSpaceSeparator, .AdjustIndent (-1), .WriteSequenceEnd]
          ++ [.WriteSeperator .BigSpaceSeparator, .WriteRecordEnd], f2, ?_, ?_, ?_, ?_, ?_⟩
      · simp only [JSONWriteDataPathEntryTrimed, hw0, hw2, hc, Bool.not_true,
          Bool.false_eq_true, if_false]
      · simp [countRecordStart_append, countRecordStart, hc0, hc1, hc2,
          AllocPathEntry.recordCount, hc]
      · intro d
        simp [depthAfter_append, depthAfter, hd0, hd1, hd2]
      · intro d
        simp [topLevelRecords_append, topLevelRecords, depthAfter_append, depthAfter, hd0, hd1,
          hd2, ht0, ht1, ht2a, AllocPathEntry.LiveCount, hc]
      · intro h0
        exact absurd h0 hc
theorem write_paths_spec (host : Host) (hinfo : ∀ f, host.GetSourceContextInfo f ≠ none) :
    ∀ (paths : List (Int × AllocPathEntry)) (first : Bool) (files : List FileSourceEntry),
      ∃ w files1,
        JSONWriteDataPathEntryTrimed.eachValue host paths first files = .ok (w, files1)
          ∧ countRecordStart w = recordCountList paths
          ∧ (∀ d, depthAfter d w = d)
          ∧ (∀ d, d ≠ 0 → topLevelRecords d w = 0)
  | [], first, files =>
    ⟨[], files, rfl, rfl, fun _ => rfl, fun _ _ => rfl⟩
  | (k, e) :: rest, first, files => by
    by_cases hi : e.IsInterestingSite = true
    · obtain ⟨w1, f1, hw1, hc1, hd1, ht1, _⟩ := write_entry_spec host hinfo e files hi
      obtain ⟨w2, f2, hw2, hc2, hd2, ht2⟩ := write_paths_spec host hinfo rest false f1
      refine ⟨(if !first then [WriterCall.WriteSeperator .CommaSeparator] else [])
          ++ [.WriteSeperator .BigSpaceSeparator] ++ w1 ++ w2, f2, ?_, ?_, ?_, ?_⟩
      · simp only [JSONWriteDataPathEntryTrimed.eachValue, hi, if_true, hw1, hw2]
      · cases first <;>
          simp [countRecordStart_append, countRecordStart, hc1, hc2, recordCountList, hi]
      · intro d
        cases first <;> simp [depthAfter_append, depthAfter, hd1, hd2]
      · intro d hd
        cases first <;>
          simp [topLevelRecords_append, topLevelRecords, depthAfter_append, depthAfter, hd1,
            hd2, ht1, ht2 d hd, hd]
    · obtain ⟨w2, f2, hw2, hc2, hd2, ht2⟩ := write_paths_spec host hinfo rest first files
      refine ⟨w2, f2, ?_, ?_, hd2, ht2⟩
      · simp only [JSONWriteDataPathEntryTrimed.eachValue, hi, Bool.false_eq_true, if_false,
          hw2]
      · simp [recordCountList, hi, hc2]
end

theorem recordCount_of_not_live (e : AllocPathEntry) (h : e.LiveCount = 0) :
    e.recordCount = 0 := by
  cases e <;> simp_all [AllocPathEntry.recordCount, AllocPathEntry.LiveCount]

theorem writeRoots_records (host : Host) (hinfo : ∀ f, host.GetSourceContextInfo f ≠ none)
    (roots : CallerPathList) :
    ∀ (first : Bool) (files : List FileSourceEntry),
      ∃ w files1,
        EmitTrimedAllocTrace.writeRoots host roots first files = .ok (w, files1)
          ∧ countRecordStart w = recordCountList roots
          ∧ depthAfter 0 w = 0
          ∧ topLevelRecords 0 w = (roots.filter (fun kv => rootIsWritten kv.2)).length
          ∧ EmitTrimedAllocTrace.writeRoots host
              (roots.filter (fun kv => rootIsWritten kv.2)) first files = .ok (w, files1) := by
  induction roots with
  | nil =>
    intro first files
    exact ⟨[], files, rfl, rfl, rfl, rfl, rfl⟩
  | cons kv rest ih =>
    intro first files
    obtain ⟨k, e⟩ := kv
    by_cases hcond : rootIsWritten e = true
    · have hi : e.IsInterestingSite = true := by
        simp only [rootIsWritten, Bool.and_eq_true] at hcond
        exact hcond.1
      have hlive : e.LiveCount ≠ 0 := by
        simp only [rootIsWritten, Bool.and_eq_true, decide_eq_true_eq] at hcond
        omega
      have hcond2 : (e.IsInterestingSite && decide (e.LiveCount > 0)) = true := hcond
      obtain ⟨w1, f1, hw1, hc1, hd1, ht1, _⟩ := write_entry_spec host hinfo e files hi
      obtain ⟨w2, f2, hw2, hc2, hd2, ht2, hfil2⟩ := ih false f1
      have hfilter : (((k, e) :: rest).filter (fun kv => rootIsWritten kv.2)) =
          (k, e) :: rest.filter (fun kv => rootIsWritten kv.2) := by
        simp [List.filter, hcond]
      have ht1z : topLevelRecords 0 w1 = 1 := by
        rw [ht1 0]; simp [hlive]
      refine ⟨(if !first then [WriterCall.WriteSeperator .CommaSeparator] else [])
          ++ [.WriteSeperator .BigSpaceSeparator] ++ w1 ++ w2, f2, ?_, ?_, ?_, ?_, ?_⟩
      · simp only [EmitTrimedAllocTrace.writeRoots, hcond2, if_true, hw1, hw2]
      · cases first <;>
          simp [countRecordStart_append, countRecordStart, hc1, hc2, recordCountList, hi]
      · cases first <;> simp [depthAfter_append, depthAfter, hd1, hd2]
      · rw [hfilter]
        cases first <;>
          simp [topLevelRecords_append, topLevelRecords, depthAfter_append, depthAfter, hd1,
            ht1z, ht2] <;> omega
      · rw [hfilter]
        simp only [EmitTrimedAllocTrace.writeRoots, hcond2, if_true, hw1, hfil2]
    · have hcond2 : (e.IsInterestingSite && decide (e.LiveCount > 0)) = false := by
        simpa [rootIsWritten] using hcond
      have hfilter : (((k, e) :: rest).filter (fun kv => rootIsWritten kv.2)) =
          rest.filter (fun kv => rootIsWritten kv.2) := by
        simp [List.filter, hcond]
      have hzero : (if e.IsInterestingSite then e.recordCount else 0) = 0 := by
        by_cases hi : e.IsInterestingSite = true
        · have hl : e.LiveCount = 0 := by
            simp only [hi, Bool.true_and, decide_eq_false_iff_not] at hcond2
            omega
          simp [hi, recordCount_of_not_live e hl]
        · simp [hi]
      obtain ⟨w2, f2, hw2, hc2, hd2, ht2, hfil2⟩ := ih first files
      refine ⟨w2, f2, ?_, ?_, hd2, ?_, ?_⟩
      · simp only [EmitTrimedAllocTrace.writeRoots, hcond2, Bool.false_eq_true, if_false, hw2]
      · rw [hc2]; simp only [recordCountList, hzero, Nat.zero_add]
      · rw [hfilter]; exact ht2
      · rw [hfilter]; exact hfil2

theorem emit_succeeds_of_info (host : Host) (t : AllocTracer) (files : List FileSourceEntry)
    (snapId : Int) (hinfo : ∀ f, host.GetSourceContextInfo f ≠ none)
    (hopen : host.OpenResourceStream snapId = true) :
    ∃ r, EmitTrimedAllocTrace host t files snapId = .ok r := by
  obtain ⟨w, files1, hw, _⟩ :=
    writeRoots_records host hinfo
      (EmitTrimedAllocTrace.flagRoots
        (interestingThreshold
          (liveCountSum (estimatedRoots host t.m_allocPathRoots) % 18446744073709551616))
        (interestingThreshold
          (liveSizeSum (estimatedRoots host t.m_allocPathRoots) % 18446744073709551616))
        (estimatedRoots host t.m_allocPathRoots)) true files
  unfold EmitTrimedAllocTrace
  simp only [hopen, Bool.not_true, Bool.false_eq_true, if_false, estimateRoots_zero, hw]
  exact ⟨_, rfl⟩

theorem exampleHost_info : ∀ f, exampleHost.GetSourceContextInfo f ≠ none := by
  intro f
  simp only [exampleHost]
  split <;> simp

/-- C15 (amended): in a runtime whose functions all have a source context
info, an emission of any tracer, its stream opened, succeeds, and the
thresholds it hands to `FlagInterestingSites` are `(size_t)(T_count * 0.01)`
and `(size_t)(T_size * 0.01)` in `double` arithmetic, `T_count` and `T_size`
being the `size_t` sums (modulo 2^64) over all roots of the live count and the
live size after the estimate pass; the roots the emission leaves are the
estimated roots flagged with these thresholds.  For every total below 2^52 the
threshold is the integer part of the hundredth of the total. -/
theorem emit_thresholds (host : Host) (t : AllocTracer) (files : List FileSourceEntry)
    (snapId : Int) (hinfo : ∀ f, host.GetSourceContextInfo f ≠ none)
    (hopen : host.OpenResourceStream snapId = true) :
    ∃ r, EmitTrimedAllocTrace host t files snapId = .ok r
      ∧ r.countThreshold =
        interestingThreshold
          (liveCountSum (estimatedRoots host t.m_allocPathRoots) % 18446744073709551616)
      ∧ r.estimatedSizeThreshold =
        interestingThreshold
          (liveSizeSum (estimatedRoots host t.m_allocPathRoots) % 18446744073709551616)
      ∧ r.tracer.m_allocPathRoots =
        (estimatedRoots host t.m_allocPathRoots).map (fun kv =>
          (kv.1, FlagInterestingSites r.countThreshold r.estimatedSizeThreshold kv.2))
      ∧ (liveCountSum (estimatedRoots host t.m_allocPathRoots) % 18446744073709551616
            < 4503599627370496 →
        r.countThreshold =
          liveCountSum (estimatedRoots host t.m_allocPathRoots) % 18446744073709551616 / 100)
      ∧ (liveSizeSum (estimatedRoots host t.m_allocPathRoots) % 18446744073709551616
            < 4503599627370496 →
        r.estimatedSizeThreshold =
          liveSizeSum (estimatedRoots host t.m_allocPathRoots) % 18446744073709551616 / 100)
      := by
  obtain ⟨r, h⟩ := emit_succeeds_of_info host t files snapId hinfo hopen
  obtain ⟨_, hc, hs, ht, _⟩ := emit_ok_fields host t files snapId r h
  refine ⟨r, h, hc, hs, ?_, ?_, ?_⟩
  · rw [ht]; rfl
  · intro hlt; rw [hc]; exact interestingThreshold_eq_div _ hlt
  · intro hlt; rw [hs]; exact interestingThreshold_eq_div _ hlt

/-- Witness of C15 (amended): every function of the example runtime has a
source context info and its stream opens; the emission of the tracer reached
by `push 4096; record 2` succeeds, its totals are 1 and 8 and both thresholds
are 0. -/
theorem emit_thresholds_witness :
    (∀ f, exampleHost.GetSourceContextInfo f ≠ none)
      ∧ exampleHost.OpenResourceStream 0 = true
      ∧ liveCountSum (estimatedRoots exampleHost oneLeafTracer.m_allocPathRoots) = 1
      ∧ liveSizeSum (estimatedRoots exampleHost oneLeafTracer.m_allocPathRoots) = 8
      ∧ ∃ r, EmitTrimedAllocTrace exampleHost oneLeafTracer [] 0 = .ok r
        ∧ r.countThreshold = 1 % 18446744073709551616 / 100
        ∧ r.estimatedSizeThreshold = 8 % 18446744073709551616 / 100
        ∧ r.countThreshold = 0
        ∧ r.estimatedSizeThreshold = 0 := by
  refine ⟨exampleHost_info, by decide, by decide, by decide, ?_⟩
  obtain ⟨r, hr, _, _, _, h1, h2⟩ :=
    emit_thresholds exampleHost oneLeafTracer [] 0 exampleHost_info (by decide)
  have hc := h1 (by decide)
  have hs := h2 (by decide)
  exact ⟨r, hr, hc, hs, by rw [hc]; decide, by rw [hs]; decide⟩

end AllocTracing
